import Mathlib

/-!
Snapshot cache of `pkg/util/xds/cache.go`.

A shallow embedding of the xDS snapshot cache: the Go maps, the per-node
status records with their open watches, the delivery channels, and the
operations `SetSnapshot`, `GetSnapshot`, `ClearSnapshot`, `CreateWatch`,
`cancelWatch`, `respond`, `createResponse` and `Fetch`.

Conventions of the embedding.

* A Go `map[K]V` is an association list `GoMap K V`.  The operations keep the
  keys pairwise distinct when they start from distinct keys; they do not
  require it.  A `range` loop over a map visits the entries in list order (Go
  leaves the order unspecified).
* Methods with a pointer receiver take the cache and return the new cache next
  to their Go results.  The mutexes only serialise the calls and are not
  represented; neither is the optional logger, whose calls change no state.
* A channel is a cell of the heap `chans`; `make` allocates the next cell and a
  send appends to the cell's record of sent values.  Receiving is done by the
  consumer of a watch, outside the cache, and is not represented: the record of
  a channel is everything the cache has sent on it.
* The reading of the clock in `CreateWatch` is an argument of the operation.
-/

namespace Xds

/-! ## Go maps -/

/-- A Go map, as the list of its entries. -/
abbrev GoMap (K V : Type) := List (K × V)

namespace GoMap

variable {K V : Type} [DecidableEq K]

/-- The lookup `m[k]` in its two-valued form `v, ok := m[k]`. -/
def get : GoMap K V → K → Option V
  | [], _ => none
  | (k', v) :: t, k => if k' = k then some v else get t k

/-- The assignment `m[k] = v`: replaces the entry of `k` or adds one. -/
def set : GoMap K V → K → V → GoMap K V
  | [], k, v => [(k, v)]
  | (k', v') :: t, k, v => if k' = k then (k, v) :: t else (k', v') :: set t k v

/-- The builtin `delete(m, k)`. -/
def delete (m : GoMap K V) (k : K) : GoMap K V :=
  m.filter (fun e => decide (e.1 ≠ k))

/-- The keys of the map, in iteration order. -/
def keys (m : GoMap K V) : List K := m.map Prod.fst

/-- The values of the map, in iteration order. -/
def values (m : GoMap K V) : List V := m.map Prod.snd

/-- A map is well formed when no key occurs twice. -/
def WF (m : GoMap K V) : Prop := (m.map Prod.fst).Nodup

instance (m : GoMap K V) : Decidable (WF m) :=
  inferInstanceAs (Decidable (m.map Prod.fst).Nodup)

end GoMap

/-! ## Data model -/

/-- Modelled from the spec: the node descriptor `*envoy_core.Node`, an opaque
identity of a proxy; the cache only hands it to the hashing function and stores
it in the status record. -/
structure Node where
  id : String
  cluster : String
  deriving DecidableEq, Repr

/-- Modelled from the spec: `envoy_cache.Resource`, an opaque value whose
contents the cache never inspects. -/
structure Resource where
  payload : String
  deriving DecidableEq, Repr

/-- The fields of `envoy_cache.Request` the cache reads. -/
structure Request where
  Node : Node
  TypeUrl : String
  ResourceNames : List String
  VersionInfo : String
  deriving DecidableEq, Repr

/-- The value `envoy_cache.Response` built by `createResponse`. -/
structure Response where
  Request : Request
  Version : String
  Resources : List Resource
  deriving DecidableEq, Repr

/-- The errors the cache code constructs. -/
inductive Error where
  /-- The value `&envoy_cache.SkipFetchError{}`. -/
  | SkipFetchError
  /-- The value `fmt.Errorf("missing snapshot for %q", nodeID)`. -/
  | missingSnapshot (nodeID : String)
  /-- The value `fmt.Errorf("no snapshot found for node %s", node)`. -/
  | noSnapshotFound (node : String)
  /-- The value `fmt.Errorf("%q not listed", resourceName)`. -/
  | notListed (resourceName : String)
  deriving DecidableEq, Repr

/-- The interface `Snapshot`: one value per method the cache can call. -/
structure Snapshot where
  GetSupportedTypes : List String
  Consistent : Option Error
  GetResources : String → GoMap String Resource
  GetVersion : String → String

/-- A channel `chan envoy_cache.Response` of capacity one: the values sent on
it so far, oldest first, and whether it has been closed.  The first value sent
occupies the single buffer slot; a send is immediate exactly when nothing has
been sent and the channel is not closed. -/
structure Chan where
  sent : List Response
  closed : Bool
  deriving DecidableEq, Repr

/-- The channel `make(chan envoy_cache.Response, 1)`. -/
def Chan.fresh : Chan := { sent := [], closed := false }

/-- The value `envoy_cache.ResponseWatch`: the request and its channel, given
by the address of the channel in the heap of channels. -/
structure ResponseWatch where
  Request : Request
  Response : Nat
  deriving DecidableEq, Repr

/-- The record `statusInfo` (without its mutex); times are ticks of a clock. -/
structure statusInfo where
  node : Node
  watches : GoMap Int ResponseWatch
  lastWatchRequestTime : Nat
  deriving DecidableEq, Repr

/-- The record `snapshotCache` (without logger and mutex), together with the
heap of the channels the cache has allocated. -/
structure snapshotCache where
  ads : Bool
  snapshots : GoMap String Snapshot
  status : GoMap String statusInfo
  hash : Node → String
  watchCount : Int
  chans : List Chan

/-- Two's complement wrap-around of a 64-bit signed integer. -/
def wrapInt64 (x : Int) : Int := (x + 2 ^ 63) % 2 ^ 64 - 2 ^ 63

/-- The constructor `NewSnapshotCache`. -/
def NewSnapshotCache (ads : Bool) (hash : Node → String) : snapshotCache :=
  { ads := ads, snapshots := [], status := [], hash := hash, watchCount := 0, chans := [] }

/-- The constructor `newStatusInfo`. -/
def newStatusInfo (node : Node) : statusInfo :=
  { node := node, watches := [], lastWatchRequestTime := 0 }

/-- The values sent so far on channel `ch` (none for an address not allocated). -/
def sentOn (chans : List Chan) (ch : Nat) : List Response :=
  match chans[ch]? with
  | some c => c.sent
  | none => []

/-- The send statement `value <- r`: the value joins what has been sent on the
channel at address `value`.  In Go the send completes at once when the buffer
slot is free, that is, when nothing has been sent on the channel before. -/
def chanSend (chans : List Chan) (value : Nat) (r : Response) : List Chan :=
  chans.modify (fun c => { c with sent := c.sent ++ [r] }) value

/-! ## Operations -/

/-- The function `nameSet`: the set of the names, as a map to `true`. -/
def nameSet (names : List String) : GoMap String Bool :=
  names.foldl (fun set name => GoMap.set set name true) []

/-- The function `superset`: the error for the first resource, in iteration
order, whose name is not a key of `names`, and `none` (nil) when all are. -/
def superset (names : GoMap String Bool) : GoMap String Resource → Option Error
  | [] => none
  | (resourceName, _) :: rest =>
    if (GoMap.get names resourceName).isSome then superset names rest
    else some (Error.notListed resourceName)

/-- The function `createResponse`. -/
def createResponse (request : Request) (resources : GoMap String Resource)
    (version : String) : Response :=
  let filtered : List Resource :=
    if request.ResourceNames.length ≠ 0 then
      let set := nameSet request.ResourceNames
      resources.foldl
        (fun filtered e => if (GoMap.get set e.1).getD false then filtered ++ [e.2] else filtered) []
    else
      resources.foldl (fun filtered e => filtered ++ [e.2]) []
  { Request := request, Version := version, Resources := filtered }

/-- The method `respond`, on the heap of channels. -/
def respond (ads : Bool) (chans : List Chan) (request : Request) (value : Nat)
    (resources : GoMap String Resource) (version : String) : List Chan :=
  if request.ResourceNames.length ≠ 0 ∧ ads = true then
    match superset (nameSet request.ResourceNames) resources with
    | some _ => chans
    | none => chanSend chans value (createResponse request resources version)
  else
    chanSend chans value (createResponse request resources version)

/-- One iteration of the loop of `SetSnapshot` over the watches of a node:
the state is the watch map of the node and the heap of channels. -/
def setSnapshotStep (ads : Bool) (snapshot : Snapshot)
    (acc : GoMap Int ResponseWatch × List Chan) (e : Int × ResponseWatch) :
    GoMap Int ResponseWatch × List Chan :=
  let version := snapshot.GetVersion e.2.Request.TypeUrl
  if version ≠ e.2.Request.VersionInfo then
    (GoMap.delete acc.1 e.1,
      respond ads acc.2 e.2.Request e.2.Response
        (snapshot.GetResources e.2.Request.TypeUrl) version)
  else acc

/-- The method `SetSnapshot`; the second component is the returned error. -/
def SetSnapshot (cache : snapshotCache) (node : String) (snapshot : Snapshot) :
    snapshotCache × Option Error :=
  let snapshots := GoMap.set cache.snapshots node snapshot
  match GoMap.get cache.status node with
  | some info =>
    let r := info.watches.foldl (setSnapshotStep cache.ads snapshot) (info.watches, cache.chans)
    let info1 : statusInfo := { info with watches := r.1 }
    ({ cache with
        snapshots := snapshots,
        status := GoMap.set cache.status node info1,
        chans := r.2 }, none)
  | none => ({ cache with snapshots := snapshots }, none)

/-- The method `GetSnapshot`. -/
def GetSnapshot (cache : snapshotCache) (node : String) : Except Error Snapshot :=
  match GoMap.get cache.snapshots node with
  | some snap => Except.ok snap
  | none => Except.error (Error.noSnapshotFound node)

/-- The method `ClearSnapshot`. -/
def ClearSnapshot (cache : snapshotCache) (node : String) : snapshotCache :=
  { cache with
      snapshots := GoMap.delete cache.snapshots node,
      status := GoMap.delete cache.status node }

/-- The method `nextWatchID`: the incremented counter and the new cache. -/
def nextWatchID (cache : snapshotCache) : snapshotCache × Int :=
  let n := wrapInt64 (cache.watchCount + 1)
  ({ cache with watchCount := n }, n)

/-- The body of the closure returned by `cancelWatch nodeID watchID`. -/
def cancelWatch (cache : snapshotCache) (nodeID : String) (watchID : Int) : snapshotCache :=
  match GoMap.get cache.status nodeID with
  | some info =>
    let info1 : statusInfo := { info with watches := GoMap.delete info.watches watchID }
    { cache with status := GoMap.set cache.status nodeID info1 }
  | none => cache

/-- The results of `CreateWatch`: the new cache, the returned channel, and the
returned cancel function, `none` for nil and otherwise the two arguments
`(nodeID, watchID)` of the `cancelWatch` closure. -/
structure WatchResult where
  cache : snapshotCache
  value : Nat
  cancel : Option (String × Int)

/-- The branch of `CreateWatch` that leaves an open watch: `info` is the status
record of the node, already created and time-stamped, `value` the channel just
allocated and `chans` the heap holding it. -/
def openWatch (cache : snapshotCache) (nodeID : String) (info : statusInfo)
    (request : Request) (value : Nat) (chans : List Chan) : WatchResult :=
  let r := nextWatchID cache
  let watch : ResponseWatch := { Request := request, Response := value }
  let info1 : statusInfo := { info with watches := GoMap.set info.watches r.2 watch }
  { cache := { r.1 with status := GoMap.set cache.status nodeID info1, chans := chans },
    value := value,
    cancel := some (nodeID, r.2) }

/-- The method `CreateWatch`; `now` is the reading of `time.Now()`. -/
def CreateWatch (cache : snapshotCache) (request : Request) (now : Nat) : WatchResult :=
  let nodeID := cache.hash request.Node
  let info0 : statusInfo :=
    match GoMap.get cache.status nodeID with
    | some info => info
    | none => newStatusInfo request.Node
  let info : statusInfo := { info0 with lastWatchRequestTime := now }
  let value : Nat := cache.chans.length
  let chans := cache.chans ++ [Chan.fresh]
  let snap := GoMap.get cache.snapshots nodeID
  let version : String :=
    match snap with
    | some snapshot => snapshot.GetVersion request.TypeUrl
    | none => ""
  match snap with
  | some snapshot =>
    if request.VersionInfo = version then
      openWatch cache nodeID info request value chans
    else
      let chans1 := respond cache.ads chans request value
        (snapshot.GetResources request.TypeUrl) version
      { cache := { cache with status := GoMap.set cache.status nodeID info, chans := chans1 },
        value := value,
        cancel := none }
  | none => openWatch cache nodeID info request value chans

/-- The method `Fetch` (its context argument is not used by the code); the
cache is returned as the code leaves it. -/
def Fetch (cache : snapshotCache) (request : Request) :
    snapshotCache × Except Error Response :=
  let nodeID := cache.hash request.Node
  match GoMap.get cache.snapshots nodeID with
  | some snapshot =>
    let version := snapshot.GetVersion request.TypeUrl
    if request.VersionInfo = version then (cache, Except.error Error.SkipFetchError)
    else
      let resources := snapshot.GetResources request.TypeUrl
      (cache, Except.ok (createResponse request resources version))
  | none => (cache, Except.error (Error.missingSnapshot nodeID))

/-- The method `GetStatusInfo`; `none` is the nil result. -/
def GetStatusInfo (cache : snapshotCache) (node : String) : Option statusInfo :=
  GoMap.get cache.status node

/-- The method `GetStatusKeys`. -/
def GetStatusKeys (cache : snapshotCache) : List String :=
  cache.status.foldl (fun out e => out ++ [e.1]) []

/-- The method `statusInfo.GetNode`. -/
def statusInfo.GetNode (info : statusInfo) : Node := info.node

/-- The method `statusInfo.GetNumWatches`. -/
def statusInfo.GetNumWatches (info : statusInfo) : Nat := info.watches.length

/-- The method `statusInfo.GetLastWatchRequestTime`. -/
def statusInfo.GetLastWatchRequestTime (info : statusInfo) : Nat := info.lastWatchRequestTime


/-! ## Helpers of `pkg/core/resources/apis/mesh/dataplane_helpers.go` -/

/-- The type `Protocol`, a string. -/
abbrev Protocol := String

/-- The constant `ProtocolUnknown`. -/
def ProtocolUnknown : Protocol := "<unknown>"

/-- The constant `ProtocolTCP`. -/
def ProtocolTCP : Protocol := "tcp"

/-- The constant `ProtocolHTTP`. -/
def ProtocolHTTP : Protocol := "http"

/-- The function `ParseProtocol`; the function `strings.ToLower` of the Go
standard library, which is not part of the sources, is the argument
`ToLower`. -/
def ParseProtocol (ToLower : String → String) (tag : String) : Protocol :=
  if ToLower tag = ProtocolHTTP then ProtocolHTTP
  else if ToLower tag = ProtocolTCP then ProtocolTCP
  else ProtocolUnknown

/-- The variable `SupportedProtocols`. -/
def SupportedProtocols : List Protocol := [ProtocolHTTP, ProtocolTCP]

/-- The two methods of the type `net.IP` of the Go standard library that
`overlap` calls; the library is not part of the sources, so the type of
addresses and the methods are arguments. -/
structure IPMethods (IP : Type) where
  IsUnspecified : IP → Bool
  Equal : IP → IP → Bool

/-- The function `overlap`. -/
def overlap {IP : Type} (net : IPMethods IP) (address1 address2 : IP) : Bool :=
  if net.IsUnspecified address1 = true ∨ net.IsUnspecified address2 = true then true
  else net.Equal address1 address2

/-- Modelled from the spec: the 12 bytes `v4InV6Prefix` of the Go standard
library that precede an IPv4 address in its 16-byte form. -/
def v4InV6Prefix : List Nat := [0, 0, 0, 0, 0, 0, 0, 0, 0, 0, 255, 255]

/-- Modelled from the spec: the method `Equal` of `net.IP` in the Go standard
library, on addresses given as lists of bytes: addresses of the same length
are compared byte by byte, and a 4-byte address equals a 16-byte address that
consists of `v4InV6Prefix` followed by the same four bytes. -/
def ipEqual (ip x : List Nat) : Bool :=
  if ip.length = x.length then decide (ip = x)
  else if ip.length = 4 ∧ x.length = 16 then
    decide (x.take 12 = v4InV6Prefix) && decide (ip = x.drop 12)
  else if ip.length = 16 ∧ x.length = 4 then
    decide (ip.take 12 = v4InV6Prefix) && decide (ip.drop 12 = x)
  else false

/-- Modelled from the spec: the address `net.IPv4zero`, 0.0.0.0 in 16 bytes. -/
def IPv4zero : List Nat := v4InV6Prefix ++ [0, 0, 0, 0]

/-- Modelled from the spec: the address `net.IPv6unspecified`, `::`. -/
def IPv6unspecified : List Nat := List.replicate 16 0

/-- Modelled from the spec: the method `IsUnspecified` of `net.IP` in the Go
standard library: the address is the IPv4 address 0.0.0.0 or the IPv6
address `::`. -/
def ipIsUnspecified (ip : List Nat) : Bool :=
  ipEqual ip IPv4zero || ipEqual ip IPv6unspecified

/-- Modelled from the spec: the methods of `net.IP` on lists of bytes. -/
def goIP : IPMethods (List Nat) :=
  { IsUnspecified := ipIsUnspecified, Equal := ipEqual }

/-- Modelled from the spec: the function `strings.ToLower` of the Go standard
library on ASCII text: the letters `A` to `Z` are replaced by `a` to `z`. -/
def asciiToLower (s : String) : String :=
  String.mk (s.data.map Char.toLower)

/-! ## Vocabulary of the properties -/

/-- The condition under which an aggregated cache suppresses a response: the
cache is aggregated, the request names resources, and some key of `resources`
is not among the names. -/
def Suppressed (ads : Bool) (request : Request) (resources : GoMap String Resource) : Prop :=
  ads = true ∧ request.ResourceNames ≠ [] ∧ ∃ e ∈ resources, e.1 ∉ request.ResourceNames

instance (ads : Bool) (request : Request) (resources : GoMap String Resource) :
    Decidable (Suppressed ads request resources) :=
  inferInstanceAs (Decidable (ads = true ∧ request.ResourceNames ≠ [] ∧
    ∃ e ∈ resources, e.1 ∉ request.ResourceNames))

/-- The resources a response to `request` is specified to carry: the values of
all entries when no name is requested, and otherwise the values of the entries
whose key is one of the requested names, each entry once. -/
def selected (request : Request) (resources : GoMap String Resource) : List Resource :=
  if request.ResourceNames = [] then resources.map Prod.snd
  else (resources.filter (fun e => decide (e.1 ∈ request.ResourceNames))).map Prod.snd

/-- A watch is stale for a snapshot when the version of the snapshot for the
type of the watch differs from the version of the request of the watch. -/
def stale (snapshot : Snapshot) (w : ResponseWatch) : Prop :=
  snapshot.GetVersion w.Request.TypeUrl ≠ w.Request.VersionInfo

instance (snapshot : Snapshot) (w : ResponseWatch) : Decidable (stale snapshot w) :=
  inferInstanceAs (Decidable (snapshot.GetVersion w.Request.TypeUrl ≠ w.Request.VersionInfo))

/-- The response `SetSnapshot` computes for a watch from the new snapshot. -/
def responseFor (snapshot : Snapshot) (w : ResponseWatch) : Response :=
  createResponse w.Request (snapshot.GetResources w.Request.TypeUrl)
    (snapshot.GetVersion w.Request.TypeUrl)

/-- The watches among `l` whose response is sent on channel `ch` by the
loop of `SetSnapshot`: the stale ones on that channel that are not suppressed. -/
def deliveredTo (ads : Bool) (snapshot : Snapshot) (l : GoMap Int ResponseWatch)
    (ch : Nat) : GoMap Int ResponseWatch :=
  l.filter (fun e => decide (e.2.Response = ch ∧ stale snapshot e.2 ∧
    ¬ Suppressed ads e.2.Request (snapshot.GetResources e.2.Request.TypeUrl)))

/-- The watches of a status record are consistent with the heap of channels:
no watch-id occurs twice, no two watches share a channel, and every channel of
a watch has been allocated. -/
def WatchesOK (chans : List Chan) (watches : GoMap Int ResponseWatch) : Prop :=
  GoMap.WF watches ∧ (watches.map (fun e => e.2.Response)).Nodup ∧
    ∀ e ∈ watches, e.2.Response < chans.length

instance (chans : List Chan) (watches : GoMap Int ResponseWatch) :
    Decidable (WatchesOK chans watches) :=
  inferInstanceAs (Decidable (GoMap.WF watches ∧
    (watches.map (fun e : Int × ResponseWatch => e.2.Response)).Nodup ∧
    ∀ e ∈ watches, e.2.Response < chans.length))

/-- The watches registered for a node-id: those of its status record, and none
when the node has no status record. -/
def watchesOf (cache : snapshotCache) (node : String) : GoMap Int ResponseWatch :=
  match GoMap.get cache.status node with
  | some info => info.watches
  | none => []

/-- The status record `CreateWatch` works on: the record of the node of the
request, or a new one when the node has none. -/
def entryOf (cache : snapshotCache) (request : Request) : statusInfo :=
  match GoMap.get cache.status (cache.hash request.Node) with
  | some info => info
  | none => newStatusInfo request.Node

/-- Every channel of a registered watch has been allocated. -/
def ChansAllocated (cache : snapshotCache) : Prop :=
  ∀ e ∈ cache.status, ∀ x ∈ e.2.watches, x.2.Response < cache.chans.length

instance (cache : snapshotCache) : Decidable (ChansAllocated cache) :=
  inferInstanceAs (Decidable (∀ e ∈ cache.status, ∀ x ∈ e.2.watches,
    x.2.Response < cache.chans.length))

/-- The watch `x` (a watch-id with its request and channel) is registered in
the status record of some node. -/
def Registered (cache : snapshotCache) (x : Int × ResponseWatch) : Prop :=
  ∃ e ∈ cache.status, x ∈ e.2.watches

/-- No registered watch uses the allocated channel `ch`, and the channels of
the registered watches are allocated. -/
def Unreferenced (cache : snapshotCache) (ch : Nat) : Prop :=
  ch < cache.chans.length ∧
    ∀ x, Registered cache x → x.2.Response < cache.chans.length ∧ x.2.Response ≠ ch

/-- Every resource carried by the response `r` is the value of an entry of
`resources` whose name is listed in the request of `r`. -/
def AllNamed (resources : GoMap String Resource) (r : Response) : Prop :=
  ∀ x ∈ r.Resources, ∃ name ∈ r.Request.ResourceNames, (name, x) ∈ resources

instance (resources : GoMap String Resource) (r : Response) :
    Decidable (AllNamed resources r) :=
  inferInstanceAs (Decidable (∀ x ∈ r.Resources, ∃ name ∈ r.Request.ResourceNames,
    (name, x) ∈ resources))

/-- The watches of every status record are consistent with the heap of
channels. -/
def StatusOK (cache : snapshotCache) : Prop :=
  ∀ e ∈ cache.status, WatchesOK cache.chans e.2.watches

instance (cache : snapshotCache) : Decidable (StatusOK cache) :=
  inferInstanceAs (Decidable (∀ e ∈ cache.status, WatchesOK cache.chans e.2.watches))

/-- The counter is not negative and every registered watch-id lies between 1
and the counter. -/
def IdsBounded (cache : snapshotCache) : Prop :=
  0 ≤ cache.watchCount ∧
    ∀ e ∈ cache.status, ∀ x ∈ e.2.watches, 1 ≤ x.1 ∧ x.1 ≤ cache.watchCount

instance (cache : snapshotCache) : Decidable (IdsBounded cache) :=
  inferInstanceAs (Decidable (0 ≤ cache.watchCount ∧
    ∀ e ∈ cache.status, ∀ x ∈ e.2.watches, 1 ≤ x.1 ∧ x.1 ≤ cache.watchCount))

/-- Whether the channel at address `ch` has been closed (an address that is
not allocated counts as not closed). -/
def closedAt (chans : List Chan) (ch : Nat) : Bool :=
  match chans[ch]? with
  | some c => c.closed
  | none => false

/-- No channel is used by watches of two different nodes. -/
def ChansDistinct (cache : snapshotCache) : Prop :=
  ∀ n m x y, x ∈ watchesOf cache n → y ∈ watchesOf cache m →
    x.2.Response = y.2.Response → n = m

/-- No watch-id is registered on two different nodes. -/
def IdsDistinct (cache : snapshotCache) : Prop :=
  ∀ n m x y, x ∈ watchesOf cache n → y ∈ watchesOf cache m → x.1 = y.1 → n = m

/-- The invariant of the cache and its channels: the watches of every node have
distinct ids and distinct allocated channels, no channel serves two nodes,
nothing has been sent on the channel of a registered watch, at most one value
has been sent on any channel, and no channel is closed. -/
structure Inv (cache : snapshotCache) : Prop where
  watches : ∀ n, WatchesOK cache.chans (watchesOf cache n)
  distinct : ChansDistinct cache
  empty : ∀ n x, x ∈ watchesOf cache n → sentOn cache.chans x.2.Response = []
  once : ∀ ch, (sentOn cache.chans ch).length ≤ 1
  notClosed : ∀ ch, closedAt cache.chans ch = false

/-- The invariant of the watch-ids: the counter is not negative, the ids
registered on any node lie between 1 and the counter, and no id is registered
on two nodes. -/
structure IdsInv (cache : snapshotCache) : Prop where
  counter : 0 ≤ cache.watchCount
  bounded : ∀ n x, x ∈ watchesOf cache n → 1 ≤ x.1 ∧ x.1 ≤ cache.watchCount
  distinct : IdsDistinct cache

/-- The allocated channel `ch` is used by no watch registered on any node. -/
def UnusedChan (cache : snapshotCache) (ch : Nat) : Prop :=
  ch < cache.chans.length ∧ ∀ m x, x ∈ watchesOf cache m → x.2.Response ≠ ch

/-- A call on the cache: the producer and consumer operations, and a call of
the cancel function `cancelWatch nodeID watchID`. -/
inductive Op where
  | setSnapshot (node : String) (snapshot : Snapshot)
  | clearSnapshot (node : String)
  | createWatch (request : Request) (now : Nat)
  | cancel (nodeID : String) (watchID : Int)
  | fetch (request : Request)

/-- The cache after one call. -/
def step (cache : snapshotCache) : Op → snapshotCache
  | Op.setSnapshot node snapshot => (SetSnapshot cache node snapshot).1
  | Op.clearSnapshot node => ClearSnapshot cache node
  | Op.createWatch request now => (CreateWatch cache request now).cache
  | Op.cancel nodeID watchID => cancelWatch cache nodeID watchID
  | Op.fetch request => (Fetch cache request).1

/-- The cache after a sequence of calls. -/
def run (cache : snapshotCache) (ops : List Op) : snapshotCache :=
  ops.foldl step cache

/-- The watch-ids a call allocates: the id in the cancel function a `CreateWatch`
call returns, when it returns one. -/
def allocatedBy (cache : snapshotCache) : Op → List Int
  | Op.createWatch request now =>
    match (CreateWatch cache request now).cancel with
    | some p => [p.2]
    | none => []
  | _ => []

/-- The watch-ids allocated by a sequence of calls, in the order of
allocation. -/
def allocatedIds (cache : snapshotCache) : List Op → List Int
  | [] => []
  | op :: t => allocatedBy cache op ++ allocatedIds (step cache op) t

/-- Modelled from the spec: the method `WithVersion` of the interface
`Snapshot`, whose implementations are not part of the sources; it produces a
snapshot equal to the given one except for the version of the type `typ`. -/
def Snapshot.WithVersion (snapshot : Snapshot) (typ : String) (version : String) : Snapshot :=
  { snapshot with
      GetVersion := fun t => if t = typ then version else snapshot.GetVersion t }

/-- Every watch registered on a node that has a stored snapshot carries the
version of that snapshot for its type. -/
def Current (cache : snapshotCache) : Prop :=
  ∀ k s, GoMap.get cache.snapshots k = some s →
    ∀ x ∈ watchesOf cache k, x.2.Request.VersionInfo = s.GetVersion x.2.Request.TypeUrl

/-! ## Example data -/

/-- A node descriptor. -/
def exNode : Node := { id := "n1", cluster := "c" }

/-- A hashing function: the identifier of the node. -/
def idHash (node : Node) : String := node.id

/-- Two resources. -/
def resA : Resource := { payload := "A" }

/-- The second resource. -/
def resB : Resource := { payload := "B" }

/-- A snapshot with the resources `a` and `b` of type `T` at version `v1`. -/
def exSnapshot : Snapshot :=
  { GetSupportedTypes := ["T"]
    Consistent := none
    GetResources := fun typ => if typ = "T" then [("a", resA), ("b", resB)] else []
    GetVersion := fun typ => if typ = "T" then "v1" else "" }

/-- A request of a fresh client for all resources of type `T`. -/
def exRequestAll : Request :=
  { Node := exNode, TypeUrl := "T", ResourceNames := [], VersionInfo := "" }

/-- A request at version `v0` that names only the resource `a` of type `T`. -/
def exRequestA : Request :=
  { Node := exNode, TypeUrl := "T", ResourceNames := ["a"], VersionInfo := "v0" }

/-- A non-aggregated cache with one open watch, for `exRequestAll`. -/
def exOpen : snapshotCache := (CreateWatch (NewSnapshotCache false idHash) exRequestAll 0).cache

/-- An aggregated cache with one open watch, for `exRequestA`. -/
def exAdsOpen : snapshotCache := (CreateWatch (NewSnapshotCache true idHash) exRequestA 0).cache

/-- The watch opened in `exOpen`. -/
def exWatchAll : ResponseWatch := { Request := exRequestAll, Response := 0 }

/-- The watch opened in `exAdsOpen`. -/
def exWatchA : ResponseWatch := { Request := exRequestA, Response := 0 }

/-- An aggregated cache holding `exSnapshot` for the node `n1`. -/
def exAdsSet : snapshotCache := (SetSnapshot (NewSnapshotCache true idHash) "n1" exSnapshot).1

/-- A non-aggregated cache holding `exSnapshot` for the node `n1`. -/
def exSet : snapshotCache := (SetSnapshot (NewSnapshotCache false idHash) "n1" exSnapshot).1

/-- A request at version `v0` that names both resources of type `T`. -/
def exRequestAB : Request :=
  { Node := exNode, TypeUrl := "T", ResourceNames := ["a", "b"], VersionInfo := "v0" }

/-- A request of a fresh client for all resources of a type `U` for which
`exSnapshot` has no version. -/
def exRequestU : Request :=
  { Node := exNode, TypeUrl := "U", ResourceNames := [], VersionInfo := "" }

/-- A second node descriptor. -/
def exNode2 : Node := { id := "n2", cluster := "c" }

/-- A request of the second node for all resources of type `T`. -/
def exRequest2 : Request :=
  { Node := exNode2, TypeUrl := "T", ResourceNames := [], VersionInfo := "" }

/-- A non-aggregated cache with one open watch on each of two nodes. -/
def exTwo : snapshotCache :=
  run (NewSnapshotCache false idHash) [Op.createWatch exRequestAll 0, Op.createWatch exRequest2 1]

/-- The watch opened on the second node in `exTwo`. -/
def exWatch2 : ResponseWatch := { Request := exRequest2, Response := 1 }

/-- A request at version `v1` that names only the resource `a` of type `T`. -/
def exRequestA1 : Request :=
  { Node := exNode, TypeUrl := "T", ResourceNames := ["a"], VersionInfo := "v1" }

/-- A request at version `v1` for all resources of type `T`. -/
def exRequestAll1 : Request :=
  { Node := exNode, TypeUrl := "T", ResourceNames := [], VersionInfo := "v1" }

/-- An aggregated cache that holds `exSnapshot` for `n1` and has one open
watch at the version of the snapshot, for `exRequestA1`. -/
def exAdsCurrent : snapshotCache := (CreateWatch exAdsSet exRequestA1 0).cache

/-- A non-aggregated cache that holds `exSnapshot` for `n1` and has one open
watch at the version of the snapshot, for `exRequestAll1`. -/
def exCurrent : snapshotCache := (CreateWatch exSet exRequestAll1 0).cache

/-! # Properties -/

/-! ## Go map lemmas -/

namespace GoMap

variable {K V : Type} [DecidableEq K]

theorem get_set_self (m : GoMap K V) (k : K) (v : V) : get (set m k v) k = some v := by
  induction m with
  | nil => simp [set, get]
  | cons e t ih =>
    obtain ⟨k', v'⟩ := e
    by_cases h : k' = k <;> simp [set, get, h, ih]

theorem get_set_other (m : GoMap K V) (k k' : K) (v : V) (h : k ≠ k') :
    get (set m k v) k' = get m k' := by
  induction m with
  | nil => simp [set, get, h]
  | cons e t ih =>
    obtain ⟨k0, v0⟩ := e
    by_cases h0 : k0 = k
    · subst h0; simp [set, get, h]
    · by_cases h1 : k0 = k'
      · subst h1; simp [set, get, h0]
      · simp [set, get, h0, h1, ih]

theorem get_set (m : GoMap K V) (k k' : K) (v : V) :
    get (set m k v) k' = if k = k' then some v else get m k' := by
  by_cases h : k = k'
  · subst h; simp [get_set_self]
  · simp [h, get_set_other m k k' v h]

theorem get_eq_none_iff (m : GoMap K V) (k : K) : get m k = none ↔ ∀ e ∈ m, e.1 ≠ k := by
  induction m with
  | nil => simp [get]
  | cons e t ih =>
    obtain ⟨k', v⟩ := e
    by_cases h : k' = k <;> simp [get, h, ih]

theorem mem_of_get (m : GoMap K V) (k : K) (v : V) (h : get m k = some v) : (k, v) ∈ m := by
  induction m with
  | nil => simp [get] at h
  | cons e t ih =>
    obtain ⟨k', v'⟩ := e
    by_cases h0 : k' = k
    · subst h0; simp [get] at h; simp [h]
    · simp [get, h0] at h; simp [ih h]

theorem get_of_mem (m : GoMap K V) (hm : WF m) (k : K) (v : V) (h : (k, v) ∈ m) :
    get m k = some v := by
  induction m with
  | nil => simp at h
  | cons e t ih =>
    obtain ⟨k', v'⟩ := e
    simp only [WF, List.map_cons, List.nodup_cons] at hm
    rcases List.mem_cons.1 h with h1 | h1
    · cases h1; simp [get]
    · have hne : k' ≠ k := by
        intro hk; subst hk
        exact hm.1 (List.mem_map.2 ⟨(k', v), h1, rfl⟩)
      simp [get, hne, ih hm.2 h1]

theorem get_delete (m : GoMap K V) (k k' : K) :
    get (delete m k) k' = if k = k' then none else get m k' := by
  induction m with
  | nil => simp [delete, get]
  | cons e t ih =>
    obtain ⟨k0, v0⟩ := e
    unfold delete at ih ⊢
    by_cases h0 : k0 = k
    · subst h0
      by_cases h1 : k0 = k'
      · simpa [List.filter, h1] using ih
      · simpa [List.filter, get, h1] using ih
    · by_cases h1 : k0 = k'
      · subst h1
        have h2 : ¬ k = k0 := fun h => h0 h.symm
        simp [List.filter, get, h0, h2]
      · simpa [List.filter, get, h0, h1] using ih

theorem mem_set (m : GoMap K V) (k : K) (v : V) (e : K × V) (h : e ∈ set m k v) :
    e ∈ m ∨ e = (k, v) := by
  induction m with
  | nil => simpa [set] using h
  | cons e0 t ih =>
    obtain ⟨k0, v0⟩ := e0
    by_cases h0 : k0 = k
    · simp only [set, h0, if_true, List.mem_cons] at h
      rcases h with h | h
      · exact Or.inr h
      · exact Or.inl (List.mem_cons_of_mem _ h)
    · simp only [set, h0, if_false, List.mem_cons] at h
      rcases h with h | h
      · exact Or.inl (by simp [h])
      · rcases ih h with h | h
        · exact Or.inl (List.mem_cons_of_mem _ h)
        · exact Or.inr h

theorem mem_delete (m : GoMap K V) (k : K) (e : K × V) :
    e ∈ delete m k ↔ e ∈ m ∧ e.1 ≠ k := by
  simp [delete]

theorem keys_set (m : GoMap K V) (k : K) (v : V) :
    (set m k v).map Prod.fst = if k ∈ m.map Prod.fst then m.map Prod.fst else m.map Prod.fst ++ [k] := by
  induction m with
  | nil => simp [set]
  | cons e t ih =>
    obtain ⟨k0, v0⟩ := e
    by_cases h0 : k0 = k
    · subst h0; simp [set]
    · have h1 : ¬ k = k0 := fun h => h0 h.symm
      simp only [set, h0, if_false, List.map_cons, ih, List.mem_cons, h1, false_or]
      split <;> simp

theorem wf_set (m : GoMap K V) (k : K) (v : V) (h : WF m) : WF (set m k v) := by
  unfold WF at *
  rw [keys_set]
  split
  · exact h
  · rename_i hk
    exact List.Nodup.append h (by simp) (by simpa using hk)

theorem wf_delete (m : GoMap K V) (k : K) (h : WF m) : WF (delete m k) := by
  unfold WF delete at *
  exact List.Nodup.sublist (List.Sublist.map _ (List.filter_sublist _)) h

theorem length_set (m : GoMap K V) (k : K) (v : V) :
    (set m k v).length = if (get m k).isSome then m.length else m.length + 1 := by
  induction m with
  | nil => simp [set, get]
  | cons e t ih =>
    obtain ⟨k0, v0⟩ := e
    by_cases h0 : k0 = k
    · simp [set, get, h0]
    · simp only [set, get, h0, if_false, List.length_cons, ih]
      split <;> rfl

end GoMap


/-! ## Name sets, `superset` and `createResponse` -/

theorem get_foldl_set (names : List String) (acc : GoMap String Bool) (k : String) :
    GoMap.get (names.foldl (fun set name => GoMap.set set name true) acc) k =
      if k ∈ names then some true else GoMap.get acc k := by
  induction names generalizing acc with
  | nil => simp
  | cons n t ih =>
    simp only [List.foldl_cons, ih, GoMap.get_set, List.mem_cons]
    by_cases h1 : k ∈ t
    · simp [h1]
    · by_cases h2 : n = k
      · subst h2; simp [h1]
      · have h3 : ¬ k = n := fun h => h2 h.symm
        simp [h1, h2, h3]

theorem get_nameSet (names : List String) (k : String) :
    GoMap.get (nameSet names) k = if k ∈ names then some true else none := by
  unfold nameSet
  rw [get_foldl_set]
  simp [GoMap.get]

theorem superset_eq_none_iff (names : List String) (resources : GoMap String Resource) :
    superset (nameSet names) resources = none ↔ ∀ e ∈ resources, e.1 ∈ names := by
  induction resources with
  | nil => simp [superset]
  | cons e t ih =>
    obtain ⟨k, v⟩ := e
    by_cases h : k ∈ names
    · simp [superset, get_nameSet, h, ih]
    · simp [superset, get_nameSet, h]

theorem foldl_append_filter {α β : Type} (p : α → Bool) (f : α → β) (l : List α) (acc : List β) :
    l.foldl (fun out e => if p e then out ++ [f e] else out) acc =
      acc ++ (l.filter p).map f := by
  induction l generalizing acc with
  | nil => simp
  | cons a t ih =>
    by_cases h : p a <;> simp [List.foldl_cons, ih, List.filter_cons, h]

theorem foldl_append_all {α β : Type} (f : α → β) (l : List α) (acc : List β) :
    l.foldl (fun out e => out ++ [f e]) acc = acc ++ l.map f := by
  induction l generalizing acc with
  | nil => simp
  | cons a t ih => simp [List.foldl_cons, ih]

theorem createResponse_resources (request : Request) (resources : GoMap String Resource)
    (version : String) :
    (createResponse request resources version).Resources = selected request resources := by
  unfold createResponse selected
  by_cases h : request.ResourceNames = []
  · simp [h, foldl_append_all]
  · have hl : request.ResourceNames.length ≠ 0 := by
      simpa [List.length_eq_zero] using h
    simp only [hl, h, ne_eq, not_false_eq_true, if_true, if_false]
    have hp : (fun e : String × Resource =>
        (GoMap.get (nameSet request.ResourceNames) e.1).getD false) =
        (fun e : String × Resource => decide (e.1 ∈ request.ResourceNames)) := by
      funext e
      rw [get_nameSet]
      by_cases hm : e.1 ∈ request.ResourceNames <;> simp [hm]
    have := foldl_append_filter
      (fun e : String × Resource => (GoMap.get (nameSet request.ResourceNames) e.1).getD false)
      Prod.snd resources []
    simp only [List.nil_append] at this
    rw [← hp]
    exact this

/-! ## Channels and `respond` -/

theorem length_chanSend (chans : List Chan) (value : Nat) (r : Response) :
    (chanSend chans value r).length = chans.length := by
  simp [chanSend]

theorem sentOn_chanSend_self (chans : List Chan) (value : Nat) (r : Response)
    (hv : value < chans.length) :
    sentOn (chanSend chans value r) value = sentOn chans value ++ [r] := by
  unfold sentOn chanSend
  rw [List.getElem?_modify_eq, List.getElem?_eq_getElem hv]
  rfl

theorem sentOn_chanSend_other (chans : List Chan) (value ch : Nat) (r : Response)
    (h : ch ≠ value) :
    sentOn (chanSend chans value r) ch = sentOn chans ch := by
  unfold sentOn chanSend
  rw [List.getElem?_modify_ne _ _ (Ne.symm h)]

theorem respond_of_suppressed (ads : Bool) (chans : List Chan) (request : Request)
    (value : Nat) (resources : GoMap String Resource) (version : String)
    (h : Suppressed ads request resources) :
    respond ads chans request value resources version = chans := by
  obtain ⟨ha, hn, e, he, hne⟩ := h
  have hl : request.ResourceNames.length ≠ 0 := by
    simpa [List.length_eq_zero] using hn
  have hs : superset (nameSet request.ResourceNames) resources ≠ none := by
    rw [Ne, superset_eq_none_iff]
    intro hall
    exact hne (hall e he)
  unfold respond
  rw [if_pos ⟨hl, ha⟩]
  cases hsup : superset (nameSet request.ResourceNames) resources with
  | none => exact absurd hsup hs
  | some err => rfl

theorem respond_of_not_suppressed (ads : Bool) (chans : List Chan) (request : Request)
    (value : Nat) (resources : GoMap String Resource) (version : String)
    (h : ¬ Suppressed ads request resources) :
    respond ads chans request value resources version =
      chanSend chans value (createResponse request resources version) := by
  unfold respond
  split
  · rename_i hc
    have hn : request.ResourceNames ≠ [] := by
      intro h0; rw [h0] at hc; simp at hc
    cases hsup : superset (nameSet request.ResourceNames) resources with
    | none => rfl
    | some err =>
      exfalso
      apply h
      refine ⟨hc.2, hn, ?_⟩
      by_contra hno
      have hall : ∀ e ∈ resources, e.1 ∈ request.ResourceNames := by
        intro e he
        by_contra hne
        exact hno ⟨e, he, hne⟩
      rw [(superset_eq_none_iff _ _).2 hall] at hsup
      cases hsup
  · rfl

theorem length_respond (ads : Bool) (chans : List Chan) (request : Request)
    (value : Nat) (resources : GoMap String Resource) (version : String) :
    (respond ads chans request value resources version).length = chans.length := by
  by_cases h : Suppressed ads request resources
  · rw [respond_of_suppressed _ _ _ _ _ _ h]
  · rw [respond_of_not_suppressed _ _ _ _ _ _ h, length_chanSend]

theorem sentOn_respond_other (ads : Bool) (chans : List Chan) (request : Request)
    (value ch : Nat) (resources : GoMap String Resource) (version : String)
    (hne : ch ≠ value) :
    sentOn (respond ads chans request value resources version) ch = sentOn chans ch := by
  by_cases h : Suppressed ads request resources
  · rw [respond_of_suppressed _ _ _ _ _ _ h]
  · rw [respond_of_not_suppressed _ _ _ _ _ _ h, sentOn_chanSend_other _ _ _ _ hne]

/-- C5: on an allocated channel `value`, `respond` changes what has been sent on
`value` if and only if the response is not suppressed (the cache is
aggregated, the request names resources and some key of `resources` is not
named); when it is not suppressed exactly the one value
`createResponse request resources version` is appended, when it is suppressed
the heap of channels is left as it was, and no other channel is ever touched. -/
theorem respond_spec (ads : Bool) (chans : List Chan) (request : Request)
    (value : Nat) (resources : GoMap String Resource) (version : String)
    (hv : value < chans.length) :
    (sentOn (respond ads chans request value resources version) value ≠ sentOn chans value ↔
        ¬ (ads = true ∧ request.ResourceNames ≠ [] ∧
            ∃ e ∈ resources, e.1 ∉ request.ResourceNames)) ∧
    (¬ (ads = true ∧ request.ResourceNames ≠ [] ∧
            ∃ e ∈ resources, e.1 ∉ request.ResourceNames) →
        sentOn (respond ads chans request value resources version) value =
          sentOn chans value ++ [createResponse request resources version]) ∧
    ((ads = true ∧ request.ResourceNames ≠ [] ∧
            ∃ e ∈ resources, e.1 ∉ request.ResourceNames) →
        respond ads chans request value resources version = chans) ∧
    (∀ ch, ch ≠ value →
        sentOn (respond ads chans request value resources version) ch = sentOn chans ch) := by
  have hyes : ¬ Suppressed ads request resources →
      sentOn (respond ads chans request value resources version) value =
        sentOn chans value ++ [createResponse request resources version] := by
    intro h
    rw [respond_of_not_suppressed _ _ _ _ _ _ h, sentOn_chanSend_self _ _ _ hv]
  refine ⟨?_, hyes, respond_of_suppressed _ _ _ _ _ _, ?_⟩
  · constructor
    · intro hne hs
      exact hne (by rw [respond_of_suppressed _ _ _ _ _ _ hs])
    · intro hs
      rw [hyes hs]
      simp
  · intro ch hne
    exact sentOn_respond_other _ _ _ _ _ _ _ hne

/-! ## `createResponse` and `Fetch` -/

/-- C7: the response built by `createResponse` carries the request, the
supplied version (not the version of the request) and, in iteration order of
the map, the values of all entries of `resources` when no name is requested and
otherwise the values of exactly those entries whose key is a requested name,
each such entry once; in particular the two collections are equal as
multisets. -/
theorem createResponse_spec (request : Request) (resources : GoMap String Resource)
    (version : String) :
    (createResponse request resources version).Request = request ∧
    (createResponse request resources version).Version = version ∧
    (request.ResourceNames = [] →
      (createResponse request resources version).Resources = resources.map Prod.snd) ∧
    (request.ResourceNames ≠ [] →
      (createResponse request resources version).Resources =
        (resources.filter (fun e => decide (e.1 ∈ request.ResourceNames))).map Prod.snd) ∧
    ((createResponse request resources version).Resources : Multiset Resource) =
      if request.ResourceNames = [] then
        Multiset.map Prod.snd (Multiset.ofList resources)
      else
        Multiset.map Prod.snd
          (Multiset.filter (fun e => e.1 ∈ request.ResourceNames) (Multiset.ofList resources)) := by
  refine ⟨rfl, rfl, ?_, ?_, ?_⟩
  · intro h; rw [createResponse_resources]; simp [selected, h]
  · intro h; rw [createResponse_resources]; simp [selected, h]
  · rw [createResponse_resources]
    unfold selected
    split
    · rfl
    · rfl

/-- C10: the result of `Fetch` is the missing-snapshot error exactly when no
snapshot is stored for the hashed node, `SkipFetchError` exactly when one is
stored whose version for the requested type equals the version of the request,
and otherwise, with no error, the response `createResponse` builds from the
stored snapshot; the aggregated flag does not enter the result. -/
theorem Fetch_spec (cache : snapshotCache) (request : Request) :
    ((Fetch cache request).2 = Except.error (Error.missingSnapshot (cache.hash request.Node)) ↔
        GoMap.get cache.snapshots (cache.hash request.Node) = none) ∧
    ((Fetch cache request).2 = Except.error Error.SkipFetchError ↔
        ∃ snapshot, GoMap.get cache.snapshots (cache.hash request.Node) = some snapshot ∧
          snapshot.GetVersion request.TypeUrl = request.VersionInfo) ∧
    (∀ snapshot, GoMap.get cache.snapshots (cache.hash request.Node) = some snapshot →
        snapshot.GetVersion request.TypeUrl ≠ request.VersionInfo →
        (Fetch cache request).2 = Except.ok (createResponse request
          (snapshot.GetResources request.TypeUrl) (snapshot.GetVersion request.TypeUrl))) ∧
    (∀ b : Bool, (Fetch { cache with ads := b } request).2 = (Fetch cache request).2) := by
  unfold Fetch
  cases h : GoMap.get cache.snapshots (cache.hash request.Node) with
  | none => simp [h]
  | some snapshot =>
    by_cases hv : request.VersionInfo = snapshot.GetVersion request.TypeUrl
    · simp [h, hv]
    · have hv2 : ¬ snapshot.GetVersion request.TypeUrl = request.VersionInfo :=
        fun h2 => hv h2.symm
      simp [h, hv, hv2]

/-! ## The loop of `SetSnapshot` -/

theorem setSnapshotStep_of_stale (ads : Bool) (s : Snapshot)
    (acc : GoMap Int ResponseWatch × List Chan) (e : Int × ResponseWatch) (h : stale s e.2) :
    setSnapshotStep ads s acc e =
      (GoMap.delete acc.1 e.1,
        respond ads acc.2 e.2.Request e.2.Response (s.GetResources e.2.Request.TypeUrl)
          (s.GetVersion e.2.Request.TypeUrl)) := by
  unfold stale at h
  simp [setSnapshotStep, h]

theorem setSnapshotStep_of_not_stale (ads : Bool) (s : Snapshot)
    (acc : GoMap Int ResponseWatch × List Chan) (e : Int × ResponseWatch) (h : ¬ stale s e.2) :
    setSnapshotStep ads s acc e = acc := by
  unfold stale at h
  simp only [ne_eq, not_not] at h
  simp [setSnapshotStep, h]

theorem loop_watches (ads : Bool) (s : Snapshot) (l : GoMap Int ResponseWatch)
    (ws : GoMap Int ResponseWatch) (chans : List Chan) :
    (l.foldl (setSnapshotStep ads s) (ws, chans)).1 =
      ws.filter (fun x => decide (¬ ∃ e ∈ l, e.1 = x.1 ∧ stale s e.2)) := by
  induction l generalizing ws chans with
  | nil => simp
  | cons e t ih =>
    rw [List.foldl_cons]
    by_cases h : stale s e.2
    · rw [setSnapshotStep_of_stale _ _ _ _ h, ih]
      unfold GoMap.delete
      rw [List.filter_filter]
      apply List.filter_congr
      intro x _
      by_cases hx : e.1 = x.1
      · have hx2 : ¬ x.1 ≠ e.1 := fun h3 => h3 hx.symm
        simp [hx, h, hx2]
      · have hx2 : x.1 ≠ e.1 := fun h3 => hx h3.symm
        simp [hx, hx2]
    · rw [setSnapshotStep_of_not_stale _ _ _ _ h, ih]
      apply List.filter_congr
      intro x _
      simp [h]

theorem loop_length (ads : Bool) (s : Snapshot) (l : GoMap Int ResponseWatch)
    (ws : GoMap Int ResponseWatch) (chans : List Chan) :
    (l.foldl (setSnapshotStep ads s) (ws, chans)).2.length = chans.length := by
  induction l generalizing ws chans with
  | nil => simp
  | cons e t ih =>
    rw [List.foldl_cons]
    by_cases h : stale s e.2
    · rw [setSnapshotStep_of_stale _ _ _ _ h, ih, length_respond]
    · rw [setSnapshotStep_of_not_stale _ _ _ _ h, ih]

theorem loop_sent (ads : Bool) (s : Snapshot) (l : GoMap Int ResponseWatch)
    (ws : GoMap Int ResponseWatch) (chans : List Chan) (ch : Nat) (hch : ch < chans.length) :
    sentOn (l.foldl (setSnapshotStep ads s) (ws, chans)).2 ch =
      sentOn chans ch ++ (deliveredTo ads s l ch).map (fun e => responseFor s e.2) := by
  induction l generalizing ws chans with
  | nil => simp [deliveredTo]
  | cons e t ih =>
    rw [List.foldl_cons]
    by_cases h : stale s e.2
    · rw [setSnapshotStep_of_stale _ _ _ _ h, ih _ _ (by rw [length_respond]; exact hch)]
      by_cases hc : e.2.Response = ch
      · by_cases hs : Suppressed ads e.2.Request (s.GetResources e.2.Request.TypeUrl)
        · rw [respond_of_suppressed _ _ _ _ _ _ hs]
          simp [deliveredTo, List.filter_cons, hc, h, hs]
        · rw [respond_of_not_suppressed _ _ _ _ _ _ hs, hc,
            sentOn_chanSend_self _ _ _ hch]
          simp [deliveredTo, List.filter_cons, hc, h, hs, responseFor]
      · rw [sentOn_respond_other _ _ _ _ _ _ _ (Ne.symm hc)]
        simp [deliveredTo, List.filter_cons, hc]
    · rw [setSnapshotStep_of_not_stale _ _ _ _ h, ih _ _ hch]
      simp [deliveredTo, List.filter_cons, h]

theorem loop_sent_unallocated (ads : Bool) (s : Snapshot) (l : GoMap Int ResponseWatch)
    (ws : GoMap Int ResponseWatch) (chans : List Chan) (ch : Nat) (hch : chans.length ≤ ch) :
    sentOn (l.foldl (setSnapshotStep ads s) (ws, chans)).2 ch = [] := by
  unfold sentOn
  rw [List.getElem?_eq_none]
  rw [loop_length]; exact hch

theorem filter_on_distinct_channel (l : GoMap Int ResponseWatch)
    (hn : (l.map (fun e => e.2.Response)).Nodup) (e : Int × ResponseWatch) (he : e ∈ l)
    (p : Int × ResponseWatch → Prop) [DecidablePred p] :
    l.filter (fun x => decide (x.2.Response = e.2.Response ∧ p x)) =
      if p e then [e] else [] := by
  induction l with
  | nil => simp at he
  | cons a t ih =>
    simp only [List.map_cons, List.nodup_cons] at hn
    rcases List.mem_cons.1 he with h1 | h1
    · subst h1
      have ht : t.filter (fun x => decide (x.2.Response = e.2.Response ∧ p x)) = [] := by
        rw [List.filter_eq_nil_iff]
        intro x hx
        have : x.2.Response ≠ e.2.Response := by
          intro heq
          exact hn.1 (List.mem_map.2 ⟨x, hx, heq⟩)
        simp [this]
      rw [List.filter_cons, ht]
      by_cases hp : p e <;> simp [hp]
    · have hne : a.2.Response ≠ e.2.Response := by
        intro heq
        exact hn.1 (List.mem_map.2 ⟨e, h1, heq.symm⟩)
      rw [List.filter_cons]
      simp only [hne, false_and, decide_False, Bool.false_eq_true, if_false]
      exact ih hn.2 h1

theorem GoMap.value_unique {K V : Type} [DecidableEq K] (m : GoMap K V) (hm : GoMap.WF m)
    (k : K) (v v' : V) (h : (k, v) ∈ m) (h' : (k, v') ∈ m) : v = v' := by
  have h1 := GoMap.get_of_mem m hm k v h
  have h2 := GoMap.get_of_mem m hm k v' h'
  rw [h1] at h2
  exact Option.some.inj h2

theorem GoMap.wf_filter {K V : Type} [DecidableEq K] (m : GoMap K V) (p : K × V → Bool)
    (hm : GoMap.WF m) : GoMap.WF (m.filter p) := by
  unfold GoMap.WF at *
  exact List.Nodup.sublist (List.Sublist.map _ (List.filter_sublist _)) hm

theorem GoMap.get_filter {K V : Type} [DecidableEq K] (m : GoMap K V) (p : K × V → Bool)
    (hm : GoMap.WF m) (k : K) (v : V) (h : (k, v) ∈ m) :
    GoMap.get (m.filter p) k = if p (k, v) = true then some v else none := by
  by_cases hp : p (k, v) = true
  · rw [if_pos hp]
    exact GoMap.get_of_mem _ (GoMap.wf_filter m p hm) k v (List.mem_filter.2 ⟨h, hp⟩)
  · rw [if_neg hp, GoMap.get_eq_none_iff]
    intro e he hk
    obtain ⟨k', v'⟩ := e
    have he2 := List.mem_filter.1 he
    simp only at hk
    subst hk
    have := GoMap.value_unique m hm k' v' v he2.1 h
    subst this
    exact hp he2.2

theorem watchesOf_SetSnapshot (c : snapshotCache) (n : String) (s : Snapshot) :
    watchesOf (SetSnapshot c n s).1 n =
      (watchesOf c n).filter (fun x => decide (¬ ∃ e ∈ watchesOf c n, e.1 = x.1 ∧ stale s e.2)) := by
  unfold watchesOf SetSnapshot
  cases h : GoMap.get c.status n with
  | none => simp [h]
  | some info =>
    simp only [GoMap.get_set_self]
    exact loop_watches _ _ _ _ _

theorem chans_SetSnapshot (c : snapshotCache) (n : String) (s : Snapshot) :
    (SetSnapshot c n s).1.chans =
      ((watchesOf c n).foldl (setSnapshotStep c.ads s) (watchesOf c n, c.chans)).2 := by
  unfold watchesOf SetSnapshot
  cases h : GoMap.get c.status n with
  | none => simp
  | some info => simp

theorem sentOn_SetSnapshot (c : snapshotCache) (n : String) (s : Snapshot) (ch : Nat)
    (hch : ch < c.chans.length) :
    sentOn (SetSnapshot c n s).1.chans ch =
      sentOn c.chans ch ++
        (deliveredTo c.ads s (watchesOf c n) ch).map (fun e => responseFor s e.2) := by
  rw [chans_SetSnapshot, loop_sent _ _ _ _ _ _ hch]

/-- What `SetSnapshot` does to one open watch of the node: the watch stays
registered exactly when it is not stale, and its channel receives the response
for it exactly when it is stale and not suppressed. -/
theorem SetSnapshot_watch (c : snapshotCache) (n : String) (s : Snapshot)
    (hok : WatchesOK c.chans (watchesOf c n)) (id : Int) (w : ResponseWatch)
    (hw : (id, w) ∈ watchesOf c n) :
    GoMap.get (watchesOf (SetSnapshot c n s).1 n) id = (if stale s w then none else some w) ∧
    sentOn (SetSnapshot c n s).1.chans w.Response =
      sentOn c.chans w.Response ++
        (if stale s w ∧ ¬ Suppressed c.ads w.Request (s.GetResources w.Request.TypeUrl)
          then [responseFor s w] else []) := by
  obtain ⟨hwf, hnd, hal⟩ := hok
  constructor
  · rw [watchesOf_SetSnapshot, GoMap.get_filter _ _ hwf id w hw]
    have hiff : (∃ e ∈ watchesOf c n, e.1 = id ∧ stale s e.2) ↔ stale s w := by
      constructor
      · rintro ⟨⟨k, v⟩, he, hk, hs⟩
        simp only at hk
        subst hk
        have := GoMap.value_unique _ hwf k v w he hw
        subst this
        exact hs
      · intro hs
        exact ⟨(id, w), hw, rfl, hs⟩
    by_cases hs : stale s w <;> simp [hiff, hs]
  · rw [sentOn_SetSnapshot _ _ _ _ (hal (id, w) hw)]
    have := filter_on_distinct_channel (watchesOf c n) hnd (id, w) hw
      (fun x => stale s x.2 ∧ ¬ Suppressed c.ads x.2.Request (s.GetResources x.2.Request.TypeUrl))
    unfold deliveredTo
    simp only at this
    rw [this]
    split <;> simp

/-! ## `SetSnapshot` and the open watches of the node -/

/-- C1, as the claim states it, fails: in an aggregated cache the watch `1` is
open for a request that names only `a`; setting a snapshot whose resources are
`a` and `b` leaves its channel without any response although the versions
differ, and the watch is no longer registered. -/
theorem SetSnapshot_stale_retention_counterexample :
    (1, { Request := exRequestA, Response := 0 }) ∈ watchesOf exAdsOpen "n1" ∧
    ¬ ((∃ r, sentOn (SetSnapshot exAdsOpen "n1" exSnapshot).1.chans 0 = [r] ∧
          r.Version = exSnapshot.GetVersion "T") ∨
       (exSnapshot.GetVersion "T" = exRequestA.VersionInfo ∧
          GoMap.get (watchesOf (SetSnapshot exAdsOpen "n1" exSnapshot).1 "n1") 1 =
            some { Request := exRequestA, Response := 0 })) := by
  refine ⟨by decide, ?_⟩
  rintro (⟨r, hr, _⟩ | ⟨hv, _⟩)
  · have h0 : sentOn (SetSnapshot exAdsOpen "n1" exSnapshot).1.chans 0 = [] := by decide
    rw [h0] at hr
    cases hr
  · exact absurd hv (by decide)

/-- C1, amended: for every cache, aggregated or not, and every watch `(id, w)`
open on node `n` when `SetSnapshot c n s` is called, afterwards one of three
things holds.  Either the channel of `w` has received exactly one more value,
the response for `w` built from `s`, whose version is the version of `s` for
the type of `w`, and `w` is removed; or the version of `s` equals the version
of the request, nothing was sent and `w` is still registered; or the response
was suppressed (aggregated cache, resources named, a key of the resources of
`s` not named), nothing was sent and `w` is removed. -/
theorem SetSnapshot_no_stale_retention (c : snapshotCache) (n : String) (s : Snapshot)
    (hok : WatchesOK c.chans (watchesOf c n)) (id : Int) (w : ResponseWatch)
    (hw : (id, w) ∈ watchesOf c n) :
    (sentOn (SetSnapshot c n s).1.chans w.Response =
        sentOn c.chans w.Response ++ [responseFor s w] ∧
      (responseFor s w).Version = s.GetVersion w.Request.TypeUrl ∧
      GoMap.get (watchesOf (SetSnapshot c n s).1 n) id = none) ∨
    (s.GetVersion w.Request.TypeUrl = w.Request.VersionInfo ∧
      sentOn (SetSnapshot c n s).1.chans w.Response = sentOn c.chans w.Response ∧
      GoMap.get (watchesOf (SetSnapshot c n s).1 n) id = some w) ∨
    ((c.ads = true ∧ w.Request.ResourceNames ≠ [] ∧
        ∃ e ∈ s.GetResources w.Request.TypeUrl, e.1 ∉ w.Request.ResourceNames) ∧
      s.GetVersion w.Request.TypeUrl ≠ w.Request.VersionInfo ∧
      sentOn (SetSnapshot c n s).1.chans w.Response = sentOn c.chans w.Response ∧
      GoMap.get (watchesOf (SetSnapshot c n s).1 n) id = none) := by
  obtain ⟨h1, h2⟩ := SetSnapshot_watch c n s hok id w hw
  by_cases hs : stale s w
  · by_cases hsup : Suppressed c.ads w.Request (s.GetResources w.Request.TypeUrl)
    · right; right
      refine ⟨hsup, hs, ?_, ?_⟩
      · rw [h2]; simp [hs, hsup]
      · rw [h1]; simp [hs]
    · left
      refine ⟨?_, rfl, ?_⟩
      · rw [h2]; simp [hs, hsup]
      · rw [h1]; simp [hs]
  · right; left
    have hv : s.GetVersion w.Request.TypeUrl = w.Request.VersionInfo := by
      unfold stale at hs
      exact not_not.1 hs
    refine ⟨hv, ?_, ?_⟩
    · rw [h2]; simp [hs]
    · rw [h1]; simp [hs]

/-- C2: in a non-aggregated cache, `SetSnapshot c n s` treats every watch
`(id, w)` open on node `n` as follows, with `v` the version of `s` for the type
of `w`: if `v` differs from the version of the request the channel of `w`
receives exactly the value `createResponse w.Request (s.GetResources type) v`
and `id` is removed from the watches of `n`; if `v` equals it nothing is sent
on the channel and `id` stays registered with the same request and channel. -/
theorem SetSnapshot_nonaggregated (c : snapshotCache) (n : String) (s : Snapshot)
    (hads : c.ads = false)
    (hok : WatchesOK c.chans (watchesOf c n)) (id : Int) (w : ResponseWatch)
    (hw : (id, w) ∈ watchesOf c n) :
    (s.GetVersion w.Request.TypeUrl ≠ w.Request.VersionInfo →
      sentOn (SetSnapshot c n s).1.chans w.Response =
        sentOn c.chans w.Response ++
          [createResponse w.Request (s.GetResources w.Request.TypeUrl)
            (s.GetVersion w.Request.TypeUrl)] ∧
      GoMap.get (watchesOf (SetSnapshot c n s).1 n) id = none) ∧
    (s.GetVersion w.Request.TypeUrl = w.Request.VersionInfo →
      sentOn (SetSnapshot c n s).1.chans w.Response = sentOn c.chans w.Response ∧
      GoMap.get (watchesOf (SetSnapshot c n s).1 n) id = some w) := by
  obtain ⟨h1, h2⟩ := SetSnapshot_watch c n s hok id w hw
  have hsup : ¬ Suppressed c.ads w.Request (s.GetResources w.Request.TypeUrl) := by
    rintro ⟨ha, _⟩
    rw [hads] at ha
    cases ha
  constructor
  · intro hv
    have hs : stale s w := hv
    constructor
    · rw [h2]; simp [hs, hsup, responseFor]
    · rw [h1]; simp [hs]
  · intro hv
    have hs : ¬ stale s w := fun h => h hv
    constructor
    · rw [h2]; simp [hs]
    · rw [h1]; simp [hs]

/-- C3, as the claim states it, fails: the response for watch `1` of the
aggregated cache is suppressed when the snapshot is set (the versions differ,
the request names only `a`, the snapshot also holds `b`), and after
`SetSnapshot` the watch is not registered any more. -/
theorem SetSnapshot_suppressed_counterexample :
    (1, { Request := exRequestA, Response := 0 }) ∈ watchesOf exAdsOpen "n1" ∧
    exSnapshot.GetVersion exRequestA.TypeUrl ≠ exRequestA.VersionInfo ∧
    (exAdsOpen.ads = true ∧ exRequestA.ResourceNames ≠ [] ∧
      ∃ e ∈ exSnapshot.GetResources exRequestA.TypeUrl, e.1 ∉ exRequestA.ResourceNames) ∧
    ¬ (GoMap.get (watchesOf (SetSnapshot exAdsOpen "n1" exSnapshot).1 "n1") 1 =
        some { Request := exRequestA, Response := 0 }) := by
  decide

/-- C3, amended: when an aggregated cache suppresses the response for a watch
`(id, w)` open on node `n` during `SetSnapshot c n s`, nothing is written to
the channel of `w`, no error is returned, and the watch is removed from the
status of `n`. -/
theorem SetSnapshot_suppressed (c : snapshotCache) (n : String) (s : Snapshot)
    (hok : WatchesOK c.chans (watchesOf c n)) (id : Int) (w : ResponseWatch)
    (hw : (id, w) ∈ watchesOf c n)
    (hv : s.GetVersion w.Request.TypeUrl ≠ w.Request.VersionInfo)
    (hsup : c.ads = true ∧ w.Request.ResourceNames ≠ [] ∧
      ∃ e ∈ s.GetResources w.Request.TypeUrl, e.1 ∉ w.Request.ResourceNames) :
    sentOn (SetSnapshot c n s).1.chans w.Response = sentOn c.chans w.Response ∧
    (SetSnapshot c n s).2 = none ∧
    GoMap.get (watchesOf (SetSnapshot c n s).1 n) id = none := by
  obtain ⟨h1, h2⟩ := SetSnapshot_watch c n s hok id w hw
  have hs : stale s w := hv
  have hsup2 : Suppressed c.ads w.Request (s.GetResources w.Request.TypeUrl) := hsup
  refine ⟨?_, ?_, ?_⟩
  · rw [h2]; simp [hs, hsup2]
  · unfold SetSnapshot
    cases GoMap.get c.status n <;> rfl
  · rw [h1]; simp [hs]

/-! ## `CreateWatch` -/

theorem GoMap.set_of_get_none {K V : Type} [DecidableEq K] (m : GoMap K V) (k : K) (v : V)
    (h : GoMap.get m k = none) : GoMap.set m k v = m ++ [(k, v)] := by
  induction m with
  | nil => simp [GoMap.set]
  | cons e t ih =>
    obtain ⟨k0, v0⟩ := e
    by_cases h0 : k0 = k
    · simp [GoMap.get, h0] at h
    · simp only [GoMap.get, h0, if_false] at h
      simp [GoMap.set, h0, ih h]

theorem entryOf_watches (c : snapshotCache) (request : Request) :
    (entryOf c request).watches = watchesOf c (c.hash request.Node) := by
  unfold entryOf watchesOf
  cases GoMap.get c.status (c.hash request.Node) <;> rfl

theorem CreateWatch_of_open (c : snapshotCache) (request : Request) (now : Nat)
    (h : ∀ s, GoMap.get c.snapshots (c.hash request.Node) = some s →
      s.GetVersion request.TypeUrl = request.VersionInfo) :
    CreateWatch c request now =
      openWatch c (c.hash request.Node)
        { entryOf c request with lastWatchRequestTime := now } request c.chans.length
        (c.chans ++ [Chan.fresh]) := by
  unfold CreateWatch entryOf
  cases hs : GoMap.get c.snapshots (c.hash request.Node) with
  | none => simp only [hs]
  | some s =>
    have := h s hs
    simp only [hs, this, if_true]

theorem CreateWatch_of_immediate (c : snapshotCache) (request : Request) (now : Nat)
    (s : Snapshot) (hs : GoMap.get c.snapshots (c.hash request.Node) = some s)
    (hv : s.GetVersion request.TypeUrl ≠ request.VersionInfo) :
    CreateWatch c request now =
      { cache := { c with
                    status := GoMap.set c.status (c.hash request.Node)
                      { entryOf c request with lastWatchRequestTime := now },
                    chans := respond c.ads (c.chans ++ [Chan.fresh]) request c.chans.length
                      (s.GetResources request.TypeUrl) (s.GetVersion request.TypeUrl) },
        value := c.chans.length,
        cancel := none } := by
  unfold CreateWatch entryOf
  have hv2 : ¬ request.VersionInfo = s.GetVersion request.TypeUrl := fun h => hv h.symm
  simp [hs, hv2]

theorem watchesOf_set_status (c : snapshotCache) (n : String) (info : statusInfo)
    (c' : snapshotCache) (hc : c'.status = GoMap.set c.status n info) (m : String) :
    watchesOf c' m = if n = m then info.watches else watchesOf c m := by
  unfold watchesOf
  rw [hc, GoMap.get_set]
  by_cases h : n = m <;> simp [h]

theorem sentOn_append_fresh (chans : List Chan) (ch : Nat) :
    sentOn (chans ++ [Chan.fresh]) ch = sentOn chans ch := by
  unfold sentOn
  by_cases h : ch < chans.length
  · rw [List.getElem?_append_left h]
  · have h2 : chans.length ≤ ch := Nat.le_of_not_lt h
    rw [List.getElem?_eq_none h2]
    by_cases h3 : ch = chans.length
    · subst h3; simp [Chan.fresh]
    · rw [List.getElem?_eq_none]
      simp; omega

theorem wrapInt64_succ_fresh (n : Int) (hlo : -2 ^ 63 ≤ n) (hhi : n < 2 ^ 63) :
    wrapInt64 (n + 1) < 1 ∨ n < wrapInt64 (n + 1) := by
  unfold wrapInt64
  by_cases h : n + 1 < 2 ^ 63
  · right
    have : (n + 1 + 2 ^ 63) % 2 ^ 64 = n + 1 + 2 ^ 63 := by
      apply Int.emod_eq_of_lt <;> omega
    omega
  · left
    have hn : n = 2 ^ 63 - 1 := by omega
    subst hn
    norm_num

theorem sentOn_unallocated (chans : List Chan) (ch : Nat) (h : chans.length ≤ ch) :
    sentOn chans ch = [] := by
  unfold sentOn
  rw [List.getElem?_eq_none h]

/-! ## Registered watches under the operations -/

theorem registered_of_watchesOf (c : snapshotCache) (n : String) (x : Int × ResponseWatch)
    (h : x ∈ watchesOf c n) : Registered c x := by
  unfold watchesOf at h
  cases hg : GoMap.get c.status n with
  | none => rw [hg] at h; simp at h
  | some info =>
    rw [hg] at h
    exact ⟨(n, info), GoMap.mem_of_get _ _ _ hg, h⟩

theorem registered_set_status (c c' : snapshotCache) (n : String) (info : statusInfo)
    (hc : c'.status = GoMap.set c.status n info) (x : Int × ResponseWatch)
    (h : Registered c' x) : Registered c x ∨ x ∈ info.watches := by
  obtain ⟨e, he, hx⟩ := h
  rw [hc] at he
  rcases GoMap.mem_set _ _ _ _ he with h1 | h1
  · exact Or.inl ⟨e, h1, hx⟩
  · subst h1; exact Or.inr hx

theorem registered_SetSnapshot (c : snapshotCache) (n : String) (s : Snapshot)
    (x : Int × ResponseWatch) (h : Registered (SetSnapshot c n s).1 x) : Registered c x := by
  unfold SetSnapshot at h
  cases hg : GoMap.get c.status n with
  | none => rw [hg] at h; exact h
  | some info =>
    rw [hg] at h
    rcases registered_set_status c _ n _ rfl x h with h1 | h1
    · exact h1
    · simp only [loop_watches] at h1
      exact ⟨(n, info), GoMap.mem_of_get _ _ _ hg, (List.mem_filter.1 h1).1⟩

theorem registered_ClearSnapshot (c : snapshotCache) (n : String)
    (x : Int × ResponseWatch) (h : Registered (ClearSnapshot c n) x) : Registered c x := by
  obtain ⟨e, he, hx⟩ := h
  exact ⟨e, ((GoMap.mem_delete _ _ _).1 he).1, hx⟩

theorem registered_cancelWatch (c : snapshotCache) (n : String) (id : Int)
    (x : Int × ResponseWatch) (h : Registered (cancelWatch c n id) x) : Registered c x := by
  unfold cancelWatch at h
  cases hg : GoMap.get c.status n with
  | none => rw [hg] at h; exact h
  | some info =>
    rw [hg] at h
    rcases registered_set_status c _ n _ rfl x h with h1 | h1
    · exact h1
    · exact ⟨(n, info), GoMap.mem_of_get _ _ _ hg, ((GoMap.mem_delete _ _ _).1 h1).1⟩

theorem registered_entryOf (c : snapshotCache) (request : Request) (x : Int × ResponseWatch)
    (h : x ∈ (entryOf c request).watches) : Registered c x := by
  rw [entryOf_watches] at h
  exact registered_of_watchesOf c _ x h

theorem CreateWatch_cases (c : snapshotCache) (request : Request) (now : Nat) :
    CreateWatch c request now =
        openWatch c (c.hash request.Node)
          { entryOf c request with lastWatchRequestTime := now } request c.chans.length
          (c.chans ++ [Chan.fresh]) ∨
    ∃ s, GoMap.get c.snapshots (c.hash request.Node) = some s ∧
      s.GetVersion request.TypeUrl ≠ request.VersionInfo ∧
      CreateWatch c request now =
        { cache := { c with
                      status := GoMap.set c.status (c.hash request.Node)
                        { entryOf c request with lastWatchRequestTime := now },
                      chans := respond c.ads (c.chans ++ [Chan.fresh]) request c.chans.length
                        (s.GetResources request.TypeUrl) (s.GetVersion request.TypeUrl) },
          value := c.chans.length,
          cancel := none } := by
  by_cases h : ∀ s, GoMap.get c.snapshots (c.hash request.Node) = some s →
      s.GetVersion request.TypeUrl = request.VersionInfo
  · exact Or.inl (CreateWatch_of_open c request now h)
  · right
    push_neg at h
    obtain ⟨s, hs, hv⟩ := h
    exact ⟨s, hs, hv, CreateWatch_of_immediate c request now s hs hv⟩

theorem registered_CreateWatch (c : snapshotCache) (request : Request) (now : Nat)
    (x : Int × ResponseWatch) (h : Registered (CreateWatch c request now).cache x) :
    Registered c x ∨
      x = (wrapInt64 (c.watchCount + 1), { Request := request, Response := c.chans.length }) := by
  rcases CreateWatch_cases c request now with hc | ⟨s, _, _, hc⟩
  · rw [hc] at h
    rcases registered_set_status c _ (c.hash request.Node) _ rfl x h with h1 | h1
    · exact Or.inl h1
    · rcases GoMap.mem_set _ _ _ _ h1 with h2 | h2
      · exact Or.inl (registered_entryOf c request x h2)
      · exact Or.inr h2
  · rw [hc] at h
    rcases registered_set_status c _ (c.hash request.Node) _ rfl x h with h1 | h1
    · exact Or.inl h1
    · exact Or.inl (registered_entryOf c request x h1)

theorem length_chans_SetSnapshot (c : snapshotCache) (n : String) (s : Snapshot) :
    (SetSnapshot c n s).1.chans.length = c.chans.length := by
  rw [chans_SetSnapshot, loop_length]

theorem length_chans_CreateWatch (c : snapshotCache) (request : Request) (now : Nat) :
    (CreateWatch c request now).cache.chans.length = c.chans.length + 1 := by
  rcases CreateWatch_cases c request now with hc | ⟨s, _, _, hc⟩
  · rw [hc]; simp [openWatch]
  · rw [hc]; simp [length_respond]

theorem value_CreateWatch (c : snapshotCache) (request : Request) (now : Nat) :
    (CreateWatch c request now).value = c.chans.length := by
  rcases CreateWatch_cases c request now with hc | ⟨s, _, _, hc⟩
  · rw [hc]; rfl
  · rw [hc]

theorem sentOn_CreateWatch_old (c : snapshotCache) (request : Request) (now : Nat)
    (ch : Nat) (hch : ch < c.chans.length) :
    sentOn (CreateWatch c request now).cache.chans ch = sentOn c.chans ch := by
  rcases CreateWatch_cases c request now with hc | ⟨s, _, _, hc⟩
  · rw [hc]
    exact sentOn_append_fresh _ _
  · rw [hc]
    have hne : ch ≠ c.chans.length := Nat.ne_of_lt hch
    simp only
    rw [sentOn_respond_other _ _ _ _ _ _ _ hne, sentOn_append_fresh]

/-! ## A channel that no registered watch uses is never written -/

theorem deliveredTo_eq_nil (ads : Bool) (s : Snapshot) (l : GoMap Int ResponseWatch)
    (ch : Nat) (h : ∀ x ∈ l, x.2.Response ≠ ch) : deliveredTo ads s l ch = [] := by
  unfold deliveredTo
  rw [List.filter_eq_nil_iff]
  intro x hx
  simp [h x hx]

theorem step_unreferenced (c : snapshotCache) (op : Op) (ch : Nat)
    (h : Unreferenced c ch) :
    Unreferenced (step c op) ch ∧ sentOn (step c op).chans ch = sentOn c.chans ch := by
  obtain ⟨hch, hreg⟩ := h
  cases op with
  | setSnapshot n s =>
    refine ⟨⟨?_, ?_⟩, ?_⟩
    · show ch < (SetSnapshot c n s).1.chans.length
      rw [length_chans_SetSnapshot]; exact hch
    · intro x hx
      have := hreg x (registered_SetSnapshot c n s x hx)
      show x.2.Response < (SetSnapshot c n s).1.chans.length ∧ _
      rw [length_chans_SetSnapshot]; exact this
    · show sentOn (SetSnapshot c n s).1.chans ch = _
      rw [sentOn_SetSnapshot _ _ _ _ hch, deliveredTo_eq_nil]
      · simp
      · intro x hx
        exact (hreg x (registered_of_watchesOf c n x hx)).2
  | clearSnapshot n =>
    refine ⟨⟨hch, ?_⟩, rfl⟩
    intro x hx
    exact hreg x (registered_ClearSnapshot c n x hx)
  | createWatch request now =>
    refine ⟨⟨?_, ?_⟩, ?_⟩
    · show ch < (CreateWatch c request now).cache.chans.length
      rw [length_chans_CreateWatch]; omega
    · intro x hx
      show x.2.Response < (CreateWatch c request now).cache.chans.length ∧ _
      rw [length_chans_CreateWatch]
      rcases registered_CreateWatch c request now x hx with h1 | h1
      · have := hreg x h1
        exact ⟨by omega, this.2⟩
      · subst h1
        simp only
        exact ⟨by omega, by omega⟩
    · exact sentOn_CreateWatch_old c request now ch hch
  | cancel n id =>
    refine ⟨⟨?_, ?_⟩, ?_⟩
    · show ch < (cancelWatch c n id).chans.length
      unfold cancelWatch
      cases GoMap.get c.status n <;> exact hch
    · intro x hx
      have := hreg x (registered_cancelWatch c n id x hx)
      show x.2.Response < (cancelWatch c n id).chans.length ∧ _
      unfold cancelWatch
      cases GoMap.get c.status n <;> exact this
    · show sentOn (cancelWatch c n id).chans ch = _
      unfold cancelWatch
      cases GoMap.get c.status n <;> rfl
  | fetch request =>
    have hf : (Fetch c request).1 = c := by
      unfold Fetch
      cases hg : GoMap.get c.snapshots (c.hash request.Node) with
      | none => simp only [hg]
      | some s => simp only [hg]; split <;> rfl
    show Unreferenced (Fetch c request).1 ch ∧ sentOn (Fetch c request).1.chans ch = _
    rw [hf]
    exact ⟨⟨hch, hreg⟩, rfl⟩

theorem run_unreferenced (ops : List Op) (c : snapshotCache) (ch : Nat)
    (h : Unreferenced c ch) :
    Unreferenced (run c ops) ch ∧ sentOn (run c ops).chans ch = sentOn c.chans ch := by
  induction ops generalizing c with
  | nil => exact ⟨h, rfl⟩
  | cons op t ih =>
    obtain ⟨h1, h2⟩ := step_unreferenced c op ch h
    obtain ⟨h3, h4⟩ := ih (step c op) h1
    exact ⟨h3, by rw [← h2, ← h4]; rfl⟩

theorem watchesOf_CreateWatch_immediate (c : snapshotCache) (request : Request) (now : Nat)
    (s : Snapshot) (hs : GoMap.get c.snapshots (c.hash request.Node) = some s)
    (hv : s.GetVersion request.TypeUrl ≠ request.VersionInfo) (m : String) :
    watchesOf (CreateWatch c request now).cache m = watchesOf c m := by
  rw [CreateWatch_of_immediate c request now s hs hv]
  rw [watchesOf_set_status c (c.hash request.Node)
    { entryOf c request with lastWatchRequestTime := now } _ rfl m]
  by_cases h : c.hash request.Node = m
  · subst h
    simp [entryOf_watches]
  · simp [h]

theorem registered_CreateWatch_immediate (c : snapshotCache) (request : Request) (now : Nat)
    (s : Snapshot) (hs : GoMap.get c.snapshots (c.hash request.Node) = some s)
    (hv : s.GetVersion request.TypeUrl ≠ request.VersionInfo) (x : Int × ResponseWatch)
    (h : Registered (CreateWatch c request now).cache x) : Registered c x := by
  rw [CreateWatch_of_immediate c request now s hs hv] at h
  rcases registered_set_status c _ (c.hash request.Node) _ rfl x h with h1 | h1
  · exact h1
  · exact registered_entryOf c request x h1

/-- C4: in an aggregated cache whose registered watches use allocated channels,
when the node of the request has a snapshot `s` whose version for the requested
type differs from the version of the request, the request names resources and
some key of the resources of `s` is not named, `CreateWatch` returns a nil
cancel function and a channel on which nothing has been sent and on which
nothing is sent by any later sequence of `SetSnapshot`, `ClearSnapshot`,
`CreateWatch`, `Fetch` and cancel calls; it registers no watch: the watches of
every node are the same as before, and no registered watch uses the returned
channel. -/
theorem CreateWatch_suppressed (c : snapshotCache) (request : Request) (now : Nat)
    (s : Snapshot) (hal : ChansAllocated c)
    (hs : GoMap.get c.snapshots (c.hash request.Node) = some s)
    (hv : s.GetVersion request.TypeUrl ≠ request.VersionInfo)
    (hsup : c.ads = true ∧ request.ResourceNames ≠ [] ∧
      ∃ e ∈ s.GetResources request.TypeUrl, e.1 ∉ request.ResourceNames) :
    (CreateWatch c request now).cancel = none ∧
    sentOn (CreateWatch c request now).cache.chans (CreateWatch c request now).value = [] ∧
    (∀ ops : List Op,
      sentOn (run (CreateWatch c request now).cache ops).chans
        (CreateWatch c request now).value = []) ∧
    (∀ m, watchesOf (CreateWatch c request now).cache m = watchesOf c m) ∧
    (∀ m, (watchesOf (CreateWatch c request now).cache m).length = (watchesOf c m).length) ∧
    (∀ x, Registered (CreateWatch c request now).cache x →
      x.2.Response ≠ (CreateWatch c request now).value) := by
  have hsup2 : Suppressed c.ads request (s.GetResources request.TypeUrl) := hsup
  have hreg : ∀ x, Registered (CreateWatch c request now).cache x →
      x.2.Response < c.chans.length := by
    intro x hx
    obtain ⟨e, he, hxe⟩ := registered_CreateWatch_immediate c request now s hs hv x hx
    exact hal e he x hxe
  have hval := value_CreateWatch c request now
  have hsent : sentOn (CreateWatch c request now).cache.chans c.chans.length = [] := by
    rw [CreateWatch_of_immediate c request now s hs hv]
    simp only
    rw [respond_of_suppressed _ _ _ _ _ _ hsup2, sentOn_append_fresh,
      sentOn_unallocated _ _ (Nat.le_refl _)]
  have hun : Unreferenced (CreateWatch c request now).cache c.chans.length := by
    refine ⟨?_, ?_⟩
    · rw [length_chans_CreateWatch]; omega
    · intro x hx
      have := hreg x hx
      rw [length_chans_CreateWatch]
      exact ⟨by omega, by omega⟩
  refine ⟨?_, ?_, ?_, ?_, ?_, ?_⟩
  · rw [CreateWatch_of_immediate c request now s hs hv]
  · rw [hval]; exact hsent
  · intro ops
    rw [hval, (run_unreferenced ops _ _ hun).2]
    exact hsent
  · exact watchesOf_CreateWatch_immediate c request now s hs hv
  · intro m
    rw [watchesOf_CreateWatch_immediate c request now s hs hv]
  · intro x hx
    rw [hval]
    exact Nat.ne_of_lt (hreg x hx)

/-- C9: when a snapshot `snap` is stored for the node of the request and its
version `v` for the requested type differs from the version of the request,
`CreateWatch` returns a nil cancel function and registers no watch (the
watches of every node and the watch-id counter are as before); and when the
response is not suppressed (the cache is not aggregated, or the request names
no resource, or every key of the resources of `snap` is named) the returned
channel holds exactly one response, `createResponse request resources v`,
whose version is `v`. -/
theorem CreateWatch_immediate_branch (c : snapshotCache) (request : Request) (now : Nat)
    (snap : Snapshot) (hs : GoMap.get c.snapshots (c.hash request.Node) = some snap)
    (hv : snap.GetVersion request.TypeUrl ≠ request.VersionInfo) :
    (CreateWatch c request now).cancel = none ∧
    (∀ m, watchesOf (CreateWatch c request now).cache m = watchesOf c m) ∧
    (CreateWatch c request now).cache.watchCount = c.watchCount ∧
    ((c.ads = false ∨ request.ResourceNames = [] ∨
        ∀ e ∈ snap.GetResources request.TypeUrl, e.1 ∈ request.ResourceNames) →
      sentOn (CreateWatch c request now).cache.chans (CreateWatch c request now).value =
        [createResponse request (snap.GetResources request.TypeUrl)
          (snap.GetVersion request.TypeUrl)] ∧
      (createResponse request (snap.GetResources request.TypeUrl)
          (snap.GetVersion request.TypeUrl)).Version = snap.GetVersion request.TypeUrl) := by
  refine ⟨?_, watchesOf_CreateWatch_immediate c request now snap hs hv, ?_, ?_⟩
  · rw [CreateWatch_of_immediate c request now snap hs hv]
  · rw [CreateWatch_of_immediate c request now snap hs hv]
  · intro hns
    have hsup : ¬ Suppressed c.ads request (snap.GetResources request.TypeUrl) := by
      rintro ⟨ha, hn, e, he, hne⟩
      rcases hns with h | h | h
      · rw [h] at ha; cases ha
      · exact hn h
      · exact hne (h e he)
    refine ⟨?_, rfl⟩
    rw [CreateWatch_of_immediate c request now snap hs hv]
    simp only
    rw [respond_of_not_suppressed _ _ _ _ _ _ hsup,
      sentOn_chanSend_self _ _ _ (by simp), sentOn_append_fresh,
      sentOn_unallocated _ _ (Nat.le_refl _)]
    rfl

/-- C8: when no snapshot is stored for the node of the request, or one is
stored whose version for the requested type equals the version of the request,
and the watch-ids registered for the node lie between 1 and the 64-bit
counter, `CreateWatch` sends nothing on the returned channel, which is newly
allocated, returns the cancel function of the node and of the next watch-id,
which was not registered before, and adds exactly the watch of the request and
the returned channel under that id: the watches of the node are the former
ones followed by the new one, so their number grows by one and every former
watch is still registered; the watches of the other nodes and the contents of
the channels allocated before are unchanged. -/
theorem CreateWatch_open_branch (c : snapshotCache) (request : Request) (now : Nat)
    (hbranch : GoMap.get c.snapshots (c.hash request.Node) = none ∨
      ∃ s, GoMap.get c.snapshots (c.hash request.Node) = some s ∧
        s.GetVersion request.TypeUrl = request.VersionInfo)
    (hrange : -2 ^ 63 ≤ c.watchCount ∧ c.watchCount < 2 ^ 63)
    (hids : ∀ x ∈ watchesOf c (c.hash request.Node), 1 ≤ x.1 ∧ x.1 ≤ c.watchCount) :
    sentOn (CreateWatch c request now).cache.chans (CreateWatch c request now).value = [] ∧
    (CreateWatch c request now).value = c.chans.length ∧
    (CreateWatch c request now).cancel =
      some (c.hash request.Node, wrapInt64 (c.watchCount + 1)) ∧
    GoMap.get (watchesOf c (c.hash request.Node)) (wrapInt64 (c.watchCount + 1)) = none ∧
    watchesOf (CreateWatch c request now).cache (c.hash request.Node) =
      watchesOf c (c.hash request.Node) ++
        [(wrapInt64 (c.watchCount + 1),
          { Request := request, Response := (CreateWatch c request now).value })] ∧
    (watchesOf (CreateWatch c request now).cache (c.hash request.Node)).length =
      (watchesOf c (c.hash request.Node)).length + 1 ∧
    (∀ id w, GoMap.get (watchesOf c (c.hash request.Node)) id = some w →
      GoMap.get (watchesOf (CreateWatch c request now).cache (c.hash request.Node)) id =
        some w) ∧
    (∀ m, m ≠ c.hash request.Node →
      watchesOf (CreateWatch c request now).cache m = watchesOf c m) ∧
    (∀ ch, ch < c.chans.length →
      sentOn (CreateWatch c request now).cache.chans ch = sentOn c.chans ch) := by
  have hopen : ∀ s, GoMap.get c.snapshots (c.hash request.Node) = some s →
      s.GetVersion request.TypeUrl = request.VersionInfo := by
    intro s hs
    rcases hbranch with h | ⟨s', hs', hv⟩
    · rw [h] at hs; cases hs
    · rw [hs'] at hs; cases hs; exact hv
  have hc := CreateWatch_of_open c request now hopen
  have hfresh : GoMap.get (watchesOf c (c.hash request.Node))
      (wrapInt64 (c.watchCount + 1)) = none := by
    rw [GoMap.get_eq_none_iff]
    intro x hx heq
    have h1 := hids x hx
    rcases wrapInt64_succ_fresh c.watchCount hrange.1 hrange.2 with h2 | h2 <;> omega
  have hw : watchesOf (CreateWatch c request now).cache (c.hash request.Node) =
      watchesOf c (c.hash request.Node) ++
        [(wrapInt64 (c.watchCount + 1), { Request := request, Response := c.chans.length })] := by
    rw [hc]
    unfold openWatch nextWatchID
    simp only
    rw [watchesOf_set_status c (c.hash request.Node) _ _ rfl]
    simp only [if_true, entryOf_watches]
    exact GoMap.set_of_get_none _ _ _ hfresh
  have hval := value_CreateWatch c request now
  refine ⟨?_, hval, ?_, hfresh, ?_, ?_, ?_, ?_, ?_⟩
  · rw [hval, hc]
    unfold openWatch
    simp only
    rw [sentOn_append_fresh, sentOn_unallocated _ _ (Nat.le_refl _)]
  · rw [hc]; rfl
  · rw [hval]; exact hw
  · rw [hw]; simp
  · intro id w hg
    rw [hw]
    have hne : wrapInt64 (c.watchCount + 1) ≠ id := by
      intro h; rw [h] at hfresh; rw [hfresh] at hg; cases hg
    have := GoMap.get_set (watchesOf c (c.hash request.Node)) (wrapInt64 (c.watchCount + 1)) id
      { Request := request, Response := c.chans.length }
    rw [GoMap.set_of_get_none _ _ _ hfresh, if_neg hne] at this
    rw [this]; exact hg
  · intro m hm
    rw [hc]
    unfold openWatch nextWatchID
    simp only
    rw [watchesOf_set_status c (c.hash request.Node) _ _ rfl]
    simp [Ne.symm hm]
  · intro ch hch
    exact sentOn_CreateWatch_old c request now ch hch

/-! ## The aggregated filter -/

theorem createResponse_allNamed (request : Request) (resources : GoMap String Resource)
    (version : String) (hn : request.ResourceNames ≠ []) :
    AllNamed resources (createResponse request resources version) := by
  intro x hx
  rw [createResponse_resources] at hx
  unfold selected at hx
  rw [if_neg hn] at hx
  obtain ⟨e, he, hex⟩ := List.mem_map.1 hx
  obtain ⟨hmem, hp⟩ := List.mem_filter.1 he
  refine ⟨e.1, by simpa using hp, ?_⟩
  rw [← hex]
  exact hmem

/-- C6, as the claim states it, fails for a request that names no resource: the
aggregated cache answers the request `exRequestAll`, whose list of names is
empty, with a response that carries the resource `resA`, and no name of the
request is the name of `resA`. -/
theorem aggregated_filter_counterexample :
    exAdsSet.ads = true ∧
    sentOn (CreateWatch exAdsSet exRequestAll 0).cache.chans
        (CreateWatch exAdsSet exRequestAll 0).value =
      [{ Request := exRequestAll, Version := "v1", Resources := [resA, resB] }] ∧
    ¬ ∃ name ∈ exRequestAll.ResourceNames, (name, resA) ∈ exSnapshot.GetResources "T" := by
  decide

theorem createResponse_all (request : Request) (resources : GoMap String Resource)
    (version : String) (hn : request.ResourceNames = []) :
    (createResponse request resources version).Resources = resources.map Prod.snd := by
  rw [createResponse_resources]
  simp [selected, hn]

/-- C6, amended: in an aggregated cache, every response that `SetSnapshot` or
`CreateWatch` adds to a channel for a request that names at least one resource
is built from a snapshot all of whose resources of the requested type are
named in the request, and every resource it carries is the value of an entry
whose name is in the resource names of the request; every response added for
a request that names no resource carries all resources of the type.  A
request that names no resource is answered: when the version of the snapshot
differs from the version of the request, `CreateWatch` puts exactly the
response with all resources of the type on the returned channel, and
`SetSnapshot` sends exactly that response to an open watch of the node (ids
and channels of the node distinct and allocated). -/
theorem aggregated_filter (c : snapshotCache) (hads : c.ads = true) :
    (∀ (n : String) (s : Snapshot) (ch : Nat) (r : Response),
      r ∈ sentOn (SetSnapshot c n s).1.chans ch →
      r ∈ sentOn c.chans ch ∨
        ((r.Request.ResourceNames ≠ [] →
          (∀ e ∈ s.GetResources r.Request.TypeUrl, e.1 ∈ r.Request.ResourceNames) ∧
          AllNamed (s.GetResources r.Request.TypeUrl) r) ∧
        (r.Request.ResourceNames = [] →
          r.Resources = (s.GetResources r.Request.TypeUrl).map Prod.snd))) ∧
    (∀ (request : Request) (now : Nat) (ch : Nat) (r : Response),
      r ∈ sentOn (CreateWatch c request now).cache.chans ch →
      r ∈ sentOn c.chans ch ∨
        ∃ s, GoMap.get c.snapshots (c.hash request.Node) = some s ∧ r.Request = request ∧
          (r.Request.ResourceNames ≠ [] →
            (∀ e ∈ s.GetResources r.Request.TypeUrl, e.1 ∈ r.Request.ResourceNames) ∧
            AllNamed (s.GetResources r.Request.TypeUrl) r) ∧
          (r.Request.ResourceNames = [] →
            r.Resources = (s.GetResources r.Request.TypeUrl).map Prod.snd)) ∧
    (∀ (request : Request) (now : Nat) (snap : Snapshot),
      GoMap.get c.snapshots (c.hash request.Node) = some snap →
      snap.GetVersion request.TypeUrl ≠ request.VersionInfo →
      request.ResourceNames = [] →
      sentOn (CreateWatch c request now).cache.chans (CreateWatch c request now).value =
        [createResponse request (snap.GetResources request.TypeUrl)
          (snap.GetVersion request.TypeUrl)] ∧
      (createResponse request (snap.GetResources request.TypeUrl)
          (snap.GetVersion request.TypeUrl)).Resources =
        (snap.GetResources request.TypeUrl).map Prod.snd) ∧
    (∀ (n : String) (s : Snapshot) (id : Int) (w : ResponseWatch),
      WatchesOK c.chans (watchesOf c n) → (id, w) ∈ watchesOf c n →
      s.GetVersion w.Request.TypeUrl ≠ w.Request.VersionInfo →
      w.Request.ResourceNames = [] →
      sentOn (SetSnapshot c n s).1.chans w.Response =
        sentOn c.chans w.Response ++
          [createResponse w.Request (s.GetResources w.Request.TypeUrl)
            (s.GetVersion w.Request.TypeUrl)] ∧
      (createResponse w.Request (s.GetResources w.Request.TypeUrl)
          (s.GetVersion w.Request.TypeUrl)).Resources =
        (s.GetResources w.Request.TypeUrl).map Prod.snd ∧
      GoMap.get (watchesOf (SetSnapshot c n s).1 n) id = none) := by
  refine ⟨?_, ?_, ?_, ?_⟩
  · intro n s ch r hr
    by_cases hch : ch < c.chans.length
    · rw [sentOn_SetSnapshot _ _ _ _ hch] at hr
      rcases List.mem_append.1 hr with h | h
      · exact Or.inl h
      · right
        obtain ⟨x, hx, hxr⟩ := List.mem_map.1 h
        unfold deliveredTo at hx
        obtain ⟨_, hp⟩ := List.mem_filter.1 hx
        simp only [decide_eq_true_eq] at hp
        obtain ⟨_, _, hsup⟩ := hp
        subst hxr
        constructor
        · intro hn
          have hn2 : x.2.Request.ResourceNames ≠ [] := hn
          refine ⟨?_, createResponse_allNamed _ _ _ hn2⟩
          intro e he
          by_contra hne
          exact hsup ⟨hads, hn2, e, he, hne⟩
        · intro hn
          have hn2 : x.2.Request.ResourceNames = [] := hn
          exact createResponse_all _ _ _ hn2
    · exfalso
      rw [sentOn_unallocated _ _
        (by rw [length_chans_SetSnapshot]; exact Nat.le_of_not_lt hch)] at hr
      simp at hr
  · intro request now ch r hr
    rcases CreateWatch_cases c request now with hc | ⟨s, hs, hv, hc⟩
    · left
      rw [hc] at hr
      unfold openWatch at hr
      simp only at hr
      rwa [sentOn_append_fresh] at hr
    · rw [hc] at hr
      simp only at hr
      by_cases hch : ch = c.chans.length
      · subst hch
        by_cases hsup : Suppressed c.ads request (s.GetResources request.TypeUrl)
        · exfalso
          rw [respond_of_suppressed _ _ _ _ _ _ hsup, sentOn_append_fresh,
            sentOn_unallocated _ _ (Nat.le_refl _)] at hr
          simp at hr
        · right
          rw [respond_of_not_suppressed _ _ _ _ _ _ hsup,
            sentOn_chanSend_self _ _ _ (by simp), sentOn_append_fresh,
            sentOn_unallocated _ _ (Nat.le_refl _)] at hr
          simp only [List.nil_append, List.mem_singleton] at hr
          subst hr
          refine ⟨s, hs, rfl, ?_, ?_⟩
          · intro hn
            have hn2 : request.ResourceNames ≠ [] := hn
            refine ⟨?_, createResponse_allNamed _ _ _ hn2⟩
            intro e he
            by_contra hne
            exact hsup ⟨hads, hn2, e, he, hne⟩
          · intro hn
            have hn2 : request.ResourceNames = [] := hn
            exact createResponse_all _ _ _ hn2
      · left
        rwa [sentOn_respond_other _ _ _ _ _ _ _ hch, sentOn_append_fresh] at hr
  · intro request now snap hs hv hn
    have hsup : ¬ Suppressed c.ads request (snap.GetResources request.TypeUrl) :=
      fun h => h.2.1 hn
    refine ⟨?_, createResponse_all _ _ _ hn⟩
    rw [CreateWatch_of_immediate c request now snap hs hv]
    simp only
    rw [respond_of_not_suppressed _ _ _ _ _ _ hsup,
      sentOn_chanSend_self _ _ _ (by simp), sentOn_append_fresh,
      sentOn_unallocated _ _ (Nat.le_refl _)]
    rfl
  · intro n s id w hok hw hv hn
    obtain ⟨h1, h2⟩ := SetSnapshot_watch c n s hok id w hw
    have hs : stale s w := hv
    have hsup : ¬ Suppressed c.ads w.Request (s.GetResources w.Request.TypeUrl) :=
      fun h => h.2.1 hn
    refine ⟨?_, createResponse_all _ _ _ hn, ?_⟩
    · rw [h2, if_pos ⟨hs, hsup⟩]
      rfl
    · rw [h1, if_pos hs]

/-! ## Instances on the example caches -/

/-- Instance of the amended C1 on the non-aggregated cache with one open watch. -/
theorem SetSnapshot_no_stale_retention_witness :
    WatchesOK exOpen.chans (watchesOf exOpen "n1") ∧
    (1, exWatchAll) ∈ watchesOf exOpen "n1" ∧
    ((sentOn (SetSnapshot exOpen "n1" exSnapshot).1.chans exWatchAll.Response =
          sentOn exOpen.chans exWatchAll.Response ++ [responseFor exSnapshot exWatchAll] ∧
        (responseFor exSnapshot exWatchAll).Version =
          exSnapshot.GetVersion exWatchAll.Request.TypeUrl ∧
        GoMap.get (watchesOf (SetSnapshot exOpen "n1" exSnapshot).1 "n1") 1 = none) ∨
      (exSnapshot.GetVersion exWatchAll.Request.TypeUrl = exWatchAll.Request.VersionInfo ∧
        sentOn (SetSnapshot exOpen "n1" exSnapshot).1.chans exWatchAll.Response =
          sentOn exOpen.chans exWatchAll.Response ∧
        GoMap.get (watchesOf (SetSnapshot exOpen "n1" exSnapshot).1 "n1") 1 =
          some exWatchAll) ∨
      ((exOpen.ads = true ∧ exWatchAll.Request.ResourceNames ≠ [] ∧
          ∃ e ∈ exSnapshot.GetResources exWatchAll.Request.TypeUrl,
            e.1 ∉ exWatchAll.Request.ResourceNames) ∧
        exSnapshot.GetVersion exWatchAll.Request.TypeUrl ≠ exWatchAll.Request.VersionInfo ∧
        sentOn (SetSnapshot exOpen "n1" exSnapshot).1.chans exWatchAll.Response =
          sentOn exOpen.chans exWatchAll.Response ∧
        GoMap.get (watchesOf (SetSnapshot exOpen "n1" exSnapshot).1 "n1") 1 = none)) :=
  ⟨by decide, by decide,
    SetSnapshot_no_stale_retention exOpen "n1" exSnapshot (by decide) 1 exWatchAll (by decide)⟩

/-- Instance of C2 on the non-aggregated cache with one open watch, which is stale
for the snapshot and receives its response. -/
theorem SetSnapshot_nonaggregated_witness :
    exOpen.ads = false ∧
    WatchesOK exOpen.chans (watchesOf exOpen "n1") ∧
    (1, exWatchAll) ∈ watchesOf exOpen "n1" ∧
    exSnapshot.GetVersion exWatchAll.Request.TypeUrl ≠ exWatchAll.Request.VersionInfo ∧
    sentOn (SetSnapshot exOpen "n1" exSnapshot).1.chans exWatchAll.Response =
      sentOn exOpen.chans exWatchAll.Response ++
        [createResponse exWatchAll.Request
          (exSnapshot.GetResources exWatchAll.Request.TypeUrl)
          (exSnapshot.GetVersion exWatchAll.Request.TypeUrl)] ∧
    GoMap.get (watchesOf (SetSnapshot exOpen "n1" exSnapshot).1 "n1") 1 = none :=
  ⟨by decide, by decide, by decide, by decide,
    (SetSnapshot_nonaggregated exOpen "n1" exSnapshot (by decide) (by decide) 1 exWatchAll
      (by decide)).1 (by decide)⟩

/-- Instance of the amended C3 on the aggregated cache with one open watch. -/
theorem SetSnapshot_suppressed_witness :
    WatchesOK exAdsOpen.chans (watchesOf exAdsOpen "n1") ∧
    (1, exWatchA) ∈ watchesOf exAdsOpen "n1" ∧
    exSnapshot.GetVersion exWatchA.Request.TypeUrl ≠ exWatchA.Request.VersionInfo ∧
    (exAdsOpen.ads = true ∧ exWatchA.Request.ResourceNames ≠ [] ∧
      ∃ e ∈ exSnapshot.GetResources exWatchA.Request.TypeUrl,
        e.1 ∉ exWatchA.Request.ResourceNames) ∧
    sentOn (SetSnapshot exAdsOpen "n1" exSnapshot).1.chans exWatchA.Response =
      sentOn exAdsOpen.chans exWatchA.Response ∧
    (SetSnapshot exAdsOpen "n1" exSnapshot).2 = none ∧
    GoMap.get (watchesOf (SetSnapshot exAdsOpen "n1" exSnapshot).1 "n1") 1 = none :=
  ⟨by decide, by decide, by decide, by decide,
    SetSnapshot_suppressed exAdsOpen "n1" exSnapshot (by decide) 1 exWatchA (by decide)
      (by decide) (by decide)⟩

/-- Instance of C4: a suppressed `CreateWatch` on an aggregated cache, followed by
two further calls. -/
theorem CreateWatch_suppressed_witness :
    ChansAllocated exAdsOpen ∧
    (CreateWatch (SetSnapshot exAdsOpen "n1" exSnapshot).1 exRequestA 1).cancel = none ∧
    sentOn
      (run (CreateWatch (SetSnapshot exAdsOpen "n1" exSnapshot).1 exRequestA 1).cache
        [Op.setSnapshot "n1" exSnapshot, Op.createWatch exRequestAB 2]).chans
      (CreateWatch (SetSnapshot exAdsOpen "n1" exSnapshot).1 exRequestA 1).value = [] :=
  have h := CreateWatch_suppressed (SetSnapshot exAdsOpen "n1" exSnapshot).1 exRequestA 1
    exSnapshot (by decide) rfl (by decide) (by decide)
  ⟨by decide, h.1, h.2.2.1 _⟩

/-- Instance of C5 on a heap of one channel: a request naming every resource is
answered, a request naming only `a` is not. -/
theorem respond_spec_witness :
    0 < [Chan.fresh].length ∧
    sentOn (respond true [Chan.fresh] exRequestAB 0 (exSnapshot.GetResources "T") "v1") 0 =
      sentOn [Chan.fresh] 0 ++ [createResponse exRequestAB (exSnapshot.GetResources "T") "v1"] ∧
    respond true [Chan.fresh] exRequestA 0 (exSnapshot.GetResources "T") "v1" = [Chan.fresh] :=
  ⟨by decide,
    (respond_spec true [Chan.fresh] exRequestAB 0 (exSnapshot.GetResources "T") "v1"
      (by decide)).2.1 (by decide),
    (respond_spec true [Chan.fresh] exRequestA 0 (exSnapshot.GetResources "T") "v1"
      (by decide)).2.2.1 (by decide)⟩

/-- Instance of the amended C6: on the aggregated cache that holds the snapshot, a
request naming both resources gets a response whose resources are all named,
and a request naming no resource gets the response with all resources. -/
theorem aggregated_filter_witness :
    exAdsSet.ads = true ∧
    ({ Request := exRequestAB, Version := "v1", Resources := [resA, resB] } ∈
        sentOn exAdsSet.chans 0 ∨
      ∃ s, GoMap.get exAdsSet.snapshots (exAdsSet.hash exRequestAB.Node) = some s ∧
        exRequestAB = exRequestAB ∧
        (exRequestAB.ResourceNames ≠ [] →
          (∀ e ∈ s.GetResources exRequestAB.TypeUrl, e.1 ∈ exRequestAB.ResourceNames) ∧
          AllNamed (s.GetResources exRequestAB.TypeUrl)
            { Request := exRequestAB, Version := "v1", Resources := [resA, resB] }) ∧
        (exRequestAB.ResourceNames = [] →
          [resA, resB] = (s.GetResources exRequestAB.TypeUrl).map Prod.snd)) ∧
    sentOn (CreateWatch exAdsSet exRequestAll 0).cache.chans
        (CreateWatch exAdsSet exRequestAll 0).value =
      [createResponse exRequestAll (exSnapshot.GetResources exRequestAll.TypeUrl)
        (exSnapshot.GetVersion exRequestAll.TypeUrl)] :=
  ⟨by decide,
    (aggregated_filter exAdsSet (by decide)).2.1 exRequestAB 0 0
      { Request := exRequestAB, Version := "v1", Resources := [resA, resB] } (by decide),
    ((aggregated_filter exAdsSet (by decide)).2.2.1 exRequestAll 0 exSnapshot rfl
      (by decide) rfl).1⟩

/-- Instance of C8: a second watch on a cache that has no snapshot. -/
theorem CreateWatch_open_branch_witness :
    GoMap.get exOpen.snapshots (exOpen.hash exRequestA.Node) = none ∧
    (-2 ^ 63 ≤ exOpen.watchCount ∧ exOpen.watchCount < 2 ^ 63) ∧
    (∀ x ∈ watchesOf exOpen (exOpen.hash exRequestA.Node), 1 ≤ x.1 ∧ x.1 ≤ exOpen.watchCount) ∧
    (CreateWatch exOpen exRequestA 1).cancel = some ("n1", 2) ∧
    watchesOf (CreateWatch exOpen exRequestA 1).cache "n1" =
      [(1, exWatchAll), (2, { Request := exRequestA, Response := 1 })] :=
  have h := CreateWatch_open_branch exOpen exRequestA 1 (Or.inl rfl) (by decide)
    (by decide)
  ⟨rfl, by decide, by decide, h.2.2.1, h.2.2.2.2.1⟩

/-- Instance of C9: a request at an older version on a non-aggregated cache that
holds the snapshot. -/
theorem CreateWatch_immediate_branch_witness :
    GoMap.get exSet.snapshots (exSet.hash exRequestA.Node) = some exSnapshot ∧
    exSnapshot.GetVersion exRequestA.TypeUrl ≠ exRequestA.VersionInfo ∧
    (CreateWatch exSet exRequestA 0).cancel = none ∧
    sentOn (CreateWatch exSet exRequestA 0).cache.chans (CreateWatch exSet exRequestA 0).value =
      [createResponse exRequestA (exSnapshot.GetResources exRequestA.TypeUrl)
        (exSnapshot.GetVersion exRequestA.TypeUrl)] :=
  have h := CreateWatch_immediate_branch exSet exRequestA 0 exSnapshot rfl (by decide)
  ⟨rfl, by decide, h.1, (h.2.2.2 (Or.inl (by decide))).1⟩

/-! ## Invariants of the cache states -/

theorem watchesOK_filter (chans : List Chan) (ws : GoMap Int ResponseWatch)
    (p : Int × ResponseWatch → Bool) (h : WatchesOK chans ws) :
    WatchesOK chans (ws.filter p) := by
  obtain ⟨h1, h2, h3⟩ := h
  refine ⟨GoMap.wf_filter _ _ h1, ?_, ?_⟩
  · exact List.Nodup.sublist (List.Sublist.map _ (List.filter_sublist _)) h2
  · intro e he
    exact h3 e (List.mem_filter.1 he).1

theorem watchesOK_mono (chans chans' : List Chan) (ws : GoMap Int ResponseWatch)
    (hl : chans.length ≤ chans'.length) (h : WatchesOK chans ws) : WatchesOK chans' ws := by
  obtain ⟨h1, h2, h3⟩ := h
  exact ⟨h1, h2, fun e he => Nat.lt_of_lt_of_le (h3 e he) hl⟩

theorem nodup_map_set {K V β : Type} [DecidableEq K] (f : K × V → β) (m : GoMap K V)
    (k : K) (v : V) (h : (m.map f).Nodup) (hnew : ∀ e ∈ m, f e ≠ f (k, v)) :
    ((GoMap.set m k v).map f).Nodup := by
  induction m with
  | nil => simp [GoMap.set]
  | cons e t ih =>
    obtain ⟨k0, v0⟩ := e
    simp only [List.map_cons, List.nodup_cons] at h
    have hnew_t : ∀ e ∈ t, f e ≠ f (k, v) := fun e he => hnew e (List.mem_cons_of_mem _ he)
    by_cases h0 : k0 = k
    · simp only [GoMap.set, h0, if_true, List.map_cons, List.nodup_cons]
      refine ⟨?_, h.2⟩
      intro hmem
      obtain ⟨e, he, hfe⟩ := List.mem_map.1 hmem
      exact hnew_t e he hfe
    · simp only [GoMap.set, h0, if_false, List.map_cons, List.nodup_cons]
      refine ⟨?_, ih h.2 hnew_t⟩
      intro hmem
      obtain ⟨e, he, hfe⟩ := List.mem_map.1 hmem
      rcases GoMap.mem_set _ _ _ _ he with h1 | h1
      · exact h.1 (List.mem_map.2 ⟨e, h1, hfe⟩)
      · subst h1
        exact hnew (k0, v0) (List.mem_cons_self _ _) hfe.symm

theorem watchesOK_set_fresh (chans : List Chan) (ws : GoMap Int ResponseWatch) (id : Int)
    (request : Request) (h : WatchesOK chans ws) :
    WatchesOK (chans ++ [Chan.fresh])
      (GoMap.set ws id { Request := request, Response := chans.length }) := by
  obtain ⟨h1, h2, h3⟩ := h
  refine ⟨GoMap.wf_set _ _ _ h1, ?_, ?_⟩
  · apply nodup_map_set _ _ _ _ h2
    intro e he
    exact Nat.ne_of_lt (h3 e he)
  · intro e he
    rw [List.length_append]
    rcases GoMap.mem_set _ _ _ _ he with h4 | h4
    · exact Nat.lt_of_lt_of_le (h3 e h4) (Nat.le_add_right _ _)
    · subst h4; simp

theorem statusOK_set (c c' : snapshotCache) (n : String) (info : statusInfo)
    (hc : c'.status = GoMap.set c.status n info)
    (hold : ∀ e ∈ c.status, WatchesOK c'.chans e.2.watches)
    (hnew : WatchesOK c'.chans info.watches) : StatusOK c' := by
  intro e he
  rw [hc] at he
  rcases GoMap.mem_set _ _ _ _ he with h1 | h1
  · exact hold e h1
  · subst h1; exact hnew

theorem watchesOK_entryOf (c : snapshotCache) (request : Request) (h : StatusOK c) :
    WatchesOK c.chans (entryOf c request).watches := by
  unfold entryOf
  cases hg : GoMap.get c.status (c.hash request.Node) with
  | none => simp only [newStatusInfo]; exact ⟨by simp [GoMap.WF], by simp, by simp⟩
  | some info => exact h _ (GoMap.mem_of_get _ _ _ hg)

theorem Fetch_cache (c : snapshotCache) (request : Request) : (Fetch c request).1 = c := by
  unfold Fetch
  cases hg : GoMap.get c.snapshots (c.hash request.Node) with
  | none => simp only [hg]
  | some s => simp only [hg]; split <;> rfl

theorem statusOK_step (c : snapshotCache) (op : Op) (h : StatusOK c) : StatusOK (step c op) := by
  cases op with
  | setSnapshot n s =>
    show StatusOK (SetSnapshot c n s).1
    unfold SetSnapshot
    cases hg : GoMap.get c.status n with
    | none => exact h
    | some info =>
      simp only
      apply statusOK_set c _ n _ rfl
      · intro e he
        exact watchesOK_mono _ _ _ (by simp [loop_length]) (h e he)
      · simp only [loop_watches]
        exact watchesOK_mono _ _ _ (by simp [loop_length])
          (watchesOK_filter _ _ _ (h _ (GoMap.mem_of_get _ _ _ hg)))
  | clearSnapshot n =>
    intro e he
    exact h e ((GoMap.mem_delete _ _ _).1 he).1
  | createWatch request now =>
    show StatusOK (CreateWatch c request now).cache
    have hlen := length_chans_CreateWatch c request now
    rcases CreateWatch_cases c request now with hc | ⟨s, _, _, hc⟩
    · rw [hc]
      apply statusOK_set c _ (c.hash request.Node) _ rfl
      · intro e he
        exact watchesOK_mono _ _ _ (by simp [openWatch]) (h e he)
      · exact watchesOK_set_fresh _ _ _ _ (watchesOK_entryOf c request h)
    · rw [hc]
      apply statusOK_set c _ (c.hash request.Node) _ rfl
      · intro e he
        exact watchesOK_mono _ _ _ (by simp [length_respond]) (h e he)
      · exact watchesOK_mono _ _ _ (by simp [length_respond]) (watchesOK_entryOf c request h)
  | cancel n id =>
    show StatusOK (cancelWatch c n id)
    unfold cancelWatch
    cases hg : GoMap.get c.status n with
    | none => exact h
    | some info =>
      simp only
      apply statusOK_set c _ n _ rfl
      · exact h
      · exact watchesOK_filter _ _ _ (h _ (GoMap.mem_of_get _ _ _ hg))
  | fetch request =>
    show StatusOK (Fetch c request).1
    rw [Fetch_cache]; exact h

theorem statusOK_run (ops : List Op) (c : snapshotCache) (h : StatusOK c) :
    StatusOK (run c ops) := by
  induction ops generalizing c with
  | nil => exact h
  | cons op t ih => exact ih (step c op) (statusOK_step c op h)

/-- In every state reached from a new cache, the watches of every node have
distinct ids and distinct allocated channels, and every channel of a
registered watch is allocated: the conditions under which the properties of
`SetSnapshot` and `CreateWatch` below are stated. -/
theorem reachable_watchesOK (ads : Bool) (hash : Node → String) (ops : List Op) :
    ChansAllocated (run (NewSnapshotCache ads hash) ops) ∧
    ∀ n, WatchesOK (run (NewSnapshotCache ads hash) ops).chans
      (watchesOf (run (NewSnapshotCache ads hash) ops) n) := by
  have h0 : StatusOK (NewSnapshotCache ads hash) := by
    intro e he
    simp [NewSnapshotCache] at he
  have h := statusOK_run ops _ h0
  constructor
  · intro e he x hx
    exact (h e he).2.2 x hx
  · intro n
    unfold watchesOf
    cases hg : GoMap.get (run (NewSnapshotCache ads hash) ops).status n with
    | none => exact ⟨by simp [GoMap.WF], by simp, by simp⟩
    | some info => exact h _ (GoMap.mem_of_get _ _ _ hg)


theorem wrapInt64_of_small (n : Int) (hlo : -2 ^ 63 ≤ n) (hhi : n < 2 ^ 63) :
    wrapInt64 n = n := by
  unfold wrapInt64
  have : (n + 2 ^ 63) % 2 ^ 64 = n + 2 ^ 63 := by
    apply Int.emod_eq_of_lt <;> omega
  omega

theorem idsBounded_set (c c' : snapshotCache) (n : String) (info : statusInfo)
    (hc : c'.status = GoMap.set c.status n info)
    (hcount : c.watchCount ≤ c'.watchCount)
    (hold : IdsBounded c)
    (hnew : ∀ x ∈ info.watches, 1 ≤ x.1 ∧ x.1 ≤ c'.watchCount) : IdsBounded c' := by
  refine ⟨le_trans hold.1 hcount, ?_⟩
  intro e he x hx
  rw [hc] at he
  rcases GoMap.mem_set _ _ _ _ he with h1 | h1
  · have := hold.2 e h1 x hx
    exact ⟨this.1, le_trans this.2 hcount⟩
  · subst h1; exact hnew x hx

theorem idsBounded_entryOf (c : snapshotCache) (request : Request) (h : IdsBounded c) :
    ∀ x ∈ (entryOf c request).watches, 1 ≤ x.1 ∧ x.1 ≤ c.watchCount := by
  intro x hx
  obtain ⟨e, he, hxe⟩ := registered_entryOf c request x hx
  exact h.2 e he x hxe

theorem idsBounded_step (c : snapshotCache) (op : Op) (h : IdsBounded c)
    (hsmall : c.watchCount + 1 < 2 ^ 63) :
    IdsBounded (step c op) ∧ (step c op).watchCount ≤ c.watchCount + 1 := by
  cases op with
  | setSnapshot n s =>
    show IdsBounded (SetSnapshot c n s).1 ∧ (SetSnapshot c n s).1.watchCount ≤ _
    unfold SetSnapshot
    cases hg : GoMap.get c.status n with
    | none => exact ⟨h, by simp⟩
    | some info =>
      simp only
      refine ⟨idsBounded_set c _ n _ rfl (le_refl _) h ?_, by simp⟩
      intro x hx
      simp only [loop_watches] at hx
      exact h.2 _ (GoMap.mem_of_get _ _ _ hg) x (List.mem_filter.1 hx).1
  | clearSnapshot n =>
    refine ⟨⟨h.1, ?_⟩, by simp [step, ClearSnapshot]⟩
    intro e he x hx
    exact h.2 e ((GoMap.mem_delete _ _ _).1 he).1 x hx
  | createWatch request now =>
    show IdsBounded (CreateWatch c request now).cache ∧
      (CreateWatch c request now).cache.watchCount ≤ _
    have hw : wrapInt64 (c.watchCount + 1) = c.watchCount + 1 :=
      wrapInt64_of_small _ (by have := h.1; omega) hsmall
    rcases CreateWatch_cases c request now with hc | ⟨s, _, _, hc⟩
    · rw [hc]
      have hcnt : (openWatch c (c.hash request.Node)
          { entryOf c request with lastWatchRequestTime := now } request c.chans.length
          (c.chans ++ [Chan.fresh])).cache.watchCount = c.watchCount + 1 := by
        simp [openWatch, nextWatchID, hw]
      refine ⟨idsBounded_set c _ (c.hash request.Node) _ rfl (by rw [hcnt]; omega) h ?_,
        by rw [hcnt]⟩
      intro x hx
      rw [hcnt]
      simp only [nextWatchID, hw] at hx
      rcases GoMap.mem_set _ _ _ _ hx with h1 | h1
      · have := idsBounded_entryOf c request h x h1
        exact ⟨this.1, by omega⟩
      · subst h1
        have := h.1
        exact ⟨by simp only; omega, by simp only; omega⟩
    · rw [hc]
      refine ⟨idsBounded_set c _ (c.hash request.Node) _ rfl (le_refl _) h ?_, by simp⟩
      exact idsBounded_entryOf c request h
  | cancel n id =>
    show IdsBounded (cancelWatch c n id) ∧ (cancelWatch c n id).watchCount ≤ _
    unfold cancelWatch
    cases hg : GoMap.get c.status n with
    | none => exact ⟨h, by simp⟩
    | some info =>
      simp only
      refine ⟨idsBounded_set c _ n _ rfl (le_refl _) h ?_, by simp⟩
      intro x hx
      exact h.2 _ (GoMap.mem_of_get _ _ _ hg) x ((GoMap.mem_delete _ _ _).1 hx).1
  | fetch request =>
    show IdsBounded (Fetch c request).1 ∧ (Fetch c request).1.watchCount ≤ _
    rw [Fetch_cache]; exact ⟨h, by simp⟩

theorem idsBounded_run (ops : List Op) (c : snapshotCache) (h : IdsBounded c)
    (hsmall : c.watchCount + ops.length < 2 ^ 63) :
    IdsBounded (run c ops) ∧ (run c ops).watchCount ≤ c.watchCount + ops.length := by
  induction ops generalizing c with
  | nil => exact ⟨h, by simp [run]⟩
  | cons op t ih =>
    simp only [List.length_cons, Nat.cast_add, Nat.cast_one] at hsmall ⊢
    obtain ⟨h1, h2⟩ := idsBounded_step c op h (by omega)
    obtain ⟨h3, h4⟩ := ih (step c op) h1 (by omega)
    exact ⟨h3, by
      have : run c (op :: t) = run (step c op) t := rfl
      rw [this]; omega⟩

/-- In every state reached from a new cache by fewer than `2 ^ 63` calls the
counter has not wrapped around and the registered watch-ids lie between 1 and
the counter: the condition under which `CreateWatch` allocates an id that is
not registered. -/
theorem reachable_idsBounded (ads : Bool) (hash : Node → String) (ops : List Op)
    (hlen : (ops.length : Int) < 2 ^ 63) :
    IdsBounded (run (NewSnapshotCache ads hash) ops) ∧
    (run (NewSnapshotCache ads hash) ops).watchCount ≤ ops.length := by
  have h0 : IdsBounded (NewSnapshotCache ads hash) := by
    refine ⟨by simp [NewSnapshotCache], ?_⟩
    intro e he
    simp [NewSnapshotCache] at he
  have := idsBounded_run ops _ h0 (by simpa [NewSnapshotCache] using hlen)
  simpa [NewSnapshotCache] using this

/-! ## `Fetch` after `SetSnapshot`, and `Fetch` as a read -/

theorem snapshots_SetSnapshot (c : snapshotCache) (n : String) (s : Snapshot) :
    (SetSnapshot c n s).1.snapshots = GoMap.set c.snapshots n s := by
  unfold SetSnapshot
  cases GoMap.get c.status n <;> rfl

theorem hash_SetSnapshot (c : snapshotCache) (n : String) (s : Snapshot) :
    (SetSnapshot c n s).1.hash = c.hash := by
  unfold SetSnapshot
  cases GoMap.get c.status n <;> rfl

theorem error_SetSnapshot (c : snapshotCache) (n : String) (s : Snapshot) :
    (SetSnapshot c n s).2 = none := by
  unfold SetSnapshot
  cases GoMap.get c.status n <;> rfl

theorem Fetch_of_stored (c : snapshotCache) (request : Request) (s : Snapshot)
    (hs : GoMap.get c.snapshots (c.hash request.Node) = some s) :
    (Fetch c request).2 =
      if request.VersionInfo = s.GetVersion request.TypeUrl then
        Except.error Error.SkipFetchError
      else Except.ok (createResponse request (s.GetResources request.TypeUrl)
        (s.GetVersion request.TypeUrl)) := by
  unfold Fetch
  simp only [hs]
  split <;> rfl

/-- C11, as the claim states it, fails: `exSnapshot` has the empty version for
the type `U`, and right after `SetSnapshot` the fetch of a request for node
`n1`, type `U` and version `""` returns `SkipFetchError`, not a response. -/
theorem Fetch_after_SetSnapshot_counterexample :
    idHash exRequestU.Node = "n1" ∧ exRequestU.TypeUrl = "U" ∧ exRequestU.VersionInfo = "" ∧
    (Fetch (SetSnapshot (NewSnapshotCache false idHash) "n1" exSnapshot).1 exRequestU).2 =
      Except.error Error.SkipFetchError ∧
    ¬ ∃ r, (Fetch (SetSnapshot (NewSnapshotCache false idHash) "n1" exSnapshot).1 exRequestU).2 =
      Except.ok r := by
  refine ⟨by decide, rfl, rfl, rfl, ?_⟩
  rintro ⟨r, hr⟩
  have h : (Fetch (SetSnapshot (NewSnapshotCache false idHash) "n1" exSnapshot).1 exRequestU).2 =
      Except.error Error.SkipFetchError := rfl
  rw [h] at hr
  cases hr

/-- C11, amended: for every cache, node-id `n`, snapshot `s` and request that
names no resource, has version `""` and whose node hashes to `n`, the fetch
right after `SetSnapshot c n s` returns, when the version of `s` for the
requested type is not empty, a response with no error whose version is that
version and whose resources are the values of the resources of `s` for the
type; when that version is empty it returns `SkipFetchError`. -/
theorem Fetch_after_SetSnapshot (c : snapshotCache) (n : String) (s : Snapshot)
    (request : Request) (hn : c.hash request.Node = n) (hv : request.VersionInfo = "")
    (hnames : request.ResourceNames = []) :
    (s.GetVersion request.TypeUrl ≠ "" →
      ∃ r, (Fetch (SetSnapshot c n s).1 request).2 = Except.ok r ∧
        r.Request = request ∧
        r.Version = s.GetVersion request.TypeUrl ∧
        r.Resources = (s.GetResources request.TypeUrl).map Prod.snd ∧
        Multiset.ofList r.Resources =
          Multiset.map Prod.snd (Multiset.ofList (s.GetResources request.TypeUrl))) ∧
    (s.GetVersion request.TypeUrl = "" →
      (Fetch (SetSnapshot c n s).1 request).2 = Except.error Error.SkipFetchError) := by
  have hs : GoMap.get (SetSnapshot c n s).1.snapshots
      ((SetSnapshot c n s).1.hash request.Node) = some s := by
    rw [hash_SetSnapshot, snapshots_SetSnapshot, hn, GoMap.get_set_self]
  have hf := Fetch_of_stored _ request s hs
  constructor
  · intro hne
    have hne2 : ¬ request.VersionInfo = s.GetVersion request.TypeUrl := by
      rw [hv]; exact fun h => hne h.symm
    rw [if_neg hne2] at hf
    have hres := (createResponse_resources request (s.GetResources request.TypeUrl)
      (s.GetVersion request.TypeUrl))
    simp only [selected, hnames, if_true] at hres
    refine ⟨_, hf, rfl, rfl, hres, ?_⟩
    rw [hres]; rfl
  · intro he
    have he2 : request.VersionInfo = s.GetVersion request.TypeUrl := by rw [hv, he]
    rw [if_pos he2] at hf
    exact hf

/-- Instance of the amended C11: the fetch of all resources of type `T` right
after `exSnapshot` is set on a new cache. -/
theorem Fetch_after_SetSnapshot_witness :
    idHash exRequestAll.Node = "n1" ∧ exRequestAll.VersionInfo = "" ∧
    exRequestAll.ResourceNames = [] ∧ exSnapshot.GetVersion exRequestAll.TypeUrl ≠ "" ∧
    ∃ r, (Fetch (SetSnapshot (NewSnapshotCache false idHash) "n1" exSnapshot).1
        exRequestAll).2 = Except.ok r ∧
      r.Request = exRequestAll ∧
      r.Version = exSnapshot.GetVersion exRequestAll.TypeUrl ∧
      r.Resources = (exSnapshot.GetResources exRequestAll.TypeUrl).map Prod.snd ∧
      Multiset.ofList r.Resources =
        Multiset.map Prod.snd (Multiset.ofList (exSnapshot.GetResources exRequestAll.TypeUrl)) :=
  ⟨by decide, rfl, rfl, by decide,
    (Fetch_after_SetSnapshot (NewSnapshotCache false idHash) "n1" exSnapshot exRequestAll
      (by decide) rfl rfl).1 (by decide)⟩

/-- C12: `Fetch` returns the cache as it found it, so the snapshots, the status
records with all their watches, the watch-id counter and the channels are
unchanged and no watch is registered; hence however often the fetch of a
request is repeated, it returns what the first fetch returned, and a request
whose version equals the stored version of its type gets `SkipFetchError`
every time. -/
theorem Fetch_read_only (c : snapshotCache) (request : Request) :
    (Fetch c request).1 = c ∧
    (Fetch c request).1.snapshots = c.snapshots ∧
    (Fetch c request).1.status = c.status ∧
    (Fetch c request).1.watchCount = c.watchCount ∧
    (Fetch c request).1.chans = c.chans ∧
    (∀ m, watchesOf (Fetch c request).1 m = watchesOf c m) ∧
    (∀ k : Nat, (Fetch ((fun c' => (Fetch c' request).1)^[k] c) request).2 =
      (Fetch c request).2) ∧
    (∀ s, GoMap.get c.snapshots (c.hash request.Node) = some s →
      s.GetVersion request.TypeUrl = request.VersionInfo →
      ∀ k : Nat, (Fetch ((fun c' => (Fetch c' request).1)^[k] c) request).2 =
        Except.error Error.SkipFetchError) := by
  have h := Fetch_cache c request
  have hit : ∀ k : Nat, (fun c' => (Fetch c' request).1)^[k] c = c := by
    intro k
    induction k with
    | zero => rfl
    | succ k ih =>
      rw [Function.iterate_succ_apply', ih]
      exact h
  refine ⟨h, by rw [h], by rw [h], by rw [h], by rw [h], fun m => by rw [h], ?_, ?_⟩
  · intro k; rw [hit k]
  · intro s hs hv k
    rw [hit k, Fetch_of_stored c request s hs, if_pos hv.symm]

/-! ## `GetSnapshot`, `SetSnapshot` and `ClearSnapshot` -/

/-- C20: `SetSnapshot c n s` returns no error, and `GetSnapshot` for `n` then
returns `s` with no error, whatever was stored for `n` before; `GetSnapshot`
returns an error exactly when no snapshot is stored for the node. -/
theorem SetSnapshot_GetSnapshot (c : snapshotCache) (n : String) (s : Snapshot) :
    (SetSnapshot c n s).2 = none ∧
    GetSnapshot (SetSnapshot c n s).1 n = Except.ok s ∧
    (∀ m, (∃ e, GetSnapshot c m = Except.error e) ↔ GoMap.get c.snapshots m = none) ∧
    (∀ m s', GetSnapshot c m = Except.ok s' ↔ GoMap.get c.snapshots m = some s') := by
  refine ⟨error_SetSnapshot c n s, ?_, ?_, ?_⟩
  · unfold GetSnapshot
    rw [snapshots_SetSnapshot, GoMap.get_set_self]
  · intro m
    unfold GetSnapshot
    cases GoMap.get c.snapshots m with
    | none => simp
    | some s' => simp
  · intro m s'
    unfold GetSnapshot
    cases GoMap.get c.snapshots m with
    | none => simp
    | some s'' =>
      constructor
      · intro h; cases h; rfl
      · intro h; cases h; rfl

theorem GoMap.delete_of_get_none {K V : Type} [DecidableEq K] (m : GoMap K V) (k : K)
    (h : GoMap.get m k = none) : GoMap.delete m k = m := by
  unfold GoMap.delete
  rw [List.filter_eq_self]
  intro e he
  have := (GoMap.get_eq_none_iff m k).1 h e he
  simpa using this

theorem GoMap.set_of_get_some {K V : Type} [DecidableEq K] (m : GoMap K V) (k : K) (v : V)
    (h : GoMap.get m k = some v) : GoMap.set m k v = m := by
  induction m with
  | nil => simp [GoMap.get] at h
  | cons e t ih =>
    obtain ⟨k0, v0⟩ := e
    by_cases h0 : k0 = k
    · subst h0
      simp only [GoMap.get, if_true, Option.some.injEq] at h
      subst h
      simp [GoMap.set]
    · simp only [GoMap.get, h0, if_false] at h
      simp [GoMap.set, h0, ih h]

theorem GetStatusKeys_eq (c : snapshotCache) : GetStatusKeys c = c.status.map Prod.fst := by
  unfold GetStatusKeys
  rw [foldl_append_all]
  rfl

theorem mem_keys_iff {K V : Type} [DecidableEq K] (m : GoMap K V) (k : K) :
    k ∈ m.map Prod.fst ↔ GoMap.get m k ≠ none := by
  rw [Ne, GoMap.get_eq_none_iff]
  constructor
  · intro h hall
    obtain ⟨e, he, hk⟩ := List.mem_map.1 h
    exact hall e he hk
  · intro h
    push_neg at h
    obtain ⟨e, he, hk⟩ := h
    exact List.mem_map.2 ⟨e, he, hk⟩

/-- C13: after `ClearSnapshot c n`, `GetSnapshot` for `n` returns the not-found
error, `GetStatusInfo` for `n` returns nil and `n` is not among the status
keys; for every other node `m` the stored snapshot, the status record with its
watches and the membership among the status keys are as before; the watch-id
counter and the channels are unchanged; and when `n` had neither a snapshot
nor a status record the cache is unchanged. -/
theorem ClearSnapshot_frame (c : snapshotCache) (n : String) :
    GetSnapshot (ClearSnapshot c n) n = Except.error (Error.noSnapshotFound n) ∧
    GetStatusInfo (ClearSnapshot c n) n = none ∧
    n ∉ GetStatusKeys (ClearSnapshot c n) ∧
    (∀ m, m ≠ n →
      GoMap.get (ClearSnapshot c n).snapshots m = GoMap.get c.snapshots m ∧
      GetSnapshot (ClearSnapshot c n) m = GetSnapshot c m ∧
      GetStatusInfo (ClearSnapshot c n) m = GetStatusInfo c m ∧
      watchesOf (ClearSnapshot c n) m = watchesOf c m ∧
      (m ∈ GetStatusKeys (ClearSnapshot c n) ↔ m ∈ GetStatusKeys c)) ∧
    (ClearSnapshot c n).watchCount = c.watchCount ∧
    (ClearSnapshot c n).chans = c.chans ∧
    (GoMap.get c.snapshots n = none → GoMap.get c.status n = none →
      ClearSnapshot c n = c) := by
  have hsn : ∀ m, GoMap.get (ClearSnapshot c n).snapshots m =
      if n = m then none else GoMap.get c.snapshots m := fun m => GoMap.get_delete _ _ _
  have hst : ∀ m, GoMap.get (ClearSnapshot c n).status m =
      if n = m then none else GoMap.get c.status m := fun m => GoMap.get_delete _ _ _
  refine ⟨?_, ?_, ?_, ?_, rfl, rfl, ?_⟩
  · unfold GetSnapshot
    rw [hsn n]; simp
  · unfold GetStatusInfo
    rw [hst n]; simp
  · rw [GetStatusKeys_eq, mem_keys_iff, hst n]; simp
  · intro m hm
    have hnm : ¬ n = m := fun h => hm h.symm
    have h1 := hsn m
    have h2 := hst m
    rw [if_neg hnm] at h1 h2
    refine ⟨h1, ?_, h2, ?_, ?_⟩
    · unfold GetSnapshot; rw [h1]
    · unfold watchesOf; rw [h2]
    · rw [GetStatusKeys_eq, GetStatusKeys_eq, mem_keys_iff, mem_keys_iff, h2]
  · intro h1 h2
    unfold ClearSnapshot
    rw [GoMap.delete_of_get_none _ _ h1, GoMap.delete_of_get_none _ _ h2]

/-! ## The cancel function -/

theorem watchesOf_cancelWatch (c : snapshotCache) (k : String) (i : Int) (m : String) :
    watchesOf (cancelWatch c k i) m =
      if k = m then GoMap.delete (watchesOf c k) i else watchesOf c m := by
  unfold cancelWatch
  cases hg : GoMap.get c.status k with
  | none =>
    by_cases h : k = m
    · subst h; simp [watchesOf, hg, GoMap.delete]
    · simp [h]
  | some info =>
    simp only
    rw [watchesOf_set_status c k _ _ rfl m]
    by_cases h : k = m
    · subst h
      rw [if_pos rfl, if_pos rfl]
      unfold watchesOf
      rw [hg]
    · rw [if_neg h, if_neg h]

theorem cancelWatch_of_absent (c : snapshotCache) (k : String) (i : Int)
    (h : GoMap.get (watchesOf c k) i = none) : cancelWatch c k i = c := by
  unfold cancelWatch
  cases hg : GoMap.get c.status k with
  | none => rfl
  | some info =>
    have hw : GoMap.get info.watches i = none := by
      simpa [watchesOf, hg] using h
    simp only
    rw [GoMap.delete_of_get_none _ _ hw, GoMap.set_of_get_some _ _ _ hg]

/-- C16: the cancel function of watch-id `i` on node-id `k`, called in any
state, leaves as the watches of `k` the former ones without the entry of `i`:
`i` is no longer registered and every other id of `k` has the watch it had;
the status records of the other nodes, the node descriptor and time stamp of
`k`, the snapshots, the counter and all channels are unchanged.  When `i` is
not registered on `k` (the watch was delivered and removed, or the node was
cleared) the cache is unchanged, in particular right after `ClearSnapshot`;
and a second call changes nothing more. -/
theorem cancelWatch_spec (c : snapshotCache) (k : String) (i : Int) :
    watchesOf (cancelWatch c k i) k = GoMap.delete (watchesOf c k) i ∧
    GoMap.get (watchesOf (cancelWatch c k i) k) i = none ∧
    (∀ j, j ≠ i →
      GoMap.get (watchesOf (cancelWatch c k i) k) j = GoMap.get (watchesOf c k) j) ∧
    (∀ m, m ≠ k → GetStatusInfo (cancelWatch c k i) m = GetStatusInfo c m) ∧
    (∀ info, GetStatusInfo c k = some info →
      GetStatusInfo (cancelWatch c k i) k =
        some { info with watches := GoMap.delete info.watches i }) ∧
    (GetStatusInfo c k = none → GetStatusInfo (cancelWatch c k i) k = none) ∧
    (cancelWatch c k i).snapshots = c.snapshots ∧
    (cancelWatch c k i).watchCount = c.watchCount ∧
    (cancelWatch c k i).chans = c.chans ∧
    (GoMap.get (watchesOf c k) i = none → cancelWatch c k i = c) ∧
    cancelWatch (ClearSnapshot c k) k i = ClearSnapshot c k ∧
    cancelWatch (cancelWatch c k i) k i = cancelWatch c k i := by
  have hw := watchesOf_cancelWatch c k i k
  rw [if_pos rfl] at hw
  have hgone : GoMap.get (watchesOf (cancelWatch c k i) k) i = none := by
    rw [hw, GoMap.get_delete]; simp
  refine ⟨hw, hgone, ?_, ?_, ?_, ?_, ?_, ?_, ?_, cancelWatch_of_absent c k i, ?_,
    cancelWatch_of_absent _ k i hgone⟩
  · intro j hj
    rw [hw, GoMap.get_delete, if_neg (Ne.symm hj)]
  · intro m hm
    unfold GetStatusInfo cancelWatch
    cases hg : GoMap.get c.status k with
    | none => rfl
    | some info => exact GoMap.get_set_other _ _ _ _ (Ne.symm hm)
  · intro info hinfo
    unfold GetStatusInfo at hinfo
    unfold GetStatusInfo cancelWatch
    rw [hinfo]
    exact GoMap.get_set_self _ _ _
  · intro hnone
    unfold GetStatusInfo at hnone
    unfold GetStatusInfo cancelWatch
    rw [hnone]
    exact hnone
  · unfold cancelWatch
    cases GoMap.get c.status k <;> rfl
  · unfold cancelWatch
    cases GoMap.get c.status k <;> rfl
  · unfold cancelWatch
    cases GoMap.get c.status k <;> rfl
  · apply cancelWatch_of_absent
    have : watchesOf (ClearSnapshot c k) k = [] := by
      unfold watchesOf ClearSnapshot
      simp only
      rw [GoMap.get_delete]; simp
    rw [this]; rfl

/-! ## The watches of a node after one call -/

theorem watchesOf_SetSnapshot_other (c : snapshotCache) (n : String) (s : Snapshot)
    (m : String) (h : n ≠ m) : watchesOf (SetSnapshot c n s).1 m = watchesOf c m := by
  unfold SetSnapshot
  cases hg : GoMap.get c.status n with
  | none => rfl
  | some info =>
    simp only
    rw [watchesOf_set_status c n _ _ rfl m, if_neg h]

theorem watchesOf_ClearSnapshot (c : snapshotCache) (n : String) (m : String) :
    watchesOf (ClearSnapshot c n) m = if n = m then [] else watchesOf c m := by
  unfold watchesOf ClearSnapshot
  simp only
  rw [GoMap.get_delete]
  by_cases h : n = m <;> simp [h]

theorem watchesOf_openWatch (c : snapshotCache) (request : Request) (now : Nat) (m : String) :
    watchesOf (openWatch c (c.hash request.Node)
        { entryOf c request with lastWatchRequestTime := now } request c.chans.length
        (c.chans ++ [Chan.fresh])).cache m =
      if c.hash request.Node = m then
        GoMap.set (watchesOf c m) (wrapInt64 (c.watchCount + 1))
          { Request := request, Response := c.chans.length }
      else watchesOf c m := by
  unfold openWatch nextWatchID
  simp only
  rw [watchesOf_set_status c (c.hash request.Node) _ _ rfl m]
  by_cases h : c.hash request.Node = m
  · subst h
    simp only [if_true, entryOf_watches]
  · simp only [h, if_false]

/-- The shape of one call: either the channels are kept or extended and the
watches of every node are a selection of the former ones, or the call is a
`CreateWatch` that allocates one channel and registers one watch on it, under
the next watch-id, for the node of the request. -/
theorem step_shape (c : snapshotCache) (op : Op) :
    (c.chans.length ≤ (step c op).chans.length ∧
      (step c op).watchCount = c.watchCount ∧
      ∀ m, ∃ p : Int × ResponseWatch → Bool,
        watchesOf (step c op) m = (watchesOf c m).filter p) ∨
    (∃ request now, op = Op.createWatch request now ∧
      (step c op).chans.length = c.chans.length + 1 ∧
      (step c op).watchCount = wrapInt64 (c.watchCount + 1) ∧
      ∀ m, watchesOf (step c op) m =
        if c.hash request.Node = m then
          GoMap.set (watchesOf c m) (wrapInt64 (c.watchCount + 1))
            { Request := request, Response := c.chans.length }
        else watchesOf c m) := by
  cases op with
  | setSnapshot n s =>
    left
    refine ⟨Nat.le_of_eq (length_chans_SetSnapshot c n s).symm, ?_, ?_⟩
    · show (SetSnapshot c n s).1.watchCount = _
      unfold SetSnapshot
      cases GoMap.get c.status n <;> rfl
    · intro m
      show ∃ p, watchesOf (SetSnapshot c n s).1 m = _
      by_cases h : n = m
      · subst h
        exact ⟨_, watchesOf_SetSnapshot c n s⟩
      · refine ⟨fun _ => true, ?_⟩
        rw [watchesOf_SetSnapshot_other c n s m h]
        simp
  | clearSnapshot n =>
    left
    refine ⟨Nat.le_refl _, rfl, ?_⟩
    intro m
    show ∃ p, watchesOf (ClearSnapshot c n) m = _
    rw [watchesOf_ClearSnapshot]
    by_cases h : n = m
    · exact ⟨fun _ => false, by simp [h]⟩
    · exact ⟨fun _ => true, by simp [h]⟩
  | createWatch request now =>
    rcases CreateWatch_cases c request now with hc | ⟨s, hs, hv, hc⟩
    · right
      refine ⟨request, now, rfl, length_chans_CreateWatch c request now, ?_, ?_⟩
      · show (CreateWatch c request now).cache.watchCount = _
        rw [hc]; rfl
      · intro m
        show watchesOf (CreateWatch c request now).cache m = _
        rw [hc]
        exact watchesOf_openWatch c request now m
    · left
      refine ⟨?_, ?_, ?_⟩
      · show c.chans.length ≤ (CreateWatch c request now).cache.chans.length
        rw [length_chans_CreateWatch]; omega
      · show (CreateWatch c request now).cache.watchCount = _
        rw [hc]
      · intro m
        refine ⟨fun _ => true, ?_⟩
        show watchesOf (CreateWatch c request now).cache m = _
        rw [watchesOf_CreateWatch_immediate c request now s hs hv]
        simp
  | cancel n id =>
    left
    refine ⟨?_, ?_, ?_⟩
    · show c.chans.length ≤ (cancelWatch c n id).chans.length
      unfold cancelWatch
      cases GoMap.get c.status n <;> exact Nat.le_refl _
    · show (cancelWatch c n id).watchCount = _
      unfold cancelWatch
      cases GoMap.get c.status n <;> rfl
    · intro m
      show ∃ p, watchesOf (cancelWatch c n id) m = _
      rw [watchesOf_cancelWatch]
      by_cases h : n = m
      · subst h
        exact ⟨_, by rw [if_pos rfl]; rfl⟩
      · exact ⟨fun _ => true, by simp [h]⟩
  | fetch request =>
    left
    show _ ≤ (Fetch c request).1.chans.length ∧ (Fetch c request).1.watchCount = _ ∧
      ∀ m, ∃ p, watchesOf (Fetch c request).1 m = _
    rw [Fetch_cache]
    exact ⟨Nat.le_refl _, rfl, fun m => ⟨fun _ => true, by simp⟩⟩

/-! ## Channels are never closed -/

theorem closedAt_chanSend (chans : List Chan) (value ch : Nat) (r : Response) :
    closedAt (chanSend chans value r) ch = closedAt chans ch := by
  unfold closedAt chanSend
  by_cases h : value = ch
  · subst h
    rw [List.getElem?_modify_eq]
    cases chans[value]? <;> rfl
  · rw [List.getElem?_modify_ne _ _ h]

theorem closedAt_respond (ads : Bool) (chans : List Chan) (request : Request)
    (value ch : Nat) (resources : GoMap String Resource) (version : String) :
    closedAt (respond ads chans request value resources version) ch = closedAt chans ch := by
  by_cases h : Suppressed ads request resources
  · rw [respond_of_suppressed _ _ _ _ _ _ h]
  · rw [respond_of_not_suppressed _ _ _ _ _ _ h, closedAt_chanSend]

theorem closedAt_loop (ads : Bool) (s : Snapshot) (l : GoMap Int ResponseWatch)
    (ws : GoMap Int ResponseWatch) (chans : List Chan) (ch : Nat) :
    closedAt (l.foldl (setSnapshotStep ads s) (ws, chans)).2 ch = closedAt chans ch := by
  induction l generalizing ws chans with
  | nil => rfl
  | cons e t ih =>
    rw [List.foldl_cons]
    by_cases h : stale s e.2
    · rw [setSnapshotStep_of_stale _ _ _ _ h, ih, closedAt_respond]
    · rw [setSnapshotStep_of_not_stale _ _ _ _ h, ih]

theorem closedAt_append_fresh (chans : List Chan) (ch : Nat)
    (h : closedAt chans ch = false) : closedAt (chans ++ [Chan.fresh]) ch = false := by
  unfold closedAt at *
  by_cases h1 : ch < chans.length
  · rw [List.getElem?_append_left h1]; exact h
  · by_cases h2 : ch = chans.length
    · subst h2; simp [Chan.fresh]
    · rw [List.getElem?_eq_none]
      simp; omega

theorem closedAt_step (c : snapshotCache) (op : Op) (h : ∀ ch, closedAt c.chans ch = false)
    (ch : Nat) : closedAt (step c op).chans ch = false := by
  cases op with
  | setSnapshot n s =>
    show closedAt (SetSnapshot c n s).1.chans ch = false
    rw [chans_SetSnapshot, closedAt_loop]; exact h ch
  | clearSnapshot n => exact h ch
  | createWatch request now =>
    show closedAt (CreateWatch c request now).cache.chans ch = false
    rcases CreateWatch_cases c request now with hc | ⟨s, _, _, hc⟩
    · rw [hc]
      exact closedAt_append_fresh _ _ (h ch)
    · rw [hc]
      simp only
      rw [closedAt_respond]
      exact closedAt_append_fresh _ _ (h ch)
  | cancel n id =>
    show closedAt (cancelWatch c n id).chans ch = false
    unfold cancelWatch
    cases GoMap.get c.status n <;> exact h ch
  | fetch request =>
    show closedAt (Fetch c request).1.chans ch = false
    rw [Fetch_cache]; exact h ch

/-! ## What one call sends -/

/-- Under the invariant, a call leaves what has been sent on a channel as it
was, or sends exactly one value on a channel on which nothing had been sent;
in the second case no watch registered after the call uses the channel, which
was the channel of a registered watch or is the channel the call allocates. -/
theorem step_written (c : snapshotCache) (op : Op) (h : Inv c) (ch : Nat) :
    sentOn (step c op).chans ch = sentOn c.chans ch ∨
    (sentOn c.chans ch = [] ∧ (∃ r, sentOn (step c op).chans ch = [r]) ∧
      (∀ m x, x ∈ watchesOf (step c op) m → x.2.Response ≠ ch) ∧
      ((∃ m y, y ∈ watchesOf c m ∧ y.2.Response = ch) ∨ ch = c.chans.length)) := by
  cases op with
  | setSnapshot n s =>
    show sentOn (SetSnapshot c n s).1.chans ch = _ ∨
      (_ ∧ (∃ r, sentOn (SetSnapshot c n s).1.chans ch = [r]) ∧
        (∀ m x, x ∈ watchesOf (SetSnapshot c n s).1 m → _) ∧ _)
    by_cases hch : ch < c.chans.length
    · rw [sentOn_SetSnapshot _ _ _ _ hch]
      cases hd : deliveredTo c.ads s (watchesOf c n) ch with
      | nil => left; simp
      | cons y t =>
        right
        have hy : y ∈ deliveredTo c.ads s (watchesOf c n) ch := by rw [hd]; simp
        unfold deliveredTo at hy
        obtain ⟨hyw, hp⟩ := List.mem_filter.1 hy
        simp only [decide_eq_true_eq] at hp
        obtain ⟨hyc, hys, hysup⟩ := hp
        have hone := filter_on_distinct_channel (watchesOf c n) (h.watches n).2.1 y hyw
          (fun x => stale s x.2 ∧
            ¬ Suppressed c.ads x.2.Request (s.GetResources x.2.Request.TypeUrl))
        simp only at hone
        rw [if_pos ⟨hys, hysup⟩, hyc] at hone
        have hd2 : deliveredTo c.ads s (watchesOf c n) ch = [y] := hone
        rw [hd2] at hd
        have hempty := h.empty n y hyw
        rw [hyc] at hempty
        refine ⟨hempty, ⟨responseFor s y.2, ?_⟩, ?_, Or.inl ⟨n, y, hyw, hyc⟩⟩
        · rw [hempty, ← hd]; rfl
        · intro m x hx hxc
          by_cases hnm : n = m
          · subst hnm
            rw [watchesOf_SetSnapshot] at hx
            obtain ⟨hxw, hxp⟩ := List.mem_filter.1 hx
            have hxy : x = y :=
              List.inj_on_of_nodup_map (h.watches n).2.1 hxw hyw (by rw [hxc, hyc])
            subst hxy
            simp only [decide_eq_true_eq] at hxp
            exact hxp ⟨x, hxw, rfl, hys⟩
          · rw [watchesOf_SetSnapshot_other c n s m hnm] at hx
            exact hnm (h.distinct n m y x hyw hx (by rw [hxc, hyc]))
    · left
      have hle : c.chans.length ≤ ch := Nat.le_of_not_lt hch
      rw [sentOn_unallocated _ _ hle,
        sentOn_unallocated _ _ (by rw [length_chans_SetSnapshot]; exact hle)]
  | clearSnapshot n => exact Or.inl rfl
  | createWatch request now =>
    show sentOn (CreateWatch c request now).cache.chans ch = _ ∨
      (_ ∧ (∃ r, sentOn (CreateWatch c request now).cache.chans ch = [r]) ∧
        (∀ m x, x ∈ watchesOf (CreateWatch c request now).cache m → _) ∧ _)
    by_cases hch : ch < c.chans.length
    · exact Or.inl (sentOn_CreateWatch_old c request now ch hch)
    · have hle : c.chans.length ≤ ch := Nat.le_of_not_lt hch
      have hold : sentOn c.chans ch = [] := sentOn_unallocated _ _ hle
      rcases CreateWatch_cases c request now with hc | ⟨s, hs, hv, hc⟩
      · left
        rw [hc, hold]
        simp only [openWatch]
        rw [sentOn_append_fresh]; exact hold
      · by_cases heq : ch = c.chans.length
        · subst heq
          by_cases hsup : Suppressed c.ads request (s.GetResources request.TypeUrl)
          · left
            rw [hc, hold]
            simp only
            rw [respond_of_suppressed _ _ _ _ _ _ hsup, sentOn_append_fresh]; exact hold
          · right
            refine ⟨hold, ⟨createResponse request (s.GetResources request.TypeUrl)
              (s.GetVersion request.TypeUrl), ?_⟩, ?_, Or.inr rfl⟩
            · rw [hc]
              simp only
              rw [respond_of_not_suppressed _ _ _ _ _ _ hsup,
                sentOn_chanSend_self _ _ _ (by simp), sentOn_append_fresh, hold]
              rfl
            · intro m x hx
              rw [watchesOf_CreateWatch_immediate c request now s hs hv] at hx
              exact Nat.ne_of_lt ((h.watches m).2.2 x hx)
        · left
          rw [hc, hold]
          simp only
          rw [sentOn_respond_other _ _ _ _ _ _ _ heq, sentOn_append_fresh]; exact hold
  | cancel n id =>
    left
    show sentOn (cancelWatch c n id).chans ch = _
    unfold cancelWatch
    cases GoMap.get c.status n <;> rfl
  | fetch request =>
    left
    show sentOn (Fetch c request).1.chans ch = _
    rw [Fetch_cache]

/-! ## The invariant holds in every reachable state -/

theorem inv_step (c : snapshotCache) (op : Op) (h : Inv c) : Inv (step c op) := by
  have hshape := step_shape c op
  have hmem : ∀ m x, x ∈ watchesOf (step c op) m →
      (x ∈ watchesOf c m ∧ x.2.Response < c.chans.length) ∨
        x.2.Response = c.chans.length := by
    intro m x hx
    rcases hshape with ⟨_, _, hf⟩ | ⟨request, now, _, _, _, hw⟩
    · obtain ⟨p, hp⟩ := hf m
      rw [hp] at hx
      have hx2 := (List.mem_filter.1 hx).1
      exact Or.inl ⟨hx2, (h.watches m).2.2 x hx2⟩
    · rw [hw m] at hx
      by_cases hm : c.hash request.Node = m
      · rw [if_pos hm] at hx
        rcases GoMap.mem_set _ _ _ _ hx with h1 | h1
        · exact Or.inl ⟨h1, (h.watches m).2.2 x h1⟩
        · subst h1; exact Or.inr rfl
      · rw [if_neg hm] at hx
        exact Or.inl ⟨hx, (h.watches m).2.2 x hx⟩
  refine ⟨?_, ?_, ?_, ?_, closedAt_step c op h.notClosed⟩
  · intro m
    rcases hshape with ⟨hlen, _, hf⟩ | ⟨request, now, _, hlen, _, hw⟩
    · obtain ⟨p, hp⟩ := hf m
      rw [hp]
      exact watchesOK_mono _ _ _ hlen (watchesOK_filter _ _ _ (h.watches m))
    · rw [hw m]
      by_cases hm : c.hash request.Node = m
      · rw [if_pos hm]
        exact watchesOK_mono _ _ _ (by rw [hlen]; simp)
          (watchesOK_set_fresh c.chans _ _ request (h.watches m))
      · rw [if_neg hm]
        exact watchesOK_mono _ _ _ (by rw [hlen]; omega) (h.watches m)
  · intro n m x y hx hy hxy
    rcases hshape with ⟨_, _, hf⟩ | ⟨request, now, _, _, _, hw⟩
    · obtain ⟨p, hp⟩ := hf n
      obtain ⟨q, hq⟩ := hf m
      rw [hp] at hx
      rw [hq] at hy
      exact h.distinct n m x y (List.mem_filter.1 hx).1 (List.mem_filter.1 hy).1 hxy
    · have hx0 := hx
      have hy0 := hy
      rw [hw n] at hx
      rw [hw m] at hy
      by_cases hn : c.hash request.Node = n
      · by_cases hm : c.hash request.Node = m
        · rw [← hn, ← hm]
        · rw [if_pos hn] at hx
          rw [if_neg hm] at hy
          have hyl := (h.watches m).2.2 y hy
          rcases GoMap.mem_set _ _ _ _ hx with h1 | h1
          · exact h.distinct n m x y h1 hy hxy
          · subst h1
            simp only at hxy
            omega
      · rw [if_neg hn] at hx
        have hxl := (h.watches n).2.2 x hx
        by_cases hm : c.hash request.Node = m
        · rw [if_pos hm] at hy
          rcases GoMap.mem_set _ _ _ _ hy with h1 | h1
          · exact h.distinct n m x y hx h1 hxy
          · subst h1
            simp only at hxy
            omega
        · rw [if_neg hm] at hy
          exact h.distinct n m x y hx hy hxy
  · intro m x hx
    rcases step_written c op h x.2.Response with hsame | ⟨_, _, hno, _⟩
    · rw [hsame]
      rcases hmem m x hx with ⟨hold, _⟩ | hnew
      · exact h.empty m x hold
      · rw [hnew]; exact sentOn_unallocated _ _ (Nat.le_refl _)
    · exact absurd rfl (hno m x hx)
  · intro ch
    rcases step_written c op h ch with hsame | ⟨_, ⟨r, hr⟩, _⟩
    · rw [hsame]; exact h.once ch
    · rw [hr]; simp

theorem inv_run (ops : List Op) (c : snapshotCache) (h : Inv c) : Inv (run c ops) := by
  induction ops generalizing c with
  | nil => exact h
  | cons op t ih => exact ih (step c op) (inv_step c op h)

theorem watchesOf_new (ads : Bool) (hash : Node → String) (m : String) :
    watchesOf (NewSnapshotCache ads hash) m = [] := rfl

theorem inv_new (ads : Bool) (hash : Node → String) : Inv (NewSnapshotCache ads hash) := by
  refine ⟨?_, ?_, ?_, ?_, ?_⟩
  · intro n
    rw [watchesOf_new]
    exact ⟨by simp [GoMap.WF], by simp, by simp⟩
  · intro n m x y hx
    rw [watchesOf_new] at hx; simp at hx
  · intro n x hx
    rw [watchesOf_new] at hx; simp at hx
  · intro ch; simp [NewSnapshotCache, sentOn]
  · intro ch; simp [NewSnapshotCache, closedAt]

/-- The invariant holds in every state reached from a new cache. -/
theorem reachable_inv (ads : Bool) (hash : Node → String) (ops : List Op) :
    Inv (run (NewSnapshotCache ads hash) ops) :=
  inv_run ops _ (inv_new ads hash)

theorem run_append (c : snapshotCache) (ops ops' : List Op) :
    run c (ops ++ ops') = run (run c ops) ops' := by
  unfold run
  rw [List.foldl_append]

theorem run_cons (c : snapshotCache) (op : Op) (ops : List Op) :
    run c (op :: ops) = run (step c op) ops := rfl

/-! ## A channel without a registered watch stays as it is -/

theorem mem_watchesOf_step (c : snapshotCache) (op : Op) (m : String)
    (x : Int × ResponseWatch) (hx : x ∈ watchesOf (step c op) m) :
    x ∈ watchesOf c m ∨ x.2.Response = c.chans.length := by
  rcases step_shape c op with ⟨_, _, hf⟩ | ⟨request, now, _, _, _, hw⟩
  · obtain ⟨p, hp⟩ := hf m
    rw [hp] at hx
    exact Or.inl (List.mem_filter.1 hx).1
  · rw [hw m] at hx
    by_cases hm : c.hash request.Node = m
    · rw [if_pos hm] at hx
      rcases GoMap.mem_set _ _ _ _ hx with h1 | h1
      · exact Or.inl h1
      · subst h1; exact Or.inr rfl
    · rw [if_neg hm] at hx
      exact Or.inl hx

theorem length_chans_step (c : snapshotCache) (op : Op) :
    c.chans.length ≤ (step c op).chans.length := by
  rcases step_shape c op with ⟨h, _, _⟩ | ⟨_, _, _, h, _, _⟩
  · exact h
  · rw [h]; omega

theorem unusedChan_step (c : snapshotCache) (op : Op) (ch : Nat) (h : Inv c)
    (hu : UnusedChan c ch) :
    UnusedChan (step c op) ch ∧ sentOn (step c op).chans ch = sentOn c.chans ch := by
  obtain ⟨hlt, hno⟩ := hu
  refine ⟨⟨Nat.lt_of_lt_of_le hlt (length_chans_step c op), ?_⟩, ?_⟩
  · intro m x hx
    rcases mem_watchesOf_step c op m x hx with h1 | h1
    · exact hno m x h1
    · rw [h1]; exact Nat.ne_of_gt hlt
  · rcases step_written c op h ch with hsame | ⟨_, _, _, ⟨m, y, hy, hyc⟩ | heq⟩
    · exact hsame
    · exact absurd hyc (hno m y hy)
    · exact absurd heq (Nat.ne_of_lt hlt)

theorem unusedChan_run (ops : List Op) (c : snapshotCache) (ch : Nat) (h : Inv c)
    (hu : UnusedChan c ch) : sentOn (run c ops).chans ch = sentOn c.chans ch := by
  induction ops generalizing c with
  | nil => rfl
  | cons op t ih =>
    obtain ⟨h1, h2⟩ := unusedChan_step c op ch h hu
    rw [run_cons, ih (step c op) (inv_step c op h) h1, h2]

theorem sent_grows_step (c : snapshotCache) (op : Op) (h : Inv c) (ch : Nat) :
    ∃ t, sentOn (step c op).chans ch = sentOn c.chans ch ++ t := by
  rcases step_written c op h ch with hsame | ⟨hempty, ⟨r, hr⟩, _⟩
  · exact ⟨[], by rw [hsame]; simp⟩
  · exact ⟨[r], by rw [hr, hempty]; rfl⟩

theorem sent_grows_run (ops : List Op) (c : snapshotCache) (h : Inv c) (ch : Nat) :
    ∃ t, sentOn (run c ops).chans ch = sentOn c.chans ch ++ t := by
  induction ops generalizing c with
  | nil => exact ⟨[], by simp [run]⟩
  | cons op t ih =>
    obtain ⟨t1, h1⟩ := sent_grows_step c op h ch
    obtain ⟨t2, h2⟩ := ih (step c op) (inv_step c op h)
    exact ⟨t1 ++ t2, by rw [run_cons, h2, h1, List.append_assoc]⟩

/-! ## `ClearSnapshot` and the channels of the dropped watches -/

/-- C14: in a cache that satisfies the invariant (as every reachable one does),
for every watch `(id, w)` open on node `n`, `ClearSnapshot c n` leaves all
channels as they are, so it sends nothing on the channel of `w`, on which
nothing has been sent; and after every later sequence of `SetSnapshot`,
`ClearSnapshot`, `CreateWatch`, `Fetch` and cancel calls, with any arguments,
still nothing has been sent on that channel. -/
theorem ClearSnapshot_never_delivers (c : snapshotCache) (h : Inv c) (n : String)
    (id : Int) (w : ResponseWatch) (hw : (id, w) ∈ watchesOf c n) :
    (ClearSnapshot c n).chans = c.chans ∧
    sentOn (ClearSnapshot c n).chans w.Response = [] ∧
    (∀ ops : List Op, sentOn (run (ClearSnapshot c n) ops).chans w.Response = []) ∧
    (∀ m x, x ∈ watchesOf (ClearSnapshot c n) m → x.2.Response ≠ w.Response) := by
  have hempty : sentOn c.chans w.Response = [] := h.empty n (id, w) hw
  have hinv : Inv (ClearSnapshot c n) := inv_step c (Op.clearSnapshot n) h
  have hno : ∀ m x, x ∈ watchesOf (ClearSnapshot c n) m → x.2.Response ≠ w.Response := by
    intro m x hx hxc
    rw [watchesOf_ClearSnapshot] at hx
    by_cases hnm : n = m
    · rw [if_pos hnm] at hx; simp at hx
    · rw [if_neg hnm] at hx
      exact hnm (h.distinct n m (id, w) x hw hx hxc.symm)
  have hun : UnusedChan (ClearSnapshot c n) w.Response :=
    ⟨(h.watches n).2.2 (id, w) hw, hno⟩
  refine ⟨rfl, hempty, ?_, hno⟩
  intro ops
  rw [unusedChan_run ops _ _ hinv hun]
  exact hempty

/-- C15, as the claim states it, fails: the channel of the watch open on node
`n1` is not closed after `ClearSnapshot`. -/
theorem ClearSnapshot_closes_counterexample :
    (1, exWatchAll) ∈ watchesOf exOpen "n1" ∧
    ¬ (closedAt (ClearSnapshot exOpen "n1").chans exWatchAll.Response = true) := by
  decide

/-- C15, amended: `ClearSnapshot` leaves every channel as it is; in a cache
that satisfies the invariant (as every reachable one does) the channel of
every watch that was open on node `n` is therefore still not closed after
`ClearSnapshot c n`, and still nothing has been sent on it. -/
theorem ClearSnapshot_leaves_channels (c : snapshotCache) (h : Inv c) (n : String)
    (id : Int) (w : ResponseWatch) (hw : (id, w) ∈ watchesOf c n) :
    (ClearSnapshot c n).chans = c.chans ∧
    closedAt (ClearSnapshot c n).chans w.Response = false ∧
    sentOn (ClearSnapshot c n).chans w.Response = [] ∧
    w.Response < (ClearSnapshot c n).chans.length :=
  ⟨rfl, h.notClosed w.Response, h.empty n (id, w) hw, (h.watches n).2.2 (id, w) hw⟩

/-! ## Single delivery, and no watch delivered and retained -/

/-- C17: after every finite sequence of `SetSnapshot`, `ClearSnapshot`,
`CreateWatch`, `Fetch` and cancel calls on a new cache, aggregated or not, at
most one value has been sent on any channel; what has been sent on a channel
is never taken back by later calls, so this bounds the number of sends over
the whole sequence; in particular at most one value has been sent on the
channel returned by any `CreateWatch` call of the sequence. -/
theorem single_delivery (ads : Bool) (hash : Node → String) :
    (∀ (ops : List Op) (ch : Nat),
      (sentOn (run (NewSnapshotCache ads hash) ops).chans ch).length ≤ 1) ∧
    (∀ (ops ops' : List Op) (ch : Nat),
      ∃ t, sentOn (run (NewSnapshotCache ads hash) (ops ++ ops')).chans ch =
        sentOn (run (NewSnapshotCache ads hash) ops).chans ch ++ t) ∧
    (∀ (pre post : List Op) (request : Request) (now : Nat),
      (sentOn (run (NewSnapshotCache ads hash)
          (pre ++ Op.createWatch request now :: post)).chans
        (CreateWatch (run (NewSnapshotCache ads hash) pre) request now).value).length ≤ 1) := by
  refine ⟨?_, ?_, ?_⟩
  · intro ops ch
    exact (reachable_inv ads hash ops).once ch
  · intro ops ops' ch
    rw [run_append]
    exact sent_grows_run ops' _ (reachable_inv ads hash ops) ch
  · intro pre post request now
    exact (reachable_inv ads hash _).once _

theorem deliveredTo_before (ads : Bool) (s : Snapshot) (l1 l2 : GoMap Int ResponseWatch)
    (e : Int × ResponseWatch)
    (hn : ((l1 ++ e :: l2).map (fun x => x.2.Response)).Nodup) :
    deliveredTo ads s l1 e.2.Response = [] := by
  apply deliveredTo_eq_nil
  intro x hx heq
  rw [List.map_append, List.map_cons] at hn
  have hdis := (List.nodup_append.1 hn).2.2
  exact hdis (List.mem_map.2 ⟨x, hx, heq⟩) (List.mem_cons_self _ _)

/-- C18: in every state reached from a new cache, nothing has been sent on the
channel of any watch that is still registered, and that channel is allocated
and not closed.  Hence every send finds its channel empty: in the loop of
`SetSnapshot`, when the turn of a watch comes, nothing has been sent on its
channel; the channel `CreateWatch` responds on is new and empty; and any call
that changes what has been sent on a channel turns an empty, open channel
into one that holds exactly one value. -/
theorem registered_channels_empty (ads : Bool) (hash : Node → String) (ops : List Op) :
    (∀ n x, x ∈ watchesOf (run (NewSnapshotCache ads hash) ops) n →
      sentOn (run (NewSnapshotCache ads hash) ops).chans x.2.Response = [] ∧
      closedAt (run (NewSnapshotCache ads hash) ops).chans x.2.Response = false ∧
      x.2.Response < (run (NewSnapshotCache ads hash) ops).chans.length) ∧
    (∀ (n : String) (s : Snapshot) (l1 l2 : GoMap Int ResponseWatch) (e : Int × ResponseWatch),
      watchesOf (run (NewSnapshotCache ads hash) ops) n = l1 ++ e :: l2 →
      sentOn (l1.foldl (setSnapshotStep (run (NewSnapshotCache ads hash) ops).ads s)
          (watchesOf (run (NewSnapshotCache ads hash) ops) n,
            (run (NewSnapshotCache ads hash) ops).chans)).2 e.2.Response = [] ∧
      closedAt (l1.foldl (setSnapshotStep (run (NewSnapshotCache ads hash) ops).ads s)
          (watchesOf (run (NewSnapshotCache ads hash) ops) n,
            (run (NewSnapshotCache ads hash) ops).chans)).2 e.2.Response = false) ∧
    (sentOn ((run (NewSnapshotCache ads hash) ops).chans ++ [Chan.fresh])
        (run (NewSnapshotCache ads hash) ops).chans.length = [] ∧
      closedAt ((run (NewSnapshotCache ads hash) ops).chans ++ [Chan.fresh])
        (run (NewSnapshotCache ads hash) ops).chans.length = false) ∧
    (∀ (op : Op) (ch : Nat),
      sentOn (step (run (NewSnapshotCache ads hash) ops) op).chans ch ≠
          sentOn (run (NewSnapshotCache ads hash) ops).chans ch →
        sentOn (run (NewSnapshotCache ads hash) ops).chans ch = [] ∧
        closedAt (run (NewSnapshotCache ads hash) ops).chans ch = false ∧
        ∃ r, sentOn (step (run (NewSnapshotCache ads hash) ops) op).chans ch = [r]) := by
  have h := reachable_inv ads hash ops
  refine ⟨?_, ?_, ⟨?_, ?_⟩, ?_⟩
  · intro n x hx
    exact ⟨h.empty n x hx, h.notClosed _, (h.watches n).2.2 x hx⟩
  · intro n s l1 l2 e hsplit
    have he : e ∈ watchesOf (run (NewSnapshotCache ads hash) ops) n := by
      rw [hsplit]; simp
    have hnd := (h.watches n).2.1
    rw [hsplit] at hnd
    constructor
    · rw [loop_sent _ _ _ _ _ _ ((h.watches n).2.2 e he), deliveredTo_before _ _ l1 l2 e hnd,
        h.empty n e he]
      rfl
    · rw [closedAt_loop]
      exact h.notClosed _
  · rw [sentOn_append_fresh]
    exact sentOn_unallocated _ _ (Nat.le_refl _)
  · exact closedAt_append_fresh _ _ (h.notClosed _)
  · intro op ch hne
    rcases step_written _ op h ch with hsame | ⟨hempty, hr, _, _⟩
    · exact absurd hsame hne
    · exact ⟨hempty, h.notClosed ch, hr⟩

/-! ## Watch-ids -/

theorem allocatedBy_step (c : snapshotCache) (op : Op) :
    (allocatedBy c op = [] ∧ (step c op).watchCount = c.watchCount) ∨
    (allocatedBy c op = [wrapInt64 (c.watchCount + 1)] ∧
      (step c op).watchCount = wrapInt64 (c.watchCount + 1)) := by
  cases op with
  | setSnapshot n s =>
    left
    refine ⟨rfl, ?_⟩
    show (SetSnapshot c n s).1.watchCount = _
    unfold SetSnapshot
    cases GoMap.get c.status n <;> rfl
  | clearSnapshot n => exact Or.inl ⟨rfl, rfl⟩
  | createWatch request now =>
    rcases CreateWatch_cases c request now with hc | ⟨s, _, _, hc⟩
    · right
      constructor
      · show (match (CreateWatch c request now).cancel with
          | some p => [p.2]
          | none => []) = _
        rw [hc]; rfl
      · show (CreateWatch c request now).cache.watchCount = _
        rw [hc]; rfl
    · left
      constructor
      · show (match (CreateWatch c request now).cancel with
          | some p => [p.2]
          | none => []) = _
        rw [hc]
      · show (CreateWatch c request now).cache.watchCount = _
        rw [hc]
  | cancel n id =>
    left
    refine ⟨rfl, ?_⟩
    show (cancelWatch c n id).watchCount = _
    unfold cancelWatch
    cases GoMap.get c.status n <;> rfl
  | fetch request =>
    left
    refine ⟨rfl, ?_⟩
    show (Fetch c request).1.watchCount = _
    rw [Fetch_cache]

theorem allocatedIds_append (l1 l2 : List Op) (c : snapshotCache) :
    allocatedIds c (l1 ++ l2) = allocatedIds c l1 ++ allocatedIds (run c l1) l2 := by
  induction l1 generalizing c with
  | nil => rfl
  | cons op t ih =>
    show allocatedBy c op ++ allocatedIds (step c op) (t ++ l2) =
      (allocatedBy c op ++ allocatedIds (step c op) t) ++ allocatedIds (run (step c op) t) l2
    rw [ih, List.append_assoc]

theorem allocatedIds_range (ops : List Op) (c : snapshotCache) (h0 : 0 ≤ c.watchCount)
    (hlen : c.watchCount + ops.length < 2 ^ 63) :
    ∃ m : Nat, (run c ops).watchCount = c.watchCount + m ∧ m ≤ ops.length ∧
      allocatedIds c ops = (List.range m).map (fun k : Nat => c.watchCount + 1 + (k : Int)) := by
  induction ops generalizing c with
  | nil => exact ⟨0, by simp [run], Nat.le_refl _, rfl⟩
  | cons op t ih =>
    simp only [List.length_cons, Nat.cast_add, Nat.cast_one] at hlen
    have hw : wrapInt64 (c.watchCount + 1) = c.watchCount + 1 :=
      wrapInt64_of_small _ (by omega) (by omega)
    rcases allocatedBy_step c op with ⟨ha, hc⟩ | ⟨ha, hc⟩
    · obtain ⟨m, h1, h2, h3⟩ := ih (step c op) (by rw [hc]; exact h0) (by rw [hc]; omega)
      refine ⟨m, by rw [run_cons, h1, hc], by simp only [List.length_cons]; omega, ?_⟩
      simp only [allocatedIds, ha, List.nil_append, h3, hc]
    · rw [hw] at ha hc
      obtain ⟨m, h1, h2, h3⟩ := ih (step c op) (by rw [hc]; omega) (by rw [hc]; omega)
      refine ⟨m + 1, by rw [run_cons, h1, hc]; push_cast; ring,
        by simp only [List.length_cons]; omega, ?_⟩
      simp only [allocatedIds, ha, h3, hc, List.range_succ_eq_map, List.map_cons,
        List.map_map, List.singleton_append]
      congr 1
      · simp
      · apply List.map_congr_left
        intro k _
        simp only [Function.comp]
        push_cast
        ring

theorem idsInv_step (c : snapshotCache) (op : Op) (h : IdsInv c)
    (hsmall : c.watchCount + 1 < 2 ^ 63) : IdsInv (step c op) := by
  have hw : wrapInt64 (c.watchCount + 1) = c.watchCount + 1 :=
    wrapInt64_of_small _ (by have := h.counter; omega) hsmall
  rcases step_shape c op with ⟨_, hcnt, hf⟩ | ⟨request, now, _, _, hcnt, hwm⟩
  · refine ⟨by rw [hcnt]; exact h.counter, ?_, ?_⟩
    · intro n x hx
      obtain ⟨p, hp⟩ := hf n
      rw [hp] at hx
      rw [hcnt]
      exact h.bounded n x (List.mem_filter.1 hx).1
    · intro n m x y hx hy hxy
      obtain ⟨p, hp⟩ := hf n
      obtain ⟨q, hq⟩ := hf m
      rw [hp] at hx
      rw [hq] at hy
      exact h.distinct n m x y (List.mem_filter.1 hx).1 (List.mem_filter.1 hy).1 hxy
  · rw [hw] at hcnt hwm
    have hmem : ∀ n x, x ∈ watchesOf (step c op) n →
        x ∈ watchesOf c n ∨ (c.hash request.Node = n ∧ x.1 = c.watchCount + 1) := by
      intro n x hx
      rw [hwm n] at hx
      by_cases hn : c.hash request.Node = n
      · rw [if_pos hn] at hx
        rcases GoMap.mem_set _ _ _ _ hx with h1 | h1
        · exact Or.inl h1
        · subst h1; exact Or.inr ⟨hn, rfl⟩
      · rw [if_neg hn] at hx
        exact Or.inl hx
    refine ⟨by rw [hcnt]; have := h.counter; omega, ?_, ?_⟩
    · intro n x hx
      rw [hcnt]
      rcases hmem n x hx with h1 | ⟨_, h1⟩
      · have := h.bounded n x h1
        exact ⟨this.1, by omega⟩
      · have := h.counter
        exact ⟨by omega, by omega⟩
    · intro n m x y hx hy hxy
      rcases hmem n x hx with h1 | ⟨hn1, h1⟩
      · rcases hmem m y hy with h2 | ⟨_, h2⟩
        · exact h.distinct n m x y h1 h2 hxy
        · have := h.bounded n x h1
          omega
      · rcases hmem m y hy with h2 | ⟨hn2, _⟩
        · have := h.bounded m y h2
          omega
        · rw [← hn1, ← hn2]

theorem watchCount_step_le (c : snapshotCache) (op : Op) (h0 : 0 ≤ c.watchCount)
    (hsmall : c.watchCount + 1 < 2 ^ 63) :
    c.watchCount ≤ (step c op).watchCount ∧ (step c op).watchCount ≤ c.watchCount + 1 := by
  have hw : wrapInt64 (c.watchCount + 1) = c.watchCount + 1 :=
    wrapInt64_of_small _ (by omega) hsmall
  rcases allocatedBy_step c op with ⟨_, hc⟩ | ⟨_, hc⟩
  · rw [hc]; omega
  · rw [hc, hw]; omega

theorem idsInv_run (ops : List Op) (c : snapshotCache) (h : IdsInv c)
    (hlen : c.watchCount + ops.length < 2 ^ 63) : IdsInv (run c ops) := by
  induction ops generalizing c with
  | nil => exact h
  | cons op t ih =>
    simp only [List.length_cons, Nat.cast_add, Nat.cast_one] at hlen
    have hle := watchCount_step_le c op h.counter (by omega)
    exact ih (step c op) (idsInv_step c op h (by omega)) (by omega)

theorem idsInv_new (ads : Bool) (hash : Node → String) : IdsInv (NewSnapshotCache ads hash) := by
  refine ⟨by simp [NewSnapshotCache], ?_, ?_⟩
  · intro n x hx
    rw [watchesOf_new] at hx; simp at hx
  · intro n m x y hx
    rw [watchesOf_new] at hx; simp at hx

theorem CreateWatch_fixed (c : snapshotCache) (request : Request) (now : Nat) :
    (CreateWatch c request now).cache.snapshots = c.snapshots ∧
    (CreateWatch c request now).cache.hash = c.hash ∧
    (CreateWatch c request now).cache.ads = c.ads := by
  rcases CreateWatch_cases c request now with hc | ⟨s, _, _, hc⟩
  · rw [hc]; exact ⟨rfl, rfl, rfl⟩
  · rw [hc]; exact ⟨rfl, rfl, rfl⟩

/-- C19: over any sequence of calls on a new cache that is shorter than `2 ^ 63`,
the range in which the 64-bit counter of the cache counts, the `k`-th watch-id
allocated by `CreateWatch` is `k`: the allocated ids are positive and strictly
increasing, none is allocated twice, whatever became of the watch, and the
counter is their number; in the state reached every registered id lies
between 1 and the counter, and an id registered on two nodes, or twice on a
node, is registered once: the nodes and the watches are the same. -/
theorem watch_ids_unique (ads : Bool) (hash : Node → String) (ops : List Op)
    (hlen : (ops.length : Int) < 2 ^ 63) :
    (∀ k : Nat, k < (allocatedIds (NewSnapshotCache ads hash) ops).length →
      (allocatedIds (NewSnapshotCache ads hash) ops)[k]? = some ((k : Int) + 1)) ∧
    (allocatedIds (NewSnapshotCache ads hash) ops).Pairwise (fun a b => a < b) ∧
    (∀ id ∈ allocatedIds (NewSnapshotCache ads hash) ops, 0 < id) ∧
    (allocatedIds (NewSnapshotCache ads hash) ops).Nodup ∧
    (run (NewSnapshotCache ads hash) ops).watchCount =
      (allocatedIds (NewSnapshotCache ads hash) ops).length ∧
    (∀ n x, x ∈ watchesOf (run (NewSnapshotCache ads hash) ops) n →
      1 ≤ x.1 ∧ x.1 ≤ (run (NewSnapshotCache ads hash) ops).watchCount) ∧
    (∀ n m x y, x ∈ watchesOf (run (NewSnapshotCache ads hash) ops) n →
      y ∈ watchesOf (run (NewSnapshotCache ads hash) ops) m → x.1 = y.1 → n = m ∧ x = y) := by
  have hc0 : (NewSnapshotCache ads hash).watchCount = 0 := rfl
  obtain ⟨m, h1, _, h3⟩ := allocatedIds_range ops (NewSnapshotCache ads hash)
    (by rw [hc0]) (by rw [hc0]; simpa using hlen)
  rw [hc0] at h1 h3
  have hids := idsInv_run ops _ (idsInv_new ads hash) (by rw [hc0]; simpa using hlen)
  have hinv := reachable_inv ads hash ops
  have hpair : (allocatedIds (NewSnapshotCache ads hash) ops).Pairwise (fun a b => a < b) := by
    rw [h3, List.pairwise_map]
    exact List.Pairwise.imp (fun {a b} (hab : a < b) => by omega) (List.pairwise_lt_range m)
  refine ⟨?_, hpair, ?_, ?_, ?_, hids.bounded, ?_⟩
  · intro k hk
    rw [h3] at hk ⊢
    simp only [List.length_map, List.length_range] at hk
    rw [List.getElem?_map, List.getElem?_range hk]
    simp only [Option.map_some']
    congr 1
    omega
  · intro id hid
    rw [h3] at hid
    obtain ⟨k, _, hk⟩ := List.mem_map.1 hid
    omega
  · exact List.Pairwise.imp (fun {a b} (hab : a < b) => ne_of_lt hab) hpair
  · rw [h1, h3]; simp
  · intro n n' x y hx hy hxy
    have hn := hids.distinct n n' x y hx hy hxy
    subst hn
    refine ⟨rfl, ?_⟩
    obtain ⟨k1, w1⟩ := x
    obtain ⟨k2, w2⟩ := y
    simp only at hxy
    subst hxy
    rw [GoMap.value_unique _ (hinv.watches n).1 k1 w1 w2 hx hy]

/-- Instance of C19: two `CreateWatch` calls on a new cache. -/
theorem watch_ids_unique_witness :
    (([Op.createWatch exRequestAll 0, Op.createWatch exRequestA 1].length : Nat) : Int) <
      2 ^ 63 ∧
    (allocatedIds (NewSnapshotCache false idHash)
      [Op.createWatch exRequestAll 0, Op.createWatch exRequestA 1]).Nodup :=
  ⟨by norm_num,
    (watch_ids_unique false idHash [Op.createWatch exRequestAll 0, Op.createWatch exRequestA 1]
      (by norm_num)).2.2.2.1⟩

/-- Instance of C14: the watch open on node `n1` is dropped by `ClearSnapshot`,
and a later `SetSnapshot` on the node and a call of the cancel function send
nothing on its channel. -/
theorem ClearSnapshot_never_delivers_witness :
    Inv exOpen ∧ (1, exWatchAll) ∈ watchesOf exOpen "n1" ∧
    sentOn (run (ClearSnapshot exOpen "n1")
      [Op.setSnapshot "n1" exSnapshot, Op.cancel "n1" 1]).chans exWatchAll.Response = [] :=
  ⟨reachable_inv false idHash [Op.createWatch exRequestAll 0], by decide,
    (ClearSnapshot_never_delivers exOpen
      (reachable_inv false idHash [Op.createWatch exRequestAll 0]) "n1" 1 exWatchAll
      (by decide)).2.2.1 _⟩

/-- Instance of the amended C15: the channel of the watch open on node `n1` is
not closed after `ClearSnapshot`. -/
theorem ClearSnapshot_leaves_channels_witness :
    Inv exOpen ∧ (1, exWatchAll) ∈ watchesOf exOpen "n1" ∧
    closedAt (ClearSnapshot exOpen "n1").chans exWatchAll.Response = false :=
  ⟨reachable_inv false idHash [Op.createWatch exRequestAll 0], by decide,
    (ClearSnapshot_leaves_channels exOpen
      (reachable_inv false idHash [Op.createWatch exRequestAll 0]) "n1" 1 exWatchAll
      (by decide)).2.1⟩

/-! ## `SetSnapshot` and the other nodes -/

theorem status_SetSnapshot_other (c : snapshotCache) (n : String) (s : Snapshot) (m : String)
    (h : n ≠ m) : GoMap.get (SetSnapshot c n s).1.status m = GoMap.get c.status m := by
  unfold SetSnapshot
  cases hg : GoMap.get c.status n with
  | none => rfl
  | some info => exact GoMap.get_set_other _ _ _ _ h

theorem keys_SetSnapshot (c : snapshotCache) (n : String) (s : Snapshot) :
    (SetSnapshot c n s).1.status.map Prod.fst = c.status.map Prod.fst := by
  unfold SetSnapshot
  cases hg : GoMap.get c.status n with
  | none => rfl
  | some info =>
    simp only
    rw [GoMap.keys_set, if_pos]
    rw [mem_keys_iff, hg]
    simp

theorem watchCount_SetSnapshot (c : snapshotCache) (n : String) (s : Snapshot) :
    (SetSnapshot c n s).1.watchCount = c.watchCount := by
  unfold SetSnapshot
  cases GoMap.get c.status n <;> rfl

theorem closedAt_SetSnapshot (c : snapshotCache) (n : String) (s : Snapshot) (ch : Nat) :
    closedAt (SetSnapshot c n s).1.chans ch = closedAt c.chans ch := by
  rw [chans_SetSnapshot, closedAt_loop]

theorem sentOn_SetSnapshot_unused (c : snapshotCache) (n : String) (s : Snapshot) (ch : Nat)
    (h : ∀ x ∈ watchesOf c n, x.2.Response ≠ ch) :
    sentOn (SetSnapshot c n s).1.chans ch = sentOn c.chans ch := by
  by_cases hch : ch < c.chans.length
  · rw [sentOn_SetSnapshot _ _ _ _ hch, deliveredTo_eq_nil _ _ _ _ h]
    simp
  · have hle : c.chans.length ≤ ch := Nat.le_of_not_lt hch
    rw [sentOn_unallocated _ _ hle,
      sentOn_unallocated _ _ (by rw [length_chans_SetSnapshot]; exact hle)]

/-- C21: in a cache in which no channel serves watches of two nodes (as in every
reachable state), `SetSnapshot c n s`, for any snapshot `s`, leaves unchanged
for every node `m` other than `n` the stored snapshot of `m`, the status record
of `m`, the watches of `m`, and what has been sent on the channels of those
watches, none of which gets closed; the list of status keys and the watch-id
counter are unchanged as well. -/
theorem SetSnapshot_node_isolation (c : snapshotCache) (n : String) (s : Snapshot)
    (hd : ChansDistinct c) :
    (∀ m, m ≠ n →
      GoMap.get (SetSnapshot c n s).1.snapshots m = GoMap.get c.snapshots m ∧
      GetSnapshot (SetSnapshot c n s).1 m = GetSnapshot c m ∧
      GetStatusInfo (SetSnapshot c n s).1 m = GetStatusInfo c m ∧
      watchesOf (SetSnapshot c n s).1 m = watchesOf c m ∧
      ∀ x ∈ watchesOf c m,
        sentOn (SetSnapshot c n s).1.chans x.2.Response = sentOn c.chans x.2.Response ∧
        closedAt (SetSnapshot c n s).1.chans x.2.Response =
          closedAt c.chans x.2.Response) ∧
    GetStatusKeys (SetSnapshot c n s).1 = GetStatusKeys c ∧
    (SetSnapshot c n s).1.watchCount = c.watchCount := by
  refine ⟨?_, ?_, watchCount_SetSnapshot c n s⟩
  · intro m hm
    have hnm : n ≠ m := Ne.symm hm
    have h1 : GoMap.get (SetSnapshot c n s).1.snapshots m = GoMap.get c.snapshots m := by
      rw [snapshots_SetSnapshot, GoMap.get_set_other _ _ _ _ hnm]
    refine ⟨h1, ?_, status_SetSnapshot_other c n s m hnm,
      watchesOf_SetSnapshot_other c n s m hnm, ?_⟩
    · unfold GetSnapshot; rw [h1]
    · intro x hx
      refine ⟨sentOn_SetSnapshot_unused c n s _ ?_, closedAt_SetSnapshot c n s _⟩
      intro y hy hyx
      exact hnm (hd n m y x hy hx hyx)
  · rw [GetStatusKeys_eq, GetStatusKeys_eq, keys_SetSnapshot]

/-- Instance of C21: in the cache with one watch on each of the nodes `n1` and
`n2`, setting a snapshot for `n1` leaves the channel of the watch of `n2` as
it is. -/
theorem SetSnapshot_node_isolation_witness :
    ChansDistinct exTwo ∧ (2, exWatch2) ∈ watchesOf exTwo "n2" ∧
    sentOn (SetSnapshot exTwo "n1" exSnapshot).1.chans exWatch2.Response =
      sentOn exTwo.chans exWatch2.Response ∧
    watchesOf (SetSnapshot exTwo "n1" exSnapshot).1 "n2" = watchesOf exTwo "n2" :=
  have hd : ChansDistinct exTwo := (reachable_inv false idHash _).distinct
  have h := (SetSnapshot_node_isolation exTwo "n1" exSnapshot hd).1 "n2" (by decide)
  ⟨hd, by decide, (h.2.2.2.2 (2, exWatch2) (by decide)).1, h.2.2.2.1⟩

/-! ## Setting the same snapshot again -/

theorem loop_of_current (ads : Bool) (s : Snapshot) (l : GoMap Int ResponseWatch)
    (acc : GoMap Int ResponseWatch × List Chan) (h : ∀ x ∈ l, ¬ stale s x.2) :
    l.foldl (setSnapshotStep ads s) acc = acc := by
  induction l generalizing acc with
  | nil => rfl
  | cons e t ih =>
    rw [List.foldl_cons, setSnapshotStep_of_not_stale _ _ _ _ (h e (List.mem_cons_self _ _))]
    exact ih acc (fun x hx => h x (List.mem_cons_of_mem _ hx))

theorem SetSnapshot_of_current (c : snapshotCache) (n : String) (s : Snapshot)
    (h : ∀ x ∈ watchesOf c n, ¬ stale s x.2) :
    (SetSnapshot c n s).1 = { c with snapshots := GoMap.set c.snapshots n s } := by
  unfold SetSnapshot
  cases hg : GoMap.get c.status n with
  | none => rfl
  | some info =>
    have hw : watchesOf c n = info.watches := by
      unfold watchesOf; rw [hg]
    rw [hw] at h
    simp only
    rw [loop_of_current _ _ _ _ h]
    simp only
    rw [GoMap.set_of_get_some _ _ _ hg]

theorem current_after_SetSnapshot (c : snapshotCache) (n : String) (s : Snapshot) :
    ∀ x ∈ watchesOf (SetSnapshot c n s).1 n, ¬ stale s x.2 := by
  intro x hx hs
  rw [watchesOf_SetSnapshot] at hx
  obtain ⟨hxw, hp⟩ := List.mem_filter.1 hx
  simp only [decide_eq_true_eq] at hp
  exact hp ⟨x, hxw, rfl, hs⟩

theorem SetSnapshot_twice (c : snapshotCache) (n : String) (s : Snapshot) :
    (SetSnapshot (SetSnapshot c n s).1 n s).1 = (SetSnapshot c n s).1 := by
  rw [SetSnapshot_of_current _ n s (current_after_SetSnapshot c n s)]
  have hs : GoMap.set (SetSnapshot c n s).1.snapshots n s = (SetSnapshot c n s).1.snapshots := by
    apply GoMap.set_of_get_some
    rw [snapshots_SetSnapshot, GoMap.get_set_self]
  rw [hs]

/-- C22, as the claim states it, fails in an aggregated cache: the watch of
`exAdsCurrent` was created at the version `v1` of the stored snapshot and names
only `a`; it stays open when the same snapshot is set again, but the following
`SetSnapshot` with the version changed to `v2` delivers nothing on its
channel, although `v2` differs from the version of the watch. -/
theorem SetSnapshot_again_counterexample :
    exAdsCurrent.ads = true ∧
    (1, { Request := exRequestA1, Response := 0 }) ∈ watchesOf exAdsCurrent "n1" ∧
    exRequestA1.VersionInfo = exSnapshot.GetVersion exRequestA1.TypeUrl ∧
    (1, { Request := exRequestA1, Response := 0 }) ∈
      watchesOf (SetSnapshot exAdsCurrent "n1" exSnapshot).1 "n1" ∧
    "v2" ≠ exRequestA1.VersionInfo ∧
    ¬ ∃ r ∈ sentOn (SetSnapshot (SetSnapshot exAdsCurrent "n1" exSnapshot).1 "n1"
        (exSnapshot.WithVersion "T" "v2")).1.chans 0, r.Version = "v2" := by
  decide

/-- C22, amended: for every cache, node `n` and snapshot `s`, a second
`SetSnapshot c n s` right after the first returns the cache of the first, so it
sends nothing and removes no watch.  A watch `(id, w)` of `n` (ids and channels
of the node distinct and allocated) whose version equals the version of `s`
for its type stays registered across `SetSnapshot c n s`, and nothing is sent
on its channel; a following `SetSnapshot` with the version of that type
changed to a `v2` that differs from the version of the watch sends it exactly
the response with version `v2` and removes it, provided the response is not
suppressed (the cache is not aggregated, or the watch names no resource, or
every resource of the type is named); when it is suppressed nothing is sent
and the watch is removed. -/
theorem SetSnapshot_again (c : snapshotCache) (n : String) (s : Snapshot) :
    (SetSnapshot (SetSnapshot c n s).1 n s).1 = (SetSnapshot c n s).1 ∧
    (∀ ch, sentOn (SetSnapshot (SetSnapshot c n s).1 n s).1.chans ch =
      sentOn (SetSnapshot c n s).1.chans ch) ∧
    (∀ m, watchesOf (SetSnapshot (SetSnapshot c n s).1 n s).1 m =
      watchesOf (SetSnapshot c n s).1 m) ∧
    (∀ (id : Int) (w : ResponseWatch), WatchesOK c.chans (watchesOf c n) →
      (id, w) ∈ watchesOf c n →
      w.Request.VersionInfo = s.GetVersion w.Request.TypeUrl →
      GoMap.get (watchesOf (SetSnapshot c n s).1 n) id = some w ∧
      sentOn (SetSnapshot c n s).1.chans w.Response = sentOn c.chans w.Response ∧
      ∀ v2 : String, v2 ≠ w.Request.VersionInfo →
        ((c.ads = false ∨ w.Request.ResourceNames = [] ∨
            ∀ e ∈ s.GetResources w.Request.TypeUrl, e.1 ∈ w.Request.ResourceNames) →
          sentOn (SetSnapshot (SetSnapshot c n s).1 n
              (s.WithVersion w.Request.TypeUrl v2)).1.chans w.Response =
            sentOn c.chans w.Response ++
              [createResponse w.Request (s.GetResources w.Request.TypeUrl) v2] ∧
          (createResponse w.Request (s.GetResources w.Request.TypeUrl) v2).Version = v2) ∧
        ((c.ads = true ∧ w.Request.ResourceNames ≠ [] ∧
            ∃ e ∈ s.GetResources w.Request.TypeUrl, e.1 ∉ w.Request.ResourceNames) →
          sentOn (SetSnapshot (SetSnapshot c n s).1 n
              (s.WithVersion w.Request.TypeUrl v2)).1.chans w.Response =
            sentOn c.chans w.Response) ∧
        GoMap.get (watchesOf (SetSnapshot (SetSnapshot c n s).1 n
          (s.WithVersion w.Request.TypeUrl v2)).1 n) id = none) := by
  have htwice := SetSnapshot_twice c n s
  refine ⟨htwice, fun ch => by rw [htwice], fun m => by rw [htwice], ?_⟩
  intro id w hok hw hcur
  have hns : ¬ stale s w := fun h => h hcur.symm
  obtain ⟨h1, h2⟩ := SetSnapshot_watch c n s hok id w hw
  rw [if_neg hns] at h1
  have h2' : sentOn (SetSnapshot c n s).1.chans w.Response = sentOn c.chans w.Response := by
    rw [h2]; simp [hns]
  refine ⟨h1, h2', ?_⟩
  intro v2 hv2
  have hok1 : WatchesOK (SetSnapshot c n s).1.chans (watchesOf (SetSnapshot c n s).1 n) := by
    rw [watchesOf_SetSnapshot]
    exact watchesOK_mono _ _ _ (Nat.le_of_eq (length_chans_SetSnapshot c n s).symm)
      (watchesOK_filter _ _ _ hok)
  have hw1 : (id, w) ∈ watchesOf (SetSnapshot c n s).1 n := GoMap.mem_of_get _ _ _ h1
  have hads : (SetSnapshot c n s).1.ads = c.ads := by
    unfold SetSnapshot
    cases GoMap.get c.status n <;> rfl
  have hver : (s.WithVersion w.Request.TypeUrl v2).GetVersion w.Request.TypeUrl = v2 := by
    simp [Snapshot.WithVersion]
  have hst : stale (s.WithVersion w.Request.TypeUrl v2) w := by
    unfold stale; rw [hver]; exact hv2
  obtain ⟨h3, h4⟩ := SetSnapshot_watch (SetSnapshot c n s).1 n
    (s.WithVersion w.Request.TypeUrl v2) hok1 id w hw1
  rw [if_pos hst] at h3
  rw [h2', hads] at h4
  have hres : (s.WithVersion w.Request.TypeUrl v2).GetResources w.Request.TypeUrl =
      s.GetResources w.Request.TypeUrl := rfl
  rw [hres] at h4
  refine ⟨?_, ?_, h3⟩
  · intro hnot
    have hsup : ¬ Suppressed c.ads w.Request (s.GetResources w.Request.TypeUrl) := by
      rintro ⟨ha, hn, e, he, hne⟩
      rcases hnot with h | h | h
      · rw [h] at ha; cases ha
      · exact hn h
      · exact hne (h e he)
    refine ⟨?_, rfl⟩
    rw [h4, if_pos ⟨hst, hsup⟩]
    simp [responseFor, hres, hver]
  · intro hsup
    have hsup2 : Suppressed c.ads w.Request (s.GetResources w.Request.TypeUrl) := hsup
    rw [h4, if_neg (fun h => h.2 hsup2)]
    simp

/-- Instance of the amended C22 on the non-aggregated cache that holds
`exSnapshot` and has one open watch at its version. -/
theorem SetSnapshot_again_witness :
    WatchesOK exCurrent.chans (watchesOf exCurrent "n1") ∧
    (1, { Request := exRequestAll1, Response := 0 }) ∈ watchesOf exCurrent "n1" ∧
    exRequestAll1.VersionInfo = exSnapshot.GetVersion exRequestAll1.TypeUrl ∧
    sentOn (SetSnapshot (SetSnapshot exCurrent "n1" exSnapshot).1 "n1"
        (exSnapshot.WithVersion exRequestAll1.TypeUrl "v2")).1.chans 0 =
      sentOn exCurrent.chans 0 ++
        [createResponse exRequestAll1 (exSnapshot.GetResources exRequestAll1.TypeUrl) "v2"] :=
  have h := (SetSnapshot_again exCurrent "n1" exSnapshot).2.2.2 1
    { Request := exRequestAll1, Response := 0 } (by decide) (by decide) (by decide)
  have h2 := (h.2.2 "v2" (by decide)).1 (Or.inl (by decide))
  ⟨by decide, by decide, by decide, h2.1⟩

/-! ## The status record `CreateWatch` ensures -/

theorem entryOf_of_some (c : snapshotCache) (request : Request) (info : statusInfo)
    (h : GoMap.get c.status (c.hash request.Node) = some info) : entryOf c request = info := by
  unfold entryOf; rw [h]

theorem entryOf_of_none (c : snapshotCache) (request : Request)
    (h : GoMap.get c.status (c.hash request.Node) = none) :
    entryOf c request = newStatusInfo request.Node := by
  unfold entryOf; rw [h]

theorem status_CreateWatch (c : snapshotCache) (request : Request) (now : Nat) :
    ∃ info', (CreateWatch c request now).cache.status =
        GoMap.set c.status (c.hash request.Node) info' ∧
      info'.node = (entryOf c request).node ∧ info'.lastWatchRequestTime = now ∧
      ((CreateWatch c request now).cancel = none → info'.watches = (entryOf c request).watches) ∧
      ∀ id, id ≠ wrapInt64 (c.watchCount + 1) →
        GoMap.get info'.watches id = GoMap.get (entryOf c request).watches id := by
  rcases CreateWatch_cases c request now with hc | ⟨s, _, _, hc⟩
  · rw [hc]
    refine ⟨_, rfl, rfl, rfl, ?_, ?_⟩
    · intro h; simp [openWatch] at h
    · intro id hid
      simp only [nextWatchID]
      exact GoMap.get_set_other _ _ _ _ (Ne.symm hid)
  · rw [hc]
    exact ⟨_, rfl, rfl, rfl, fun _ => rfl, fun _ _ => rfl⟩

theorem node_kept_step (c : snapshotCache) (op : Op) (k : String) (info : statusInfo)
    (hg : GoMap.get c.status k = some info) (hop : op ≠ Op.clearSnapshot k) :
    ∃ info', GoMap.get (step c op).status k = some info' ∧ info'.node = info.node := by
  cases op with
  | setSnapshot n s =>
    show ∃ info', GoMap.get (SetSnapshot c n s).1.status k = some info' ∧ _
    by_cases hn : n = k
    · subst hn
      unfold SetSnapshot
      rw [hg]
      exact ⟨_, GoMap.get_set_self _ _ _, rfl⟩
    · rw [status_SetSnapshot_other c n s k hn]
      exact ⟨info, hg, rfl⟩
  | clearSnapshot n =>
    have hn : ¬ n = k := by
      intro h; subst h; exact hop rfl
    refine ⟨info, ?_, rfl⟩
    show GoMap.get (GoMap.delete c.status n) k = some info
    rw [GoMap.get_delete, if_neg hn]; exact hg
  | createWatch request now =>
    show ∃ info', GoMap.get (CreateWatch c request now).cache.status k = some info' ∧ _
    obtain ⟨info', hst, hnode, _, _, _⟩ := status_CreateWatch c request now
    rw [hst]
    by_cases hn : c.hash request.Node = k
    · subst hn
      refine ⟨info', GoMap.get_set_self _ _ _, ?_⟩
      rw [hnode, entryOf_of_some c request info hg]
    · rw [GoMap.get_set_other _ _ _ _ hn]
      exact ⟨info, hg, rfl⟩
  | cancel n id =>
    show ∃ info', GoMap.get (cancelWatch c n id).status k = some info' ∧ _
    unfold cancelWatch
    by_cases hn : n = k
    · subst hn
      rw [hg]
      exact ⟨_, GoMap.get_set_self _ _ _, rfl⟩
    · cases hgn : GoMap.get c.status n with
      | none => exact ⟨info, hg, rfl⟩
      | some infon =>
        simp only
        rw [GoMap.get_set_other _ _ _ _ hn]
        exact ⟨info, hg, rfl⟩
  | fetch request =>
    show ∃ info', GoMap.get (Fetch c request).1.status k = some info' ∧ _
    rw [Fetch_cache]
    exact ⟨info, hg, rfl⟩

theorem node_kept_run (ops : List Op) (c : snapshotCache) (k : String) (info : statusInfo)
    (hg : GoMap.get c.status k = some info) (hops : ∀ op ∈ ops, op ≠ Op.clearSnapshot k) :
    ∃ info', GoMap.get (run c ops).status k = some info' ∧ info'.node = info.node := by
  induction ops generalizing c info with
  | nil => exact ⟨info, hg, rfl⟩
  | cons op t ih =>
    obtain ⟨info1, h1, hn1⟩ := node_kept_step c op k info hg (hops op (List.mem_cons_self _ _))
    obtain ⟨info2, h2, hn2⟩ := ih (step c op) info1 h1
      (fun o ho => hops o (List.mem_cons_of_mem _ ho))
    exact ⟨info2, h2, by rw [hn2, hn1]⟩

/-- C23: after `CreateWatch c request now`, in either branch, the node-id of the
request is among the status keys and has a status record.  The descriptor of
that record is the one of the request when the record was created by this
call, and the one the record had when it existed; it stays the same through
every later sequence of calls that does not clear the node, in particular
through later `CreateWatch` calls for the same node-id.  The watches of an
existing record are kept: every id other than the newly allocated one has the
watch it had, the immediate-response branch changes no watch, and when the
registered ids lie between 1 and the 64-bit counter every watch is kept. -/
theorem CreateWatch_status_entry (c : snapshotCache) (request : Request) (now : Nat) :
    c.hash request.Node ∈ GetStatusKeys (CreateWatch c request now).cache ∧
    ∃ info', GetStatusInfo (CreateWatch c request now).cache (c.hash request.Node) =
        some info' ∧
      (GetStatusInfo c (c.hash request.Node) = none → info'.GetNode = request.Node) ∧
      (∀ info, GetStatusInfo c (c.hash request.Node) = some info →
        info'.GetNode = info.GetNode ∧
        (∀ id w, id ≠ wrapInt64 (c.watchCount + 1) →
          GoMap.get info.watches id = some w → GoMap.get info'.watches id = some w) ∧
        ((CreateWatch c request now).cancel = none → info'.watches = info.watches) ∧
        ((-2 ^ 63 ≤ c.watchCount ∧ c.watchCount < 2 ^ 63) →
          (∀ x ∈ info.watches, 1 ≤ x.1 ∧ x.1 ≤ c.watchCount) →
          ∀ id w, GoMap.get info.watches id = some w →
            GoMap.get info'.watches id = some w)) ∧
      (∀ ops : List Op, (∀ op ∈ ops, op ≠ Op.clearSnapshot (c.hash request.Node)) →
        ∃ info'', GetStatusInfo (run (CreateWatch c request now).cache ops)
            (c.hash request.Node) = some info'' ∧
          info''.GetNode = info'.GetNode) := by
  obtain ⟨info', hst, hnode, _, himm, hget⟩ := status_CreateWatch c request now
  have hinfo : GoMap.get (CreateWatch c request now).cache.status (c.hash request.Node) =
      some info' := by
    rw [hst]; exact GoMap.get_set_self _ _ _
  refine ⟨?_, info', hinfo, ?_, ?_, ?_⟩
  · rw [GetStatusKeys_eq, mem_keys_iff, hinfo]; simp
  · intro hnone
    show info'.node = request.Node
    rw [hnode, entryOf_of_none c request hnone]; rfl
  · intro info hsome
    have he := entryOf_of_some c request info hsome
    rw [he] at hnode himm hget
    refine ⟨hnode, ?_, himm, ?_⟩
    · intro id w hid hw
      rw [hget id hid]; exact hw
    · intro hrange hids id w hw
      have hid : id ≠ wrapInt64 (c.watchCount + 1) := by
        intro heq
        have hb := hids (id, w) (GoMap.mem_of_get _ _ _ hw)
        simp only at hb
        rcases wrapInt64_succ_fresh c.watchCount hrange.1 hrange.2 with h2 | h2 <;> omega
      rw [hget id hid]; exact hw
  · intro ops hops
    exact node_kept_run ops _ _ info' hinfo hops

/-! ## Open watches are current -/

theorem snapshots_step (c : snapshotCache) (op : Op) (k : String) :
    GoMap.get (step c op).snapshots k = GoMap.get c.snapshots k ∨
    (∃ s, op = Op.setSnapshot k s ∧ GoMap.get (step c op).snapshots k = some s) ∨
    (op = Op.clearSnapshot k ∧ GoMap.get (step c op).snapshots k = none) := by
  cases op with
  | setSnapshot n s =>
    by_cases hn : n = k
    · subst hn
      right; left
      refine ⟨s, rfl, ?_⟩
      show GoMap.get (SetSnapshot c n s).1.snapshots n = some s
      rw [snapshots_SetSnapshot, GoMap.get_set_self]
    · left
      show GoMap.get (SetSnapshot c n s).1.snapshots k = _
      rw [snapshots_SetSnapshot, GoMap.get_set_other _ _ _ _ hn]
  | clearSnapshot n =>
    by_cases hn : n = k
    · subst hn
      right; right
      refine ⟨rfl, ?_⟩
      show GoMap.get (GoMap.delete c.snapshots n) n = none
      rw [GoMap.get_delete]; simp
    · left
      show GoMap.get (GoMap.delete c.snapshots n) k = _
      rw [GoMap.get_delete, if_neg hn]
  | createWatch request now =>
    left
    show GoMap.get (CreateWatch c request now).cache.snapshots k = _
    rw [(CreateWatch_fixed c request now).1]
  | cancel n id =>
    left
    show GoMap.get (cancelWatch c n id).snapshots k = _
    unfold cancelWatch
    cases GoMap.get c.status n <;> rfl
  | fetch request =>
    left
    show GoMap.get (Fetch c request).1.snapshots k = _
    rw [Fetch_cache]

theorem mem_watchesOf_filter_step (c : snapshotCache) (op : Op) (k : String)
    (x : Int × ResponseWatch) (hx : x ∈ watchesOf (step c op) k)
    (hop : ∀ request now, op ≠ Op.createWatch request now) :
    x ∈ watchesOf c k := by
  rcases step_shape c op with ⟨_, _, hf⟩ | ⟨request, now, hop', _⟩
  · obtain ⟨p, hp⟩ := hf k
    rw [hp] at hx
    exact (List.mem_filter.1 hx).1
  · exact absurd hop' (hop request now)

theorem current_step (c : snapshotCache) (op : Op) (h : Current c) : Current (step c op) := by
  intro k s hs x hx
  rcases snapshots_step c op k with hsame | ⟨s', hop, hset⟩ | ⟨_, hclr⟩
  · rw [hsame] at hs
    cases op with
    | createWatch request now =>
      rcases CreateWatch_cases c request now with hc | ⟨s0, hs0, hv0, hc⟩
      · have hx' : x ∈ watchesOf (openWatch c (c.hash request.Node)
            { entryOf c request with lastWatchRequestTime := now } request c.chans.length
            (c.chans ++ [Chan.fresh])).cache k := by
          rw [← hc]; exact hx
        rw [watchesOf_openWatch] at hx'
        by_cases hk : c.hash request.Node = k
        · rw [if_pos hk] at hx'
          rcases GoMap.mem_set _ _ _ _ hx' with h1 | h1
          · exact h k s hs x h1
          · subst h1
            subst hk
            by_contra hne
            have himm := CreateWatch_of_immediate c request now s hs (fun heq => hne heq.symm)
            rw [hc] at himm
            have hcancel := congrArg WatchResult.cancel himm
            simp [openWatch] at hcancel
        · rw [if_neg hk] at hx'
          exact h k s hs x hx'
      · have hx' : x ∈ watchesOf (CreateWatch c request now).cache k := hx
        rw [watchesOf_CreateWatch_immediate c request now s0 hs0 hv0] at hx'
        exact h k s hs x hx'
    | setSnapshot n s1 =>
      exact h k s hs x (mem_watchesOf_filter_step c (Op.setSnapshot n s1) k x hx
        (by intro _ _ h0; cases h0))
    | clearSnapshot n =>
      exact h k s hs x (mem_watchesOf_filter_step c (Op.clearSnapshot n) k x hx
        (by intro _ _ h0; cases h0))
    | cancel n id =>
      exact h k s hs x (mem_watchesOf_filter_step c (Op.cancel n id) k x hx
        (by intro _ _ h0; cases h0))
    | fetch request =>
      exact h k s hs x (mem_watchesOf_filter_step c (Op.fetch request) k x hx
        (by intro _ _ h0; cases h0))
  · subst hop
    rw [hset] at hs
    cases hs
    have hns := current_after_SetSnapshot c k s x hx
    unfold stale at hns
    exact (not_not.1 hns).symm
  · rw [hclr] at hs; cases hs

theorem current_run (ops : List Op) (c : snapshotCache) (h : Current c) :
    Current (run c ops) := by
  induction ops generalizing c with
  | nil => exact h
  | cons op t ih => exact ih (step c op) (current_step c op h)

/-- C24: in every state reached from a new cache by `SetSnapshot`,
`ClearSnapshot`, `CreateWatch`, `Fetch` and cancel calls, every watch
registered on a node that has a stored snapshot carries the version of that
snapshot for its type; so a registered watch whose version differs from it is
on a node for which no snapshot is stored. -/
theorem open_watches_current (ads : Bool) (hash : Node → String) (ops : List Op) :
    (∀ k s, GoMap.get (run (NewSnapshotCache ads hash) ops).snapshots k = some s →
      ∀ x ∈ watchesOf (run (NewSnapshotCache ads hash) ops) k,
        x.2.Request.VersionInfo = s.GetVersion x.2.Request.TypeUrl) ∧
    (∀ k s, GetSnapshot (run (NewSnapshotCache ads hash) ops) k = Except.ok s →
      ∀ x ∈ watchesOf (run (NewSnapshotCache ads hash) ops) k,
        x.2.Request.VersionInfo = s.GetVersion x.2.Request.TypeUrl) ∧
    (∀ k, ∀ x ∈ watchesOf (run (NewSnapshotCache ads hash) ops) k,
      (∃ s, GoMap.get (run (NewSnapshotCache ads hash) ops).snapshots k = some s ∧
        x.2.Request.VersionInfo = s.GetVersion x.2.Request.TypeUrl) ∨
      GoMap.get (run (NewSnapshotCache ads hash) ops).snapshots k = none) := by
  have h0 : Current (NewSnapshotCache ads hash) := by
    intro k s hs
    simp [NewSnapshotCache, GoMap.get] at hs
  have h := current_run ops _ h0
  refine ⟨h, ?_, ?_⟩
  · intro k s hs
    apply h k s
    unfold GetSnapshot at hs
    cases hg : GoMap.get (run (NewSnapshotCache ads hash) ops).snapshots k with
    | none => rw [hg] at hs; cases hs
    | some s' => rw [hg] at hs; cases hs; rfl
  · intro k x hx
    cases hg : GoMap.get (run (NewSnapshotCache ads hash) ops).snapshots k with
    | none => exact Or.inr rfl
    | some s => exact Or.inl ⟨s, rfl, h k s hg x hx⟩

/-! ## `overlap` and `ParseProtocol` -/

theorem ipEqual_symm (a b : List Nat) : ipEqual a b = ipEqual b a := by
  unfold ipEqual
  by_cases h : a.length = b.length
  · rw [if_pos h, if_pos h.symm]
    by_cases hab : a = b
    · subst hab; rfl
    · have hba : ¬ b = a := fun h' => hab h'.symm
      simp [hab, hba]
  · have h' : ¬ b.length = a.length := fun h0 => h h0.symm
    rw [if_neg h, if_neg h']
    by_cases h1 : a.length = 4 ∧ b.length = 16
    · have h2 : ¬ (b.length = 4 ∧ a.length = 16) := by omega
      have h3 : b.length = 16 ∧ a.length = 4 := ⟨h1.2, h1.1⟩
      rw [if_pos h1, if_neg h2, if_pos h3]
      by_cases hab : a = List.drop 12 b
      · have hba : List.drop 12 b = a := hab.symm
        simp [hab]
      · have hba : ¬ List.drop 12 b = a := fun h0 => hab h0.symm
        simp [hab, hba]
    · rw [if_neg h1]
      by_cases h2 : a.length = 16 ∧ b.length = 4
      · have h3 : b.length = 4 ∧ a.length = 16 := ⟨h2.2, h2.1⟩
        rw [if_pos h2, if_pos h3]
        by_cases hab : List.drop 12 a = b
        · have hba : b = List.drop 12 a := hab.symm
          simp [hab]
        · have hba : ¬ b = List.drop 12 a := fun h0 => hab h0.symm
          simp [hab, hba]
      · have h3 : ¬ (b.length = 4 ∧ a.length = 16) := fun h0 => h2 ⟨h0.2, h0.1⟩
        have h4 : ¬ (b.length = 16 ∧ a.length = 4) := fun h0 => h1 ⟨h0.2, h0.1⟩
        rw [if_neg h2, if_neg h3, if_neg h4]

/-- C25: for methods `IsUnspecified` and `Equal` of the address type with `Equal`
symmetric, as the method of `net.IP` is, `overlap` returns true whenever one
of the two addresses is unspecified, otherwise it returns what `Equal` returns
for the two addresses, and it is symmetric. -/
theorem overlap_spec {IP : Type} (net : IPMethods IP)
    (hsym : ∀ a b, net.Equal a b = net.Equal b a) :
    (∀ a b, net.IsUnspecified a = true ∨ net.IsUnspecified b = true →
      overlap net a b = true) ∧
    (∀ a b, net.IsUnspecified a = false → net.IsUnspecified b = false →
      overlap net a b = net.Equal a b) ∧
    (∀ a b, overlap net a b = overlap net b a) := by
  refine ⟨?_, ?_, ?_⟩
  · intro a b h
    unfold overlap
    rw [if_pos h]
  · intro a b ha hb
    unfold overlap
    rw [if_neg]
    rw [ha, hb]; simp
  · intro a b
    unfold overlap
    by_cases h : net.IsUnspecified a = true ∨ net.IsUnspecified b = true
    · rw [if_pos h, if_pos h.symm]
    · rw [if_neg h, if_neg (fun h0 => h h0.symm)]
      exact hsym a b

/-- Instance of C25 on addresses given by their bytes, with the methods of
the Go standard library: the wildcard 0.0.0.0 overlaps with 10.0.0.1 in
either order, and 10.0.0.1 overlaps with its 16-byte form. -/
theorem overlap_spec_witness :
    overlap goIP [0, 0, 0, 0] [10, 0, 0, 1] = true ∧
    overlap goIP [10, 0, 0, 1] [0, 0, 0, 0] = overlap goIP [0, 0, 0, 0] [10, 0, 0, 1] ∧
    overlap goIP [10, 0, 0, 1] (v4InV6Prefix ++ [10, 0, 0, 1]) =
      goIP.Equal [10, 0, 0, 1] (v4InV6Prefix ++ [10, 0, 0, 1]) ∧
    overlap goIP [10, 0, 0, 1] [10, 0, 0, 2] = false :=
  have h := overlap_spec goIP ipEqual_symm
  ⟨h.1 _ _ (Or.inl (by decide)), h.2.2 _ _, h.2.1 _ _ (by decide) (by decide), by decide⟩

/-- C26: `ParseProtocol` is a total function of the tag; it returns
`ProtocolHTTP` exactly when the lower-cased tag is `http`, `ProtocolTCP`
exactly when it is `tcp`, and `ProtocolUnknown` in all other cases.  Since
lower-casing leaves the three constants as they are, every member of
`SupportedProtocols` is parsed to itself, and parsing the result of a parse
returns that result. -/
theorem ParseProtocol_spec (ToLower : String → String)
    (hhttp : ToLower "http" = "http") (htcp : ToLower "tcp" = "tcp")
    (hunknown : ToLower "<unknown>" = "<unknown>") :
    (∀ tag, (ParseProtocol ToLower tag = ProtocolHTTP ↔ ToLower tag = "http") ∧
      (ParseProtocol ToLower tag = ProtocolTCP ↔ ToLower tag = "tcp") ∧
      (ParseProtocol ToLower tag = ProtocolUnknown ↔
        (ToLower tag ≠ "http" ∧ ToLower tag ≠ "tcp"))) ∧
    (∀ p ∈ SupportedProtocols, ParseProtocol ToLower p = p) ∧
    (∀ tag, ParseProtocol ToLower (ParseProtocol ToLower tag) = ParseProtocol ToLower tag) := by
  have hne1 : ("http" : String) ≠ "tcp" := by decide
  have hne2 : ("tcp" : String) ≠ "<unknown>" := by decide
  have hne3 : ("http" : String) ≠ "<unknown>" := by decide
  have hH : ParseProtocol ToLower "http" = "http" := by
    simp [ParseProtocol, ProtocolHTTP, hhttp]
  have hT : ParseProtocol ToLower "tcp" = "tcp" := by
    simp [ParseProtocol, ProtocolHTTP, ProtocolTCP, htcp, hne1.symm]
  have hU : ParseProtocol ToLower "<unknown>" = "<unknown>" := by
    simp [ParseProtocol, ProtocolHTTP, ProtocolTCP, ProtocolUnknown, hunknown, hne2.symm,
      hne3.symm]
  refine ⟨?_, ?_, ?_⟩
  · intro tag
    unfold ParseProtocol ProtocolHTTP ProtocolTCP ProtocolUnknown
    by_cases h1 : ToLower tag = "http"
    · simp [h1, hne1, hne3]
    · by_cases h2 : ToLower tag = "tcp"
      · simp [h1, h2, hne1.symm, hne2]
      · simp [h1, h2, hne2.symm, hne3.symm]
  · intro p hp
    simp only [SupportedProtocols, ProtocolHTTP, ProtocolTCP, List.mem_cons,
      List.mem_singleton, List.not_mem_nil, or_false] at hp
    rcases hp with hp | hp
    · rw [hp]; exact hH
    · rw [hp]; exact hT
  · intro tag
    have hcases : ParseProtocol ToLower tag = "http" ∨ ParseProtocol ToLower tag = "tcp" ∨
        ParseProtocol ToLower tag = "<unknown>" := by
      unfold ParseProtocol ProtocolHTTP ProtocolTCP ProtocolUnknown
      by_cases h1 : ToLower tag = "http"
      · simp [h1]
      · by_cases h2 : ToLower tag = "tcp"
        · simp [h1, h2]
        · simp [h1, h2]
    rcases hcases with h | h | h
    · rw [h]; exact hH
    · rw [h]; exact hT
    · rw [h]; exact hU

/-- Instance of C26 with the lower-casing of ASCII letters: the tags `HTTP` and
`Tcp` are parsed to the supported protocols, `udp` is unknown. -/
theorem ParseProtocol_spec_witness :
    asciiToLower "http" = "http" ∧ asciiToLower "tcp" = "tcp" ∧
    asciiToLower "<unknown>" = "<unknown>" ∧
    ParseProtocol asciiToLower "HTTP" = ProtocolHTTP ∧
    ParseProtocol asciiToLower "Tcp" = ProtocolTCP ∧
    ParseProtocol asciiToLower "udp" = ProtocolUnknown ∧
    ParseProtocol asciiToLower (ParseProtocol asciiToLower "udp") =
      ParseProtocol asciiToLower "udp" :=
  have h := ParseProtocol_spec asciiToLower (by decide) (by decide) (by decide)
  ⟨by decide, by decide, by decide, ((h.1 "HTTP").1).2 (by decide),
    ((h.1 "Tcp").2.1).2 (by decide), ((h.1 "udp").2.2).2 (by decide), h.2.2 "udp"⟩

/-- The modelled method `IsUnspecified` holds exactly for the address 0.0.0.0,
in its 4-byte or its 16-byte form, and for the address `::`. -/
theorem ipIsUnspecified_iff (ip : List Nat) :
    ipIsUnspecified ip = true ↔
      ip = [0, 0, 0, 0] ∨ ip = IPv4zero ∨ ip = IPv6unspecified := by
  have hl4 : IPv4zero.length = 16 := by decide
  have hl6 : IPv6unspecified.length = 16 := by decide
  unfold ipIsUnspecified ipEqual
  rw [hl4, hl6]
  by_cases h16 : ip.length = 16
  · have hne : ip ≠ [0, 0, 0, 0] := by
      intro h; rw [h] at h16; simp at h16
    simp [h16, hne]
  · by_cases h4 : ip.length = 4
    · have hne1 : ip ≠ IPv4zero := by
        intro h; rw [h, hl4] at h4; simp at h4
      have hne2 : ip ≠ IPv6unspecified := by
        intro h; rw [h, hl6] at h4; simp at h4
      have hd1 : List.drop 12 IPv4zero = [0, 0, 0, 0] := by decide
      have ht1 : List.take 12 IPv4zero = v4InV6Prefix := by decide
      have ht2 : List.take 12 IPv6unspecified ≠ v4InV6Prefix := by decide
      simp [h4, hne1, hne2, hd1, ht1, ht2]
    · have hne0 : ip ≠ [0, 0, 0, 0] := by
        intro h; rw [h] at h4; simp at h4
      have hne1 : ip ≠ IPv4zero := by
        intro h; rw [h, hl4] at h16; simp at h16
      have hne2 : ip ≠ IPv6unspecified := by
        intro h; rw [h, hl6] at h16; simp at h16
      simp [h16, h4, hne0, hne1, hne2]

end Xds
